import Mathlib

/-!
A verification development for the odds enrichment pipeline of
nfl/odds_schedule.py.  DataFrames are modelled shallowly: a row is an
association list from column names to optional values (a value of none
models a null cell, and an absent key models a column the row does not
carry), and a frame couples an ordered column list with a list of rows.
Team tables are association lists mirroring the Python dictionaries
entry by entry.  Network and file reads are modelled by explicit
parameters: the fetched provider payload is passed in as data, and the
historical CSV read is an oracle that can be missing, unreadable
(pandas read_csv raises) or a concrete table.
-/

namespace OddsSched

/-- A dataframe cell value: integers, rationals (for half point lines) or
strings.  Null cells are represented by wrapping values in Option. -/
inductive Value where
  | vInt : Int → Value
  | vRat : Rat → Value
  | vStr : String → Value
deriving DecidableEq, Repr

/-- A row of a dataframe: an association list from column names to nullable
values.  Key order models pandas column order inside a record. -/
abbrev Row := List (String × Option Value)

/-- Reading a cell: the first entry with the given key, flattened so that a
missing key reads as null. -/
def Row.get : Row → String → Option Value
  | [], _ => none
  | (k, v) :: rest, c => if k = c then v else Row.get rest c

/-- Whether the row carries the key at all (Python dict membership). -/
def Row.hasKey : Row → String → Bool
  | [], _ => false
  | (k, _) :: rest, c => decide (k = c) || Row.hasKey rest c

/-- Python dict assignment: update the first occurrence in place, or append
the key at the end when absent. -/
def rowSet : Row → String → Option Value → Row
  | [], c, v => [(c, v)]
  | (k, w) :: rest, c, v =>
    if k = c then (k, v) :: rest else (k, w) :: rowSet rest c v

/-- Python dict setdefault: insert only when the key is absent. -/
def rowSetdefault (r : Row) (c : String) (v : Option Value) : Row :=
  if r.hasKey c then r else r ++ [(c, v)]

/-- A dataframe: an ordered list of column names and a list of rows. -/
structure Frame where
  cols : List String
  rows : List Row
deriving DecidableEq, Repr

/-- ODDS_TEAM_NAME_TO_ABBR from odds_schedule.py, entry for entry. -/
def ODDS_TEAM_NAME_TO_ABBR : List (String × String) := [
  ("Arizona Cardinals", "ARI"),
  ("Atlanta Falcons", "ATL"),
  ("Baltimore Ravens", "BAL"),
  ("Buffalo Bills", "BUF"),
  ("Carolina Panthers", "CAR"),
  ("Chicago Bears", "CHI"),
  ("Cincinnati Bengals", "CIN"),
  ("Cleveland Browns", "CLE"),
  ("Dallas Cowboys", "DAL"),
  ("Denver Broncos", "DEN"),
  ("Detroit Lions", "DET"),
  ("Green Bay Packers", "GB"),
  ("Houston Texans", "HOU"),
  ("Indianapolis Colts", "IND"),
  ("Jacksonville Jaguars", "JAX"),
  ("Kansas City Chiefs", "KC"),
  ("Las Vegas Raiders", "LV"),
  ("Los Angeles Chargers", "LAC"),
  ("Los Angeles Rams", "LAR"),
  ("Miami Dolphins", "MIA"),
  ("Minnesota Vikings", "MIN"),
  ("New England Patriots", "NE"),
  ("New Orleans Saints", "NO"),
  ("New York Giants", "NYG"),
  ("New York Jets", "NYJ"),
  ("Philadelphia Eagles", "PHI"),
  ("Pittsburgh Steelers", "PIT"),
  ("Seattle Seahawks", "SEA"),
  ("San Francisco 49ers", "SF"),
  ("Tampa Bay Buccaneers", "TB"),
  ("Tennessee Titans", "TEN"),
  ("Washington Commanders", "WAS")]

/-- TEAM_ABBR_FIXES from odds_schedule.py, entry for entry. -/
def TEAM_ABBR_FIXES : List (String × String) := [
  ("ARI", "ARI"),
  ("BLT", "BAL"),
  ("BAL", "BAL"),
  ("CLV", "CLE"),
  ("CLE", "CLE"),
  ("GBP", "GB"),
  ("GNB", "GB"),
  ("GB", "GB"),
  ("HST", "HOU"),
  ("HOU", "HOU"),
  ("JAC", "JAX"),
  ("JAX", "JAX"),
  ("KAN", "KC"),
  ("KC", "KC"),
  ("LA", "LAR"),
  ("LAR", "LAR"),
  ("SD", "LAC"),
  ("LAC", "LAC"),
  ("OAK", "LV"),
  ("LVR", "LV"),
  ("LV", "LV"),
  ("NOR", "NO"),
  ("NO", "NO"),
  ("NWE", "NE"),
  ("NE", "NE"),
  ("SFO", "SF"),
  ("SF", "SF"),
  ("STL", "LAR"),
  ("TAM", "TB"),
  ("TB", "TB"),
  ("WFT", "WAS"),
  ("WSH", "WAS"),
  ("WAS", "WAS")]

/-- HISTORICAL_NAME_MAP from odds_schedule.py, entry for entry. -/
def HISTORICAL_NAME_MAP : List (String × String) := [
  ("ml_home", "home_moneyline"),
  ("ml_away", "away_moneyline"),
  ("moneyline_home", "home_moneyline"),
  ("moneyline_away", "away_moneyline"),
  ("home_ml", "home_moneyline"),
  ("away_ml", "away_moneyline"),
  ("spread", "spread_line"),
  ("spread_home", "spread_line"),
  ("total", "total_line"),
  ("game_total", "total_line"),
  ("over", "over_odds"),
  ("under", "under_odds")]

/-- ODDS_VALUE_COLUMNS from odds_schedule.py. -/
def ODDS_VALUE_COLUMNS : List String := [
  "home_moneyline",
  "away_moneyline",
  "spread_line",
  "home_spread_odds",
  "away_spread_odds",
  "total_line",
  "over_odds",
  "under_odds"]

/-- The key columns used by the orchestrator, in source order. -/
def KEY_COLS : List String := ["season", "week", "home_team", "away_team"]

/-- Charwise uppercasing, modelling the Python str.upper call on the team
labels fed to the abbreviation fix table (all of whose keys are ASCII). -/
def pyUpper (s : String) : String := ⟨s.data.map Char.toUpper⟩

/-- The string core of normalize_team: full name table first, then the
uppercased input against the abbreviation fixes, else passthrough. -/
def normalizeTeamStr (name : String) : String :=
  match ODDS_TEAM_NAME_TO_ABBR.lookup name with
  | some abbr => abbr
  | none =>
    match TEAM_ABBR_FIXES.lookup (pyUpper name) with
    | some abbr => abbr
    | none => name

/-- The normalize_team contract on nullable strings: null maps to null. -/
def normalizeTeam : Option String → Option String
  | none => none
  | some s => some (normalizeTeamStr s)

/-- normalize_team as applied to dataframe cells: null and non string cells
pass through unchanged, string cells go through the lookup tables. -/
def normalizeVal : Option Value → Option Value
  | some (Value.vStr s) => some (Value.vStr (normalizeTeamStr s))
  | v => v

/-! Helper lemmas about association list lookups over the concrete tables. -/

theorem lookup_mem {l : List (String × String)} {k v : String}
    (h : l.lookup k = some v) : (k, v) ∈ l := by
  induction l with
  | nil => simp [List.lookup] at h
  | cons p rest ih =>
    rcases p with ⟨a, b⟩
    by_cases hk : k = a
    · subst hk
      simp [List.lookup_cons] at h
      simp [h]
    · rw [List.lookup_cons, beq_false_of_ne hk] at h
      exact List.mem_cons_of_mem _ (ih h)

/-- Looking up any key of the full name table returns its table value. -/
theorem fullname_lookup_self :
    ∀ p ∈ ODDS_TEAM_NAME_TO_ABBR,
      ODDS_TEAM_NAME_TO_ABBR.lookup p.1 = some p.2 := by decide

/-- Every value of the full name table is a fixed point of normalizeTeamStr. -/
theorem fullname_values_fixed :
    ∀ p ∈ ODDS_TEAM_NAME_TO_ABBR, normalizeTeamStr p.2 = p.2 := by decide

/-- Every value of the abbreviation fix table is a fixed point of
normalizeTeamStr. -/
theorem fixes_values_fixed :
    ∀ p ∈ TEAM_ABBR_FIXES, normalizeTeamStr p.2 = p.2 := by decide

theorem normalizeTeamStr_idem (s : String) :
    normalizeTeamStr (normalizeTeamStr s) = normalizeTeamStr s := by
  unfold normalizeTeamStr
  cases hfull : ODDS_TEAM_NAME_TO_ABBR.lookup s with
  | some a =>
    have := fullname_values_fixed _ (lookup_mem hfull)
    simpa [normalizeTeamStr] using this
  | none =>
    cases hfix : TEAM_ABBR_FIXES.lookup (pyUpper s) with
    | some a =>
      have := fixes_values_fixed _ (lookup_mem hfix)
      simpa [normalizeTeamStr] using this
    | none =>
      simp [hfull, hfix]

/-- C4: normalize returns null on null input; on a string input it returns
the canonical abbreviation when the input is a known full team name,
otherwise the abbreviation mapped from the uppercased input when that is a
known alternate abbreviation, otherwise the input unchanged.  The function
is total, so it never raises. -/
theorem normalizeTeam_cases :
    normalizeTeam none = none
    ∧ (∀ s a, ODDS_TEAM_NAME_TO_ABBR.lookup s = some a →
        normalizeTeam (some s) = some a)
    ∧ (∀ s a, ODDS_TEAM_NAME_TO_ABBR.lookup s = none →
        TEAM_ABBR_FIXES.lookup (pyUpper s) = some a →
        normalizeTeam (some s) = some a)
    ∧ (∀ s, ODDS_TEAM_NAME_TO_ABBR.lookup s = none →
        TEAM_ABBR_FIXES.lookup (pyUpper s) = none →
        normalizeTeam (some s) = some s) := by
  refine ⟨rfl, ?_, ?_, ?_⟩
  · intro s a h
    simp [normalizeTeam, normalizeTeamStr, h]
  · intro s a h1 h2
    simp [normalizeTeam, normalizeTeamStr, h1, h2]
  · intro s h1 h2
    simp [normalizeTeam, normalizeTeamStr, h1, h2]

/-- Witness for C4 at concrete inputs: a full name, an alternate
abbreviation and an unknown string. -/
theorem normalizeTeam_cases_witness :
    normalizeTeam (some "Kansas City Chiefs") = some "KC"
    ∧ normalizeTeam (some "gnb") = some "GB"
    ∧ normalizeTeam (some "Narnia") = some "Narnia" :=
  ⟨normalizeTeam_cases.2.1 "Kansas City Chiefs" "KC" (by decide),
   normalizeTeam_cases.2.2.1 "gnb" "GB" (by decide) (by decide),
   normalizeTeam_cases.2.2.2 "Narnia" (by decide) (by decide)⟩

/-- C5: normalize is idempotent on every input, and every entry of the full
name table normalizes to its documented abbreviation, which is itself left
unchanged by a second normalization. -/
theorem normalizeTeam_idem :
    (∀ x, normalizeTeam (normalizeTeam x) = normalizeTeam x)
    ∧ (∀ p ∈ ODDS_TEAM_NAME_TO_ABBR,
        normalizeTeam (some p.1) = some p.2
        ∧ normalizeTeam (some p.2) = some p.2) := by
  constructor
  · intro x
    cases x with
    | none => rfl
    | some s => simp [normalizeTeam, normalizeTeamStr_idem]
  · intro p hp
    constructor
    · have hl := fullname_lookup_self p hp
      simp [normalizeTeam, normalizeTeamStr, hl]
    · have := fullname_values_fixed p hp
      simp [normalizeTeam, this]

/-- Witness for C5 at a concrete table entry. -/
theorem normalizeTeam_idem_witness :
    normalizeTeam (normalizeTeam (some "St. Louis")) = normalizeTeam (some "St. Louis")
    ∧ normalizeTeam (some "Green Bay Packers") = some "GB"
    ∧ normalizeTeam (some "GB") = some "GB" :=
  ⟨normalizeTeam_idem.1 (some "St. Louis"),
   (normalizeTeam_idem.2 ("Green Bay Packers", "GB") (by decide)).1,
   (normalizeTeam_idem.2 ("Green Bay Packers", "GB") (by decide)).2⟩

/-! Basic lemmas about row reads and writes. -/

theorem Row.get_append_left {r1 r2 : Row} {c : String} (h : r1.hasKey c = true) :
    Row.get (r1 ++ r2) c = Row.get r1 c := by
  induction r1 with
  | nil => simp [Row.hasKey] at h
  | cons p rest ih =>
    rcases p with ⟨k, v⟩
    by_cases hk : k = c
    · simp [Row.get, hk]
    · simp [Row.hasKey, hk] at h
      simp [Row.get, hk, ih h]

theorem Row.get_append_right {r1 r2 : Row} {c : String} (h : r1.hasKey c = false) :
    Row.get (r1 ++ r2) c = Row.get r2 c := by
  induction r1 with
  | nil => simp
  | cons p rest ih =>
    rcases p with ⟨k, v⟩
    simp [Row.hasKey] at h
    simp [Row.get, h.1, ih h.2]

theorem Row.get_of_not_hasKey {r : Row} {c : String} (h : r.hasKey c = false) :
    r.get c = none := by
  induction r with
  | nil => rfl
  | cons p rest ih =>
    rcases p with ⟨k, v⟩
    simp [Row.hasKey] at h
    simp [Row.get, h.1, ih h.2]

theorem rowSet_get_self (r : Row) (c : String) (v : Option Value) :
    (rowSet r c v).get c = v := by
  induction r with
  | nil => simp [rowSet, Row.get]
  | cons p rest ih =>
    rcases p with ⟨k, w⟩
    by_cases hk : k = c
    · simp [rowSet, hk, Row.get]
    · simp [rowSet, hk, Row.get, ih]

theorem rowSet_get_ne (r : Row) {c cq : String} (v : Option Value) (h : cq ≠ c) :
    (rowSet r c v).get cq = r.get cq := by
  induction r with
  | nil => simp [rowSet, Row.get, Ne.symm h]
  | cons p rest ih =>
    rcases p with ⟨k, w⟩
    by_cases hk : k = c
    · subst hk
      simp [rowSet, Row.get, Ne.symm h]
    · simp [rowSet, hk, Row.get, ih]

theorem rowSet_hasKey_self (r : Row) (c : String) (v : Option Value) :
    (rowSet r c v).hasKey c = true := by
  induction r with
  | nil => simp [rowSet, Row.hasKey]
  | cons p rest ih =>
    rcases p with ⟨k, w⟩
    by_cases hk : k = c
    · simp [rowSet, hk, Row.hasKey]
    · simp [rowSet, hk, Row.hasKey, ih]

theorem rowSet_hasKey_ne (r : Row) {c cq : String} (v : Option Value) (h : cq ≠ c) :
    (rowSet r c v).hasKey cq = r.hasKey cq := by
  induction r with
  | nil => simp [rowSet, Row.hasKey, Ne.symm h]
  | cons p rest ih =>
    rcases p with ⟨k, w⟩
    by_cases hk : k = c
    · subst hk
      simp [rowSet, Row.hasKey]
    · simp [rowSet, hk, Row.hasKey, ih]

theorem rowSetdefault_of_hasKey (r : Row) {c : String} (v : Option Value)
    (h : r.hasKey c = true) : rowSetdefault r c v = r := by
  unfold rowSetdefault
  simp [h]

theorem rowSetdefault_get_self_of_not (r : Row) {c : String} (v : Option Value)
    (h : r.hasKey c = false) : (rowSetdefault r c v).get c = v := by
  unfold rowSetdefault
  rw [if_neg (by simp [h])]
  rw [Row.get_append_right h]
  simp [Row.get]

theorem rowSetdefault_get_ne (r : Row) {c cq : String} (v : Option Value) (h : cq ≠ c) :
    (rowSetdefault r c v).get cq = r.get cq := by
  unfold rowSetdefault
  by_cases hk : r.hasKey c = true
  · rw [if_pos hk]
  · rw [if_neg hk]
    by_cases hq : r.hasKey cq = true
    · exact Row.get_append_left hq
    · have h1 : Row.get (r ++ [(c, v)]) cq = Row.get [(c, v)] cq :=
        Row.get_append_right (by simpa using hq)
      rw [h1, @Row.get_of_not_hasKey r cq (by simpa using hq)]
      simp [Row.get, Ne.symm h]

theorem rowSetdefault_hasKey_self (r : Row) (c : String) (v : Option Value) :
    (rowSetdefault r c v).hasKey c = true := by
  unfold rowSetdefault
  by_cases hk : r.hasKey c = true
  · simp [hk]
  · rw [if_neg hk]
    induction r with
    | nil => simp [Row.hasKey]
    | cons p rest ih =>
      rcases p with ⟨k, w⟩
      simp [Row.hasKey] at hk ⊢
      rcases hk with ⟨h1, h2⟩
      exact Or.inr (ih (by simp [h2]))

/-! The market extractor: a shallow model of the provider JSON payload and
of the odds_json_to_frame translation. -/

/-- One outcome inside a market: a display name, a price and an optional
point value, any of which the payload may omit. -/
structure Outcome where
  name : Option String
  price : Option Value
  point : Option Value
deriving DecidableEq, Repr

/-- One market of a bookmaker: a key and a list of outcomes. -/
structure Market where
  key : Option String
  outcomes : List Outcome
deriving DecidableEq, Repr

/-- One bookmaker quote: a key and a list of markets. -/
structure Bookmaker where
  key : Option String
  markets : List Market
deriving DecidableEq, Repr

/-- One event of the provider response. -/
structure Event where
  home_team : Option String
  teams : List String
  commence_time : Option Value
  bookmakers : List Bookmaker
deriving DecidableEq, Repr

/-- Charwise lowercasing, modelling the Python str.lower calls used for the
case insensitive bookmaker preference match. -/
def pyLower (s : String) : String := ⟨s.data.map Char.toLower⟩

/-- The select_bookmaker helper: with a truthy preference, the first
bookmaker whose key matches case insensitively wins, otherwise the first
bookmaker in the list; an empty list selects nothing. -/
def selectBookmaker (bookmakers : List Bookmaker) (preference : Option String) :
    Option Bookmaker :=
  match bookmakers with
  | [] => none
  | b0 :: _ =>
    match preference with
    | some p =>
      if p = "" then some b0
      else
        match bookmakers.find? (fun b => pyLower (b.key.getD "") = pyLower p) with
        | some b => some b
        | none => some b0
    | none => some b0

/-- The find_market helper: the first market whose key equals the target. -/
def findMarket (b : Bookmaker) (marketKey : String) : Option Market :=
  b.markets.find? (fun m => m.key = some marketKey)

/-- The find_outcome helper: the first outcome whose name equals the target. -/
def findOutcome (m : Market) (target : String) : Option Outcome :=
  m.outcomes.find? (fun o => o.name = some target)

/-- The moneyline block of the per event loop: with an h2h market present,
the home and away named outcomes supply the two moneyline prices, a missing
outcome writing an explicit null. -/
def h2hSection (bk : Bookmaker) (hf af : String) (row : Row) : Row :=
  match findMarket bk "h2h" with
  | some m =>
    let row := rowSet row "home_moneyline" ((findOutcome m hf).bind (fun o => o.price))
    rowSet row "away_moneyline" ((findOutcome m af).bind (fun o => o.price))
  | none => row

/-- The spreads block of the per event loop: the home outcome supplies the
line and its price; the away outcome supplies its price, and its point only
defaults the line when the home outcome did not set the key. -/
def spreadsSection (bk : Bookmaker) (hf af : String) (row : Row) : Row :=
  match findMarket bk "spreads" with
  | some m =>
    let row :=
      match findOutcome m hf with
      | some ho => rowSet (rowSet row "spread_line" ho.point) "home_spread_odds" ho.price
      | none => row
    match findOutcome m af with
    | some ao => rowSet (rowSetdefault row "spread_line" ao.point) "away_spread_odds" ao.price
    | none => row
  | none => row

/-- The totals block of the per event loop: the Over outcome supplies the
line and its price; the Under outcome supplies its price, and its point only
defaults the line when the Over outcome did not set the key. -/
def totalsSection (bk : Bookmaker) (row : Row) : Row :=
  match findMarket bk "totals" with
  | some m =>
    let row :=
      match findOutcome m "Over" with
      | some ov => rowSet (rowSet row "total_line" ov.point) "over_odds" ov.price
      | none => row
    match findOutcome m "Under" with
    | some un => rowSet (rowSetdefault row "total_line" un.point) "under_odds" un.price
    | none => row
  | none => row

/-- The body of the per event loop of odds_json_to_frame, after the home and
away names and the bookmaker have been fixed: the base record followed by
the three market blocks, with dict update and setdefault semantics. -/
def buildRow (hf af : String) (e : Event) (bk : Bookmaker) : Row :=
  totalsSection bk (spreadsSection bk hf af (h2hSection bk hf af [
    ("home_team", some (Value.vStr (normalizeTeamStr hf))),
    ("away_team", some (Value.vStr (normalizeTeamStr af))),
    ("commence_time", e.commence_time),
    ("odds_source", some (Value.vStr "odds_api"))]))

/-- The per event step of odds_json_to_frame: events with a falsy home or
away name, or without a bookmaker, are skipped. -/
def eventToRow (pref : Option String) (e : Event) : Option Row :=
  match e.home_team, e.teams.find? (fun t => some t ≠ e.home_team) with
  | some hf, some af =>
    if hf = "" ∨ af = "" then none
    else
      match selectBookmaker e.bookmakers pref with
      | none => none
      | some bk => some (buildRow hf af e bk)
  | some _, none => none
  | none, _ => none

/-- Column union across rows in first seen order, modelling the column set
pandas derives from a list of dict records. -/
def colsUnion (rows : List Row) : List String :=
  rows.foldl (fun acc r => acc ++ (r.map Prod.fst).filter (fun c => decide (c ∉ acc))) []

/-- The odds_json_to_frame translation: one flat record per usable event,
with the two team columns as the schema fallback when no event is usable. -/
def oddsJsonToFrame (events : List Event) (pref : Option String) : Frame :=
  let rows := events.filterMap (eventToRow pref)
  if rows.isEmpty then { cols := ["home_team", "away_team"], rows := [] }
  else { cols := colsUnion rows, rows := rows }

/-! Preservation lemmas for the market blocks of the extractor. -/

theorem Row.hasKey_append (r1 r2 : Row) (c : String) :
    (r1 ++ r2).hasKey c = (r1.hasKey c || r2.hasKey c) := by
  induction r1 with
  | nil => simp [Row.hasKey]
  | cons p rest ih =>
    rcases p with ⟨k, w⟩
    simp [Row.hasKey, ih, Bool.or_assoc]

theorem rowSetdefault_hasKey_ne (r : Row) {c cq : String} (v : Option Value)
    (h : cq ≠ c) : (rowSetdefault r c v).hasKey cq = r.hasKey cq := by
  unfold rowSetdefault
  by_cases hk : r.hasKey c = true
  · rw [if_pos hk]
  · rw [if_neg hk, Row.hasKey_append]
    simp [Row.hasKey, Ne.symm h]

theorem h2hSection_get_ne (bk : Bookmaker) (hf af : String) (row : Row) {c : String}
    (h1 : c ≠ "home_moneyline") (h2 : c ≠ "away_moneyline") :
    (h2hSection bk hf af row).get c = row.get c := by
  cases hm : findMarket bk "h2h" with
  | none => simp only [h2hSection, hm]
  | some m =>
    simp only [h2hSection, hm]
    rw [rowSet_get_ne _ _ h2, rowSet_get_ne _ _ h1]

theorem h2hSection_hasKey_ne (bk : Bookmaker) (hf af : String) (row : Row) {c : String}
    (h1 : c ≠ "home_moneyline") (h2 : c ≠ "away_moneyline") :
    (h2hSection bk hf af row).hasKey c = row.hasKey c := by
  cases hm : findMarket bk "h2h" with
  | none => simp only [h2hSection, hm]
  | some m =>
    simp only [h2hSection, hm]
    rw [rowSet_hasKey_ne _ _ h2, rowSet_hasKey_ne _ _ h1]

theorem spreadsSection_get_ne (bk : Bookmaker) (hf af : String) (row : Row) {c : String}
    (h1 : c ≠ "spread_line") (h2 : c ≠ "home_spread_odds") (h3 : c ≠ "away_spread_odds") :
    (spreadsSection bk hf af row).get c = row.get c := by
  cases hm : findMarket bk "spreads" with
  | none => simp only [spreadsSection, hm]
  | some m =>
    simp only [spreadsSection, hm]
    cases hho : findOutcome m hf with
    | some ho =>
      cases hao : findOutcome m af with
      | some ao =>
        rw [rowSet_get_ne _ _ h3, rowSetdefault_get_ne _ _ h1,
          rowSet_get_ne _ _ h2, rowSet_get_ne _ _ h1]
      | none => rw [rowSet_get_ne _ _ h2, rowSet_get_ne _ _ h1]
    | none =>
      cases hao : findOutcome m af with
      | some ao => rw [rowSet_get_ne _ _ h3, rowSetdefault_get_ne _ _ h1]
      | none => rfl

theorem spreadsSection_hasKey_ne (bk : Bookmaker) (hf af : String) (row : Row) {c : String}
    (h1 : c ≠ "spread_line") (h2 : c ≠ "home_spread_odds") (h3 : c ≠ "away_spread_odds") :
    (spreadsSection bk hf af row).hasKey c = row.hasKey c := by
  cases hm : findMarket bk "spreads" with
  | none => simp only [spreadsSection, hm]
  | some m =>
    simp only [spreadsSection, hm]
    cases hho : findOutcome m hf with
    | some ho =>
      cases hao : findOutcome m af with
      | some ao =>
        rw [rowSet_hasKey_ne _ _ h3, rowSetdefault_hasKey_ne _ _ h1,
          rowSet_hasKey_ne _ _ h2, rowSet_hasKey_ne _ _ h1]
      | none => rw [rowSet_hasKey_ne _ _ h2, rowSet_hasKey_ne _ _ h1]
    | none =>
      cases hao : findOutcome m af with
      | some ao => rw [rowSet_hasKey_ne _ _ h3, rowSetdefault_hasKey_ne _ _ h1]
      | none => rfl

theorem totalsSection_get_ne (bk : Bookmaker) (row : Row) {c : String}
    (h1 : c ≠ "total_line") (h2 : c ≠ "over_odds") (h3 : c ≠ "under_odds") :
    (totalsSection bk row).get c = row.get c := by
  cases hm : findMarket bk "totals" with
  | none => simp only [totalsSection, hm]
  | some m =>
    simp only [totalsSection, hm]
    cases hov : findOutcome m "Over" with
    | some ov =>
      cases hun : findOutcome m "Under" with
      | some un =>
        rw [rowSet_get_ne _ _ h3, rowSetdefault_get_ne _ _ h1,
          rowSet_get_ne _ _ h2, rowSet_get_ne _ _ h1]
      | none => rw [rowSet_get_ne _ _ h2, rowSet_get_ne _ _ h1]
    | none =>
      cases hun : findOutcome m "Under" with
      | some un => rw [rowSet_get_ne _ _ h3, rowSetdefault_get_ne _ _ h1]
      | none => rfl

theorem spreadsSection_get_both (bk : Bookmaker) (hf af : String) (row : Row)
    {m : Market} {ho ao : Outcome}
    (hm : findMarket bk "spreads" = some m)
    (hho : findOutcome m hf = some ho) (hao : findOutcome m af = some ao) :
    (spreadsSection bk hf af row).get "spread_line" = ho.point
    ∧ (spreadsSection bk hf af row).get "home_spread_odds" = ho.price
    ∧ (spreadsSection bk hf af row).get "away_spread_odds" = ao.price := by
  simp only [spreadsSection, hm, hho, hao]
  refine ⟨?_, ?_, ?_⟩
  · rw [rowSet_get_ne _ _ (by decide),
      rowSetdefault_of_hasKey _ _
        (by rw [rowSet_hasKey_ne _ _ (by decide)]; exact rowSet_hasKey_self _ _ _),
      rowSet_get_ne _ _ (by decide), rowSet_get_self]
  · rw [rowSet_get_ne _ _ (by decide),
      rowSetdefault_get_ne _ _ (by decide), rowSet_get_self]
  · rw [rowSet_get_self]

theorem spreadsSection_get_home_missing (bk : Bookmaker) (hf af : String) (row : Row)
    {m : Market} {ao : Outcome}
    (hm : findMarket bk "spreads" = some m)
    (hho : findOutcome m hf = none) (hao : findOutcome m af = some ao)
    (hkey : row.hasKey "spread_line" = false) :
    (spreadsSection bk hf af row).get "spread_line" = ao.point := by
  simp only [spreadsSection, hm, hho, hao]
  rw [rowSet_get_ne _ _ (by decide), rowSetdefault_get_self_of_not _ _ hkey]

theorem totalsSection_get_both (bk : Bookmaker) (row : Row)
    {m : Market} {ov un : Outcome}
    (hm : findMarket bk "totals" = some m)
    (hov : findOutcome m "Over" = some ov) (hun : findOutcome m "Under" = some un) :
    (totalsSection bk row).get "total_line" = ov.point
    ∧ (totalsSection bk row).get "over_odds" = ov.price
    ∧ (totalsSection bk row).get "under_odds" = un.price := by
  simp only [totalsSection, hm, hov, hun]
  refine ⟨?_, ?_, ?_⟩
  · rw [rowSet_get_ne _ _ (by decide),
      rowSetdefault_of_hasKey _ _
        (by rw [rowSet_hasKey_ne _ _ (by decide)]; exact rowSet_hasKey_self _ _ _),
      rowSet_get_ne _ _ (by decide), rowSet_get_self]
  · rw [rowSet_get_ne _ _ (by decide),
      rowSetdefault_get_ne _ _ (by decide), rowSet_get_self]
  · rw [rowSet_get_self]

theorem totalsSection_get_over_missing (bk : Bookmaker) (row : Row)
    {m : Market} {un : Outcome}
    (hm : findMarket bk "totals" = some m)
    (hov : findOutcome m "Over" = none) (hun : findOutcome m "Under" = some un)
    (hkey : row.hasKey "total_line" = false) :
    (totalsSection bk row).get "total_line" = un.point := by
  simp only [totalsSection, hm, hov, hun]
  rw [rowSet_get_ne _ _ (by decide), rowSetdefault_get_self_of_not _ _ hkey]

/-- C7: for an event whose chosen bookmaker reports both sides of the
spreads market, spread_line is the home outcome point and the away outcome
contributes only its price; likewise total_line is the Over outcome point
with the Under outcome contributing only its price; the away or Under point
supplies the line only when the home or Over outcome is absent. -/
theorem extractor_line_precedence (e : Event) (pref : Option String)
    (hf af : String) (bk : Bookmaker)
    (hh : e.home_team = some hf)
    (ha : e.teams.find? (fun t => some t ≠ e.home_team) = some af)
    (hf0 : hf ≠ "") (af0 : af ≠ "")
    (hbk : selectBookmaker e.bookmakers pref = some bk) :
    eventToRow pref e = some (buildRow hf af e bk)
    ∧ (∀ m ho ao, findMarket bk "spreads" = some m →
        findOutcome m hf = some ho → findOutcome m af = some ao →
        (buildRow hf af e bk).get "spread_line" = ho.point
        ∧ (buildRow hf af e bk).get "home_spread_odds" = ho.price
        ∧ (buildRow hf af e bk).get "away_spread_odds" = ao.price)
    ∧ (∀ m ov un, findMarket bk "totals" = some m →
        findOutcome m "Over" = some ov → findOutcome m "Under" = some un →
        (buildRow hf af e bk).get "total_line" = ov.point
        ∧ (buildRow hf af e bk).get "over_odds" = ov.price
        ∧ (buildRow hf af e bk).get "under_odds" = un.price)
    ∧ (∀ m ao, findMarket bk "spreads" = some m →
        findOutcome m hf = none → findOutcome m af = some ao →
        (buildRow hf af e bk).get "spread_line" = ao.point)
    ∧ (∀ m un, findMarket bk "totals" = some m →
        findOutcome m "Over" = none → findOutcome m "Under" = some un →
        (buildRow hf af e bk).get "total_line" = un.point) := by
  refine ⟨?_, ?_, ?_, ?_, ?_⟩
  · unfold eventToRow
    rw [ha, hh]
    dsimp only
    rw [if_neg (by simp [hf0, af0]), hbk]
  · intro m ho ao hm hho hao
    have hs := spreadsSection_get_both bk hf af (h2hSection bk hf af
      [("home_team", some (Value.vStr (normalizeTeamStr hf))),
       ("away_team", some (Value.vStr (normalizeTeamStr af))),
       ("commence_time", e.commence_time),
       ("odds_source", some (Value.vStr "odds_api"))]) hm hho hao
    refine ⟨?_, ?_, ?_⟩
    · rw [buildRow, totalsSection_get_ne _ _ (by decide) (by decide) (by decide)]
      exact hs.1
    · rw [buildRow, totalsSection_get_ne _ _ (by decide) (by decide) (by decide)]
      exact hs.2.1
    · rw [buildRow, totalsSection_get_ne _ _ (by decide) (by decide) (by decide)]
      exact hs.2.2
  · intro m ov un hm hov hun
    have ht := totalsSection_get_both bk (spreadsSection bk hf af (h2hSection bk hf af
      [("home_team", some (Value.vStr (normalizeTeamStr hf))),
       ("away_team", some (Value.vStr (normalizeTeamStr af))),
       ("commence_time", e.commence_time),
       ("odds_source", some (Value.vStr "odds_api"))])) hm hov hun
    exact ⟨ht.1, ht.2.1, ht.2.2⟩
  · intro m ao hm hho hao
    rw [buildRow, totalsSection_get_ne _ _ (by decide) (by decide) (by decide)]
    refine spreadsSection_get_home_missing bk hf af _ hm hho hao ?_
    rw [h2hSection_hasKey_ne _ _ _ _ (by decide) (by decide)]
    simp [Row.hasKey]
  · intro m un hm hov hun
    rw [buildRow]
    refine totalsSection_get_over_missing bk _ hm hov hun ?_
    rw [spreadsSection_hasKey_ne _ _ _ _ (by decide) (by decide) (by decide),
      h2hSection_hasKey_ne _ _ _ _ (by decide) (by decide)]
    simp [Row.hasKey]

/-- A concrete Over outcome used by witnesses. -/
def wOver : Outcome :=
  { name := some "Over", price := some (Value.vInt (-108)), point := some (Value.vInt 47) }

/-- A concrete Under outcome used by witnesses. -/
def wUnder : Outcome :=
  { name := some "Under", price := some (Value.vInt (-112)), point := some (Value.vInt 47) }

/-- A concrete home spread outcome used by witnesses. -/
def wHoSpread : Outcome :=
  { name := some "Kansas City Chiefs", price := some (Value.vInt (-110)),
    point := some (Value.vInt (-3)) }

/-- A concrete away spread outcome used by witnesses. -/
def wAoSpread : Outcome :=
  { name := some "Denver Broncos", price := some (Value.vInt (-105)),
    point := some (Value.vInt 3) }

/-- A concrete spreads market used by witnesses. -/
def wSpreads : Market := { key := some "spreads", outcomes := [wHoSpread, wAoSpread] }

/-- A concrete totals market used by witnesses. -/
def wTotals : Market := { key := some "totals", outcomes := [wOver, wUnder] }

/-- A concrete bookmaker used by witnesses. -/
def wBook : Bookmaker := { key := some "pinnacle", markets := [wSpreads, wTotals] }

/-- A concrete event used by witnesses. -/
def wEvent : Event :=
  { home_team := some "Kansas City Chiefs",
    teams := ["Kansas City Chiefs", "Denver Broncos"],
    commence_time := some (Value.vStr "2023-09-08T00:20:00Z"),
    bookmakers := [wBook] }

/-- Witness for C7 on a concrete event with both spread sides and both
total sides reported. -/
theorem extractor_line_precedence_witness :
    (buildRow "Kansas City Chiefs" "Denver Broncos" wEvent wBook).get "spread_line"
      = some (Value.vInt (-3))
    ∧ (buildRow "Kansas City Chiefs" "Denver Broncos" wEvent wBook).get "away_spread_odds"
      = some (Value.vInt (-105))
    ∧ (buildRow "Kansas City Chiefs" "Denver Broncos" wEvent wBook).get "total_line"
      = some (Value.vInt 47)
    ∧ eventToRow (some "pinnacle") wEvent
      = some (buildRow "Kansas City Chiefs" "Denver Broncos" wEvent wBook) := by
  have h := extractor_line_precedence wEvent (some "pinnacle")
    "Kansas City Chiefs" "Denver Broncos" wBook rfl (by decide) (by decide)
    (by decide) (by decide)
  obtain ⟨hrow, hs, ht, h4, h5⟩ := h
  have h1 := hs wSpreads wHoSpread wAoSpread (by decide) (by decide) (by decide)
  have h2 := ht wTotals wOver wUnder (by decide) (by decide) (by decide)
  exact ⟨h1.1, h1.2.2, h2.1, hrow⟩

/-! The latest odds preparation step: drop rows with a missing team, sort
by commence_time and keep the last row of each team pair.  sort_values is
modelled as a stable sort over a total comparison on cells that puts null
last, matching the pandas na_position default. -/

/-- Lexicographic comparison of character lists by code point, the order
pandas uses when sorting a string valued column. -/
def charListLe : List Char → List Char → Bool
  | [], _ => true
  | _ :: _, [] => false
  | a :: as, b :: bs =>
    if a.toNat < b.toNat then true
    else if b.toNat < a.toNat then false
    else charListLe as bs

theorem charListLe_refl : ∀ as, charListLe as as = true := by
  intro as
  induction as with
  | nil => rfl
  | cons a as ih => simp [charListLe, ih]

theorem charListLe_total : ∀ as bs, charListLe as bs = true ∨ charListLe bs as = true := by
  intro as
  induction as with
  | nil => intro bs; left; cases bs <;> rfl
  | cons a as ih =>
    intro bs
    cases bs with
    | nil => right; rfl
    | cons b bs =>
      by_cases h1 : a.toNat < b.toNat
      · left; simp [charListLe, h1]
      · by_cases h2 : b.toNat < a.toNat
        · right; simp [charListLe, h2]
        · rcases ih bs with h | h
          · left; simp [charListLe, h1, h2, h]
          · right; simp [charListLe, h1, h2, h]

theorem charListLe_trans :
    ∀ as bs cs, charListLe as bs = true → charListLe bs cs = true →
      charListLe as cs = true := by
  intro as
  induction as with
  | nil => intro bs cs _ _; cases cs <;> rfl
  | cons a as ih =>
    intro bs cs h1 h2
    cases bs with
    | nil => simp [charListLe] at h1
    | cons b bs =>
      cases cs with
      | nil => simp [charListLe] at h2
      | cons c cs =>
        simp only [charListLe] at h1 h2 ⊢
        split_ifs at h1 h2 ⊢ <;> try rfl
        all_goals try omega
        all_goals exact ih bs cs h1 h2

/-- Comparison on cell values: ranked by constructor, compared within one. -/
def Value.le : Value → Value → Bool
  | Value.vInt a, Value.vInt b => decide (a ≤ b)
  | Value.vInt _, Value.vRat _ => true
  | Value.vInt _, Value.vStr _ => true
  | Value.vRat _, Value.vInt _ => false
  | Value.vRat a, Value.vRat b => decide (a ≤ b)
  | Value.vRat _, Value.vStr _ => true
  | Value.vStr _, Value.vInt _ => false
  | Value.vStr _, Value.vRat _ => false
  | Value.vStr a, Value.vStr b => charListLe a.data b.data

theorem valueLe_refl (a : Value) : a.le a = true := by
  cases a <;> simp [Value.le, charListLe_refl]

theorem valueLe_total (a b : Value) : a.le b = true ∨ b.le a = true := by
  cases a with
  | vInt x =>
    cases b with
    | vInt y => simp [Value.le]; omega
    | vRat y => left; rfl
    | vStr y => left; rfl
  | vRat x =>
    cases b with
    | vInt y => right; rfl
    | vRat y => simp [Value.le]; exact le_total x y
    | vStr y => left; rfl
  | vStr x =>
    cases b with
    | vInt y => right; rfl
    | vRat y => right; rfl
    | vStr y => simp only [Value.le]; exact charListLe_total _ _

theorem valueLe_trans {a b c : Value} (h1 : a.le b = true) (h2 : b.le c = true) :
    a.le c = true := by
  cases a <;> cases b <;> cases c <;>
    simp only [Value.le, decide_eq_true_eq] at h1 h2 ⊢ <;>
    first
      | rfl
      | exact absurd h1 Bool.false_ne_true
      | exact absurd h2 Bool.false_ne_true
      | omega
      | exact le_trans h1 h2
      | exact charListLe_trans _ _ _ h1 h2

/-- Comparison on nullable cells with null sorted last, the pandas
na_position default for an ascending sort. -/
def optValLe : Option Value → Option Value → Bool
  | _, none => true
  | none, some _ => false
  | some a, some b => a.le b

theorem optValLe_refl (v : Option Value) : optValLe v v = true := by
  cases v <;> simp [optValLe, valueLe_refl]

theorem optValLe_total (v w : Option Value) :
    optValLe v w = true ∨ optValLe w v = true := by
  cases v <;> cases w <;> simp [optValLe, valueLe_total]

theorem optValLe_trans {v w u : Option Value} (h1 : optValLe v w = true)
    (h2 : optValLe w u = true) : optValLe v u = true := by
  cases v <;> cases w <;> cases u <;> simp_all [optValLe]
  exact valueLe_trans h1 h2

/-- The sort key relation used by sort_values on commence_time. -/
def commenceLe (r1 r2 : Row) : Bool :=
  optValLe (r1.get "commence_time") (r2.get "commence_time")

instance rowLeTotal : IsTotal Row (fun a b => commenceLe a b = true) :=
  ⟨fun a b => optValLe_total _ _⟩

instance rowLeTrans : IsTrans Row (fun a b => commenceLe a b = true) :=
  ⟨fun _ _ _ h1 h2 => optValLe_trans h1 h2⟩

/-- The dropna subset home_team away_team step on the live frame. -/
def dropnaTeams (f : Frame) : Frame :=
  { f with
    rows := f.rows.filter
      (fun r => (r.get "home_team").isSome && (r.get "away_team").isSome) }

/-- The deduplication key of a live row. -/
def rowKey (r : Row) : Option Value × Option Value :=
  (r.get "home_team", r.get "away_team")

/-- The sort_values commence_time step, modelled as a stable sort. -/
def sortRows (rows : List Row) : List Row :=
  List.insertionSort (fun a b => commenceLe a b = true) rows

/-- drop_duplicates on the team pair with keep last: a row survives when no
later row carries the same key. -/
def dedupKeepLast : List Row → List Row
  | [] => []
  | r :: rest =>
    if rest.any (fun x => decide (rowKey x = rowKey r)) = true then dedupKeepLast rest
    else r :: dedupKeepLast rest

/-- Lines 305 to 309 of the orchestrator: dropna on the team columns, then,
when the frame is nonempty and carries commence_time, sort by it and keep
the last row per team pair. -/
def prepLatest (f : Frame) : Frame :=
  let f1 := dropnaTeams f
  if f1.rows.isEmpty ∨ "commence_time" ∉ f1.cols then f1
  else { f1 with rows := dedupKeepLast (sortRows f1.rows) }

theorem mem_dropnaTeams {f : Frame} {r : Row} :
    r ∈ (dropnaTeams f).rows ↔ r ∈ f.rows
      ∧ ((r.get "home_team").isSome && (r.get "away_team").isSome) = true := by
  unfold dropnaTeams
  exact List.mem_filter

theorem dedup_subset : ∀ (l : List Row) (r : Row), r ∈ dedupKeepLast l → r ∈ l := by
  intro l
  induction l with
  | nil => intro r h; simp [dedupKeepLast] at h
  | cons y rest ih =>
    intro r h
    unfold dedupKeepLast at h
    by_cases hc : rest.any (fun x => decide (rowKey x = rowKey y)) = true
    · rw [if_pos hc] at h
      exact List.mem_cons_of_mem _ (ih r h)
    · rw [if_neg hc] at h
      rcases List.mem_cons.mp h with rfl | hr
      · exact List.mem_cons_self _ _
      · exact List.mem_cons_of_mem _ (ih r hr)

theorem dedup_filter_sing :
    ∀ (l : List Row) (k : Option Value × Option Value),
      (∃ x ∈ l, rowKey x = k) →
      ∃ r, rowKey r = k ∧ r ∈ l ∧
        (dedupKeepLast l).filter (fun x => decide (rowKey x = k)) = [r] := by
  intro l
  induction l with
  | nil => rintro k ⟨x, hx, _⟩; simp at hx
  | cons y rest ih =>
    rintro k ⟨x, hx, hk⟩
    unfold dedupKeepLast
    by_cases hc : rest.any (fun z => decide (rowKey z = rowKey y)) = true
    · rw [if_pos hc]
      by_cases hyk : rowKey y = k
      · rcases List.any_eq_true.mp hc with ⟨z, hz, hzk⟩
        have hzk2 : rowKey z = k := by rw [of_decide_eq_true hzk, hyk]
        obtain ⟨r, h1, h2, h3⟩ := ih k ⟨z, hz, hzk2⟩
        exact ⟨r, h1, List.mem_cons_of_mem _ h2, h3⟩
      · rcases List.mem_cons.mp hx with rfl | hxr
        · exact absurd hk hyk
        obtain ⟨r, h1, h2, h3⟩ := ih k ⟨x, hxr, hk⟩
        exact ⟨r, h1, List.mem_cons_of_mem _ h2, h3⟩
    · rw [if_neg hc]
      by_cases hyk : rowKey y = k
      · refine ⟨y, hyk, List.mem_cons_self _ _, ?_⟩
        rw [List.filter_cons_of_pos (by simp [hyk])]
        have hnil : (dedupKeepLast rest).filter (fun x => decide (rowKey x = k)) = [] := by
          rw [List.filter_eq_nil_iff]
          intro r hr hdec
          have hrk : rowKey r = k := of_decide_eq_true hdec
          exact hc (List.any_eq_true.mpr
            ⟨r, dedup_subset rest r hr, by simp [hrk, hyk]⟩)
        rw [hnil]
      · rcases List.mem_cons.mp hx with rfl | hxr
        · exact absurd hk hyk
        obtain ⟨r, h1, h2, h3⟩ := ih k ⟨x, hxr, hk⟩
        refine ⟨r, h1, List.mem_cons_of_mem _ h2, ?_⟩
        rw [List.filter_cons_of_neg (by simp [hyk])]
        exact h3

theorem dedup_max :
    ∀ l : List Row, List.Sorted (fun a b : Row => commenceLe a b = true) l →
      ∀ r ∈ dedupKeepLast l, ∀ x ∈ l, rowKey x = rowKey r → commenceLe x r = true := by
  intro l
  induction l with
  | nil => intro _ r hr; simp [dedupKeepLast] at hr
  | cons y rest ih =>
    intro hs r hr x hx hk
    have hs2 : List.Sorted (fun a b : Row => commenceLe a b = true) rest := hs.of_cons
    unfold dedupKeepLast at hr
    by_cases hc : rest.any (fun z => decide (rowKey z = rowKey y)) = true
    · rw [if_pos hc] at hr
      rcases List.mem_cons.mp hx with rfl | hxr
      · exact List.rel_of_sorted_cons hs r (dedup_subset rest r hr)
      · exact ih hs2 r hr x hxr hk
    · rw [if_neg hc] at hr
      rcases List.mem_cons.mp hr with rfl | hrr
      · rcases List.mem_cons.mp hx with rfl | hxr
        · exact optValLe_refl _
        · exact absurd (List.any_eq_true.mpr ⟨x, hxr, by simp [hk]⟩) hc
      · rcases List.mem_cons.mp hx with rfl | hxr
        · exact List.rel_of_sorted_cons hs r (dedup_subset rest r hrr)
        · exact ih hs2 r hrr x hxr hk

theorem prepLatest_rows_subset (f : Frame) :
    ∀ r ∈ (prepLatest f).rows, r ∈ (dropnaTeams f).rows := by
  intro r hr
  unfold prepLatest at hr
  by_cases hc : (dropnaTeams f).rows.isEmpty = true ∨ "commence_time" ∉ (dropnaTeams f).cols
  · rw [if_pos hc] at hr
    exact hr
  · rw [if_neg hc] at hr
    have h1 := dedup_subset _ _ hr
    exact ((List.perm_insertionSort (fun a b => commenceLe a b = true) _).mem_iff).mp h1

/-- C6: prepLatest drops every live row with a null team; and for any team
pair with non null teams and an input row, exactly one row with that pair
survives, carries a commence_time greater or equal (in the sort order, with
null last) than every input row with the pair, and when all commence times
are present it is a row with the latest commence_time value. -/
theorem prep_latest_dedup (f : Frame) (h a : Value)
    (hc : "commence_time" ∈ f.cols)
    (hsome : ∀ r ∈ f.rows, (r.get "commence_time").isSome = true)
    (hex : ∃ r ∈ f.rows, rowKey r = (some h, some a)) :
    (∀ r ∈ (prepLatest f).rows,
      (r.get "home_team").isSome = true ∧ (r.get "away_team").isSome = true)
    ∧ ∃ r tv,
        ((prepLatest f).rows.filter (fun x => decide (rowKey x = (some h, some a)))) = [r]
        ∧ r ∈ f.rows ∧ r.get "commence_time" = some tv
        ∧ ∀ r' ∈ f.rows, rowKey r' = (some h, some a) →
            ∃ tv', r'.get "commence_time" = some tv' ∧ tv'.le tv = true := by
  constructor
  · intro r hr
    have hmem := mem_dropnaTeams.mp (prepLatest_rows_subset f r hr)
    constructor
    · exact (Bool.and_eq_true _ _ |>.mp hmem.2).1
    · exact (Bool.and_eq_true _ _ |>.mp hmem.2).2
  · obtain ⟨r0, hr0, hk0⟩ := hex
    have hr0f : r0 ∈ (dropnaTeams f).rows := by
      refine mem_dropnaTeams.mpr ⟨hr0, ?_⟩
      have h1 : r0.get "home_team" = some h := congrArg Prod.fst hk0
      have h2 : r0.get "away_team" = some a := congrArg Prod.snd hk0
      simp [h1, h2]
    have hcond : ¬((dropnaTeams f).rows.isEmpty = true
        ∨ "commence_time" ∉ (dropnaTeams f).cols) := by
      intro hcase
      rcases hcase with h1 | h2
      · rw [List.isEmpty_iff] at h1
        exact List.ne_nil_of_mem hr0f h1
      · exact h2 hc
    have hprep : (prepLatest f).rows = dedupKeepLast (sortRows (dropnaTeams f).rows) := by
      unfold prepLatest
      rw [if_neg hcond]
    have hperm := List.perm_insertionSort (fun a b => commenceLe a b = true)
      (dropnaTeams f).rows
    have hr0s : r0 ∈ sortRows (dropnaTeams f).rows := hperm.mem_iff.mpr hr0f
    obtain ⟨r, hk, hmem, hfilter⟩ :=
      dedup_filter_sing (sortRows (dropnaTeams f).rows) (some h, some a) ⟨r0, hr0s, hk0⟩
    have hrf : r ∈ f.rows :=
      (mem_dropnaTeams.mp (hperm.mem_iff.mp hmem)).1
    obtain ⟨tv, htv⟩ := Option.isSome_iff_exists.mp (hsome r hrf)
    refine ⟨r, tv, ?_, hrf, htv, ?_⟩
    · rw [hprep]
      exact hfilter
    · intro r' hr' hk'
      have hr'f : r' ∈ (dropnaTeams f).rows := by
        refine mem_dropnaTeams.mpr ⟨hr', ?_⟩
        have h1 : r'.get "home_team" = some h := congrArg Prod.fst hk'
        have h2 : r'.get "away_team" = some a := congrArg Prod.snd hk'
        simp [h1, h2]
      have hr's : r' ∈ sortRows (dropnaTeams f).rows := hperm.mem_iff.mpr hr'f
      have hsorted := List.sorted_insertionSort (fun a b => commenceLe a b = true)
        (dropnaTeams f).rows
      have hrd : r ∈ dedupKeepLast (sortRows (dropnaTeams f).rows) := by
        have : r ∈ (dedupKeepLast (sortRows (dropnaTeams f).rows)).filter
            (fun x => decide (rowKey x = (some h, some a))) := by
          rw [hfilter]; exact List.mem_singleton.mpr rfl
        exact List.mem_of_mem_filter this
      have hle := dedup_max _ hsorted r hrd r' hr's (by rw [hk', hk])
      obtain ⟨tv', htv'⟩ := Option.isSome_iff_exists.mp (hsome r' hr')
      refine ⟨tv', htv', ?_⟩
      unfold commenceLe at hle
      rw [htv, htv'] at hle
      exact hle

/-- A concrete frame of two live rows for the same pair used to witness C6. -/
def wLiveDupFrame : Frame :=
  { cols := ["home_team", "away_team", "commence_time"],
    rows := [
      [("home_team", some (Value.vStr "KC")), ("away_team", some (Value.vStr "DEN")),
       ("commence_time", some (Value.vStr "2023-09-08T00:20:00Z"))],
      [("home_team", some (Value.vStr "KC")), ("away_team", some (Value.vStr "DEN")),
       ("commence_time", some (Value.vStr "2023-09-09T00:20:00Z"))]] }

/-- Witness for C6 on the concrete duplicated pair frame. -/
theorem prep_latest_dedup_witness :
    (∀ r ∈ (prepLatest wLiveDupFrame).rows,
      (r.get "home_team").isSome = true ∧ (r.get "away_team").isSome = true)
    ∧ ∃ r tv,
        ((prepLatest wLiveDupFrame).rows.filter
          (fun x => decide (rowKey x = (some (Value.vStr "KC"), some (Value.vStr "DEN"))))) = [r]
        ∧ r ∈ wLiveDupFrame.rows ∧ r.get "commence_time" = some tv
        ∧ ∀ r' ∈ wLiveDupFrame.rows,
            rowKey r' = (some (Value.vStr "KC"), some (Value.vStr "DEN")) →
            ∃ tv', r'.get "commence_time" = some tv' ∧ tv'.le tv = true :=
  prep_latest_dedup wLiveDupFrame (Value.vStr "KC") (Value.vStr "DEN")
    (by decide) (by decide)
    ⟨[("home_team", some (Value.vStr "KC")), ("away_team", some (Value.vStr "DEN")),
      ("commence_time", some (Value.vStr "2023-09-08T00:20:00Z"))],
     by decide, by decide⟩

/-! The historical backfill loader.  Reading the CSV is modelled by an
oracle: the file may be absent (os.path.exists is false and the loader
returns none), may exist but fail to parse or read (pandas read_csv raises
and nothing in the source catches it), or may yield a table. -/

/-- The outcome of reading the historical CSV at a given path. -/
inductive ReadResult where
  | missing
  | unreadable
  | content (f : Frame)
deriving DecidableEq, Repr

/-- Rename one column name through the filtered synonym map. -/
def renameOne (rmap : List (String × String)) (c : String) : String :=
  match rmap.lookup c with
  | some v => v
  | none => c

/-- pandas rename of columns: the synonym map restricted to present columns
is applied to the column list and to every row key. -/
def renameCols (f : Frame) : Frame :=
  let rmap := HISTORICAL_NAME_MAP.filter (fun p => decide (p.1 ∈ f.cols))
  { cols := f.cols.map (renameOne rmap),
    rows := f.rows.map (fun r => r.map (fun p => (renameOne rmap p.1, p.2))) }

/-- Column assignment: map a function over one column of every row. -/
def mapCol (f : Frame) (c : String) (g : Option Value → Option Value) : Frame :=
  { f with rows := f.rows.map (fun r => rowSet r c (g (r.get c))) }

/-- Projection of a frame to a column list, realigning every row. -/
def selectCols (f : Frame) (cs : List String) : Frame :=
  { cols := cs, rows := f.rows.map (fun r => cs.map (fun c => (c, r.get c))) }

/-- dict.fromkeys deduplication of a name list keeping first occurrences. -/
def dedupKeepFirst (l : List String) : List String :=
  l.foldl (fun acc c => if c ∈ acc then acc else acc ++ [c]) []

/-- The prepare_historical_lines loader: none for a falsy path or an absent
file; reading an existing file can raise, which propagates; a table missing
a key column after renaming yields none; otherwise the table is projected
to the key columns plus the present odds value columns, with the two team
columns normalized. -/
def prepareHistoricalLines (historicalCsv : String) (read : ReadResult)
    (keyCols : List String) : Except Unit (Option Frame) :=
  if historicalCsv = "" then .ok none
  else
    match read with
    | .missing => .ok none
    | .unreadable => .error ()
    | .content hist0 =>
      let hist := renameCols hist0
      let missingKeys := keyCols.filter (fun c => decide (c ∉ hist.cols))
      if ¬ missingKeys.isEmpty then .ok none
      else
        let hist2 := mapCol (mapCol hist "home_team" normalizeVal) "away_team" normalizeVal
        let keep := dedupKeepFirst
          (keyCols ++ ODDS_VALUE_COLUMNS.filter (fun c => decide (c ∈ hist2.cols)))
        .ok (some (selectCols hist2 keep))

theorem mem_dedupKeepFirst_aux :
    ∀ (l acc : List String) (x : String),
      x ∈ l.foldl (fun acc c => if c ∈ acc then acc else acc ++ [c]) acc
        ↔ x ∈ acc ∨ x ∈ l := by
  intro l
  induction l with
  | nil =>
    intro acc x
    simp
  | cons c rest ih =>
    intro acc x
    rw [List.foldl_cons, ih]
    by_cases hc : c ∈ acc
    · rw [if_pos hc]
      constructor
      · rintro (h | h)
        · exact Or.inl h
        · exact Or.inr (List.mem_cons_of_mem _ h)
      · rintro (h | h)
        · exact Or.inl h
        · rcases List.mem_cons.mp h with rfl | h2
          · exact Or.inl hc
          · exact Or.inr h2
    · rw [if_neg hc]
      constructor
      · rintro (h | h)
        · rcases List.mem_append.mp h with h1 | h1
          · exact Or.inl h1
          · rcases List.mem_singleton.mp h1 with rfl
            exact Or.inr (List.mem_cons_self _ _)
        · exact Or.inr (List.mem_cons_of_mem _ h)
      · rintro (h | h)
        · exact Or.inl (List.mem_append_left _ h)
        · rcases List.mem_cons.mp h with rfl | h2
          · exact Or.inl (List.mem_append_right _ (List.mem_singleton.mpr rfl))
          · exact Or.inr h2

theorem mem_dedupKeepFirst : ∀ (l : List String) (x : String),
    x ∈ dedupKeepFirst l ↔ x ∈ l := by
  intro l x
  unfold dedupKeepFirst
  rw [mem_dedupKeepFirst_aux]
  simp

theorem get_projRow (cs : List String) (g : String → Option Value) (c : String) :
    Row.get (cs.map (fun x => (x, g x))) c = if c ∈ cs then g c else none := by
  induction cs with
  | nil => simp [Row.get]
  | cons d rest ih =>
    by_cases hd : d = c
    · subst hd
      simp [Row.get, ih]
    · have hcd : ¬ c = d := fun h => hd h.symm
      simp [Row.get, hd, hcd, ih]

theorem selectCols_aligned (f : Frame) (cs : List String) :
    ∀ r ∈ (selectCols f cs).rows, r.map Prod.fst = cs := by
  intro r hr
  unfold selectCols at hr
  obtain ⟨r0, _, rfl⟩ := List.mem_map.mp hr
  simp [Function.comp_def]

/-- Lookup into a projected frame row in terms of the source row. -/
theorem selectCols_row_get (f : Frame) (cs : List String) (r0 : Row) (c : String) :
    Row.get (cs.map (fun x => (x, r0.get x))) c
      = if c ∈ cs then r0.get c else none :=
  get_projRow cs _ c

/-- C9 counterexample: the loader does not return null on an existing but
unreadable file; the read error propagates as the source never catches the
read_csv call. -/
theorem historical_loader_unreadable_raises :
    prepareHistoricalLines "lines.csv" ReadResult.unreadable KEY_COLS
      = Except.error () := rfl

/-- C9 amended: with a nonempty path, the loader returns null exactly when
the file is absent or when, after renaming legacy columns, a required key
column is still missing; an unreadable file propagates the read error; and
on success it returns the table projected to the key columns plus the
present canonical odds value columns, with both team columns normalized and
every other kept cell unchanged. -/
theorem historical_loader_amended (path : String) (read : ReadResult)
    (hp : path ≠ "") :
    (prepareHistoricalLines path read KEY_COLS = .error () ↔ read = .unreadable)
    ∧ (read = .missing → prepareHistoricalLines path read KEY_COLS = .ok none)
    ∧ (∀ f, read = .content f →
        (KEY_COLS.filter (fun c => decide (c ∉ (renameCols f).cols))).isEmpty = false →
        prepareHistoricalLines path read KEY_COLS = .ok none)
    ∧ (∀ f, read = .content f →
        (KEY_COLS.filter (fun c => decide (c ∉ (renameCols f).cols))).isEmpty = true →
        ∃ out, prepareHistoricalLines path read KEY_COLS = .ok (some out)
          ∧ out.cols = dedupKeepFirst (KEY_COLS ++ ODDS_VALUE_COLUMNS.filter
              (fun c => decide (c ∈ (renameCols f).cols)))
          ∧ out.rows.length = f.rows.length
          ∧ ∀ (i : Nat) (r0 : Row), (renameCols f).rows[i]? = some r0 →
              ∃ r : Row, out.rows[i]? = some r
                ∧ r.get "home_team" = normalizeVal (r0.get "home_team")
                ∧ r.get "away_team" = normalizeVal (r0.get "away_team")
                ∧ ∀ c, c ∈ out.cols → c ≠ "home_team" → c ≠ "away_team" →
                    r.get c = r0.get c) := by
  refine ⟨?_, ?_, ?_, ?_⟩
  · constructor
    · intro h
      cases read with
      | missing => simp [prepareHistoricalLines, hp] at h
      | unreadable => rfl
      | content f =>
        simp only [prepareHistoricalLines, if_neg hp] at h
        by_cases hm : ¬ (KEY_COLS.filter
            (fun c => decide (c ∉ (renameCols f).cols))).isEmpty = true
        · rw [if_pos hm] at h
          cases h
        · rw [if_neg hm] at h
          cases h
    · intro h
      subst h
      simp [prepareHistoricalLines, hp]
  · intro h
    subst h
    simp [prepareHistoricalLines, hp]
  · intro f hf hmiss
    subst hf
    simp only [prepareHistoricalLines, if_neg hp]
    rw [if_pos (by simp only [hmiss]; simp)]
  · intro f hf hmiss
    subst hf
    simp only [prepareHistoricalLines, if_neg hp]
    rw [if_neg (by simp only [hmiss]; simp)]
    refine ⟨_, rfl, rfl, ?_, ?_⟩
    · simp [selectCols, mapCol, renameCols]
    · intro i r0 hr0
      have hkeymem : ∀ c, c ∈ KEY_COLS →
          c ∈ dedupKeepFirst (KEY_COLS ++ ODDS_VALUE_COLUMNS.filter
            (fun c => decide (c ∈ (renameCols f).cols))) := by
        intro c hcm
        rw [mem_dedupKeepFirst]
        exact List.mem_append_left _ hcm
      refine ⟨(dedupKeepFirst (KEY_COLS ++ ODDS_VALUE_COLUMNS.filter
          (fun c => decide (c ∈ (renameCols f).cols)))).map
          (fun c => (c, (rowSet (rowSet r0 "home_team" (normalizeVal (r0.get "home_team")))
            "away_team" (normalizeVal ((rowSet r0 "home_team"
              (normalizeVal (r0.get "home_team"))).get "away_team"))).get c)),
        ?_, ?_, ?_, ?_⟩
      · show (selectCols _ _).rows[i]? = some _
        simp only [selectCols, mapCol, List.getElem?_map, hr0, Option.map_some]
        rfl
      · rw [get_projRow, if_pos (hkeymem _ (by decide))]
        rw [rowSet_get_ne _ _ (by decide), rowSet_get_self]
      · rw [get_projRow, if_pos (hkeymem _ (by decide))]
        rw [rowSet_get_self, rowSet_get_ne _ _ (by decide)]
      · intro c hcmem hc1 hc2
        rw [get_projRow, if_pos (by simpa [selectCols] using hcmem)]
        rw [rowSet_get_ne _ _ hc2, rowSet_get_ne _ _ hc1]

/-- A concrete historical table used to witness C9: a legacy spread column
is renamed and kept, the extra column dropped, and teams normalized. -/
def wHistRaw : Frame :=
  { cols := ["season", "week", "home_team", "away_team", "spread", "book"],
    rows := [[
      ("season", some (Value.vInt 2023)), ("week", some (Value.vInt 1)),
      ("home_team", some (Value.vStr "Kansas City Chiefs")),
      ("away_team", some (Value.vStr "DEN")),
      ("spread", some (Value.vInt (-3))), ("book", some (Value.vStr "pinnacle"))]] }

/-- Witness for C9: the amended loader contract evaluated on a concrete
renamed table, a missing file, and a table lacking the key columns. -/
theorem historical_loader_amended_witness :
    (prepareHistoricalLines "lines.csv" ReadResult.missing KEY_COLS = .ok none)
    ∧ (prepareHistoricalLines "lines.csv"
        (ReadResult.content { cols := ["season"], rows := [] }) KEY_COLS = .ok none)
    ∧ ∃ out, prepareHistoricalLines "lines.csv" (ReadResult.content wHistRaw) KEY_COLS
        = .ok (some out)
        ∧ out.cols = dedupKeepFirst (KEY_COLS ++ ODDS_VALUE_COLUMNS.filter
            (fun c => decide (c ∈ (renameCols wHistRaw).cols)))
        ∧ out.rows.length = wHistRaw.rows.length
        ∧ ∀ (i : Nat) (r0 : Row), (renameCols wHistRaw).rows[i]? = some r0 →
            ∃ r : Row, out.rows[i]? = some r
              ∧ r.get "home_team" = normalizeVal (r0.get "home_team")
              ∧ r.get "away_team" = normalizeVal (r0.get "away_team")
              ∧ ∀ c, c ∈ out.cols → c ≠ "home_team" → c ≠ "away_team" →
                  r.get c = r0.get c :=
  ⟨(historical_loader_amended "lines.csv" ReadResult.missing (by decide)).2.1 rfl,
   (historical_loader_amended "lines.csv"
      (ReadResult.content { cols := ["season"], rows := [] }) (by decide)).2.2.1
      { cols := ["season"], rows := [] } rfl (by decide),
   (historical_loader_amended "lines.csv" (ReadResult.content wHistRaw)
      (by decide)).2.2.2 wHistRaw rfl (by decide)⟩

/-! The backfill fill loop of the orchestrator (lines 331 to 339): for every
canonical odds value column whose suffixed historical counterpart is
present, null cells are filled from it, a per row flag records whether any
fill happened, and the suffixed column is dropped.  The mask.any guard of
the source only skips a no op assignment and is not modelled separately. -/

/-- Drop one key from a row. -/
def dropColRow (r : Row) (c : String) : Row :=
  r.filter (fun p => decide (p.1 ≠ c))

/-- Drop one column from a frame. -/
def dropCol (f : Frame) (c : String) : Frame :=
  { cols := f.cols.filter (fun x => decide (x ≠ c)),
    rows := f.rows.map (fun r => dropColRow r c) }

/-- The fill condition of one row for one column: the canonical cell is
null and the suffixed historical cell is not. -/
def doFill (col histCol : String) (r : Row) : Bool :=
  (r.get col).isNone && (r.get histCol).isSome

/-- One iteration of the backfill loop over one canonical column. -/
def fillOneCol (st : Frame × List Bool) (col : String) : Frame × List Bool :=
  let f := st.1
  let flags := st.2
  let histCol := col ++ "_hist"
  if histCol ∈ f.cols then
    let f2 : Frame :=
      { f with
        rows := f.rows.map
          (fun r => if doFill col histCol r = true then rowSet r col (r.get histCol) else r) }
    let flags2 := (flags.zip f.rows).map (fun p => p.1 || doFill col histCol p.2)
    (dropCol f2 histCol, flags2)
  else (f, flags)

/-- The whole backfill loop in source order. -/
def fillCols : List String → Frame × List Bool → Frame × List Bool
  | [], st => st
  | c :: cs, st => fillCols cs (fillOneCol st c)

/-- Lines 331 to 339 of the orchestrator: run the loop over the canonical
odds value columns starting from an all false fill flag vector. -/
def fillFromHist (f : Frame) : Frame × List Bool :=
  fillCols ODDS_VALUE_COLUMNS (f, List.replicate f.rows.length false)

/-! Step lemmas for the fill loop. -/

theorem dropColRow_get (r : Row) (cd c : String) (h : c ≠ cd) :
    (dropColRow r cd).get c = r.get c := by
  induction r with
  | nil => rfl
  | cons p rest ih =>
    rcases p with ⟨k, v⟩
    by_cases hk : k = cd
    · subst hk
      rw [show dropColRow ((k, v) :: rest) k = dropColRow rest k from by
        simp [dropColRow]]
      rw [ih]
      simp [Row.get, Ne.symm h]
    · rw [show dropColRow ((k, v) :: rest) cd = (k, v) :: dropColRow rest cd from by
        simp [dropColRow, hk]]
      by_cases hc : k = c
      · simp [Row.get, hc]
      · simp [Row.get, hc, ih]

theorem append_hist_ne_self (c : String) : c ≠ c ++ "_hist" := by
  intro h
  have hlen := congrArg String.length h
  rw [String.length_append] at hlen
  have h5 : ("_hist" : String).length = 5 := rfl
  omega

theorem hist_append_cancel {x y : String} (h : x ++ "_hist" = y ++ "_hist") : x = y := by
  have hd := congrArg String.data h
  rw [String.data_append, String.data_append] at hd
  exact String.ext (List.append_cancel_right hd)

theorem fillOneCol_cols (st : Frame × List Bool) (col x : String)
    (hx : x ≠ col ++ "_hist") :
    (x ∈ (fillOneCol st col).1.cols ↔ x ∈ st.1.cols) := by
  unfold fillOneCol
  by_cases hmem : (col ++ "_hist") ∈ st.1.cols
  · rw [if_pos hmem]
    simp [dropCol, hx]
  · rw [if_neg hmem]

theorem fillOneCol_rows_length (st : Frame × List Bool) (col : String) :
    (fillOneCol st col).1.rows.length = st.1.rows.length := by
  unfold fillOneCol
  by_cases hmem : (col ++ "_hist") ∈ st.1.cols
  · rw [if_pos hmem]
    simp [dropCol]
  · rw [if_neg hmem]

theorem fillOneCol_flags_length (st : Frame × List Bool) (col : String)
    (hlen : st.2.length = st.1.rows.length) :
    (fillOneCol st col).2.length = (fillOneCol st col).1.rows.length := by
  unfold fillOneCol
  by_cases hmem : (col ++ "_hist") ∈ st.1.cols
  · rw [if_pos hmem]
    simp [dropCol, hlen]
  · rw [if_neg hmem]
    exact hlen

theorem fillOneCol_get_other (f : Frame) (flags : List Bool) (col c : String)
    (i : Nat) (r : Row) (hr : f.rows[i]? = some r)
    (h1 : c ≠ col) (h2 : c ≠ col ++ "_hist") :
    ∃ r' : Row, (fillOneCol (f, flags) col).1.rows[i]? = some r'
      ∧ r'.get c = r.get c := by
  unfold fillOneCol
  by_cases hmem : (col ++ "_hist") ∈ f.cols
  · rw [if_pos hmem]
    refine ⟨dropColRow (if doFill col (col ++ "_hist") r = true
        then rowSet r col (r.get (col ++ "_hist")) else r) (col ++ "_hist"), ?_, ?_⟩
    · simp [dropCol, List.getElem?_map, hr]
    · rw [dropColRow_get _ _ _ h2]
      by_cases hdo : doFill col (col ++ "_hist") r = true
      · rw [if_pos hdo, rowSet_get_ne _ _ h1]
      · rw [if_neg hdo]
  · rw [if_neg hmem]
    exact ⟨r, hr, rfl⟩

theorem fillOneCol_get_own (f : Frame) (flags : List Bool) (col : String)
    (i : Nat) (r : Row) (hr : f.rows[i]? = some r) :
    ∃ r' : Row, (fillOneCol (f, flags) col).1.rows[i]? = some r'
      ∧ r'.get col = (if (col ++ "_hist") ∈ f.cols ∧ r.get col = none
          ∧ r.get (col ++ "_hist") ≠ none
        then r.get (col ++ "_hist") else r.get col) := by
  unfold fillOneCol
  by_cases hmem : (col ++ "_hist") ∈ f.cols
  · rw [if_pos hmem]
    refine ⟨dropColRow (if doFill col (col ++ "_hist") r = true
        then rowSet r col (r.get (col ++ "_hist")) else r) (col ++ "_hist"), ?_, ?_⟩
    · simp [dropCol, List.getElem?_map, hr]
    · rw [dropColRow_get _ _ _ (append_hist_ne_self col)]
      by_cases hdo : doFill col (col ++ "_hist") r = true
      · rw [if_pos hdo, rowSet_get_self]
        unfold doFill at hdo
        rw [Bool.and_eq_true, Option.isNone_iff_eq_none, Option.isSome_iff_ne_none] at hdo
        rw [if_pos ⟨hmem, hdo.1, hdo.2⟩]
      · rw [if_neg hdo]
        unfold doFill at hdo
        rw [Bool.and_eq_true, Option.isNone_iff_eq_none, Option.isSome_iff_ne_none] at hdo
        rw [if_neg (fun hcond => hdo ⟨hcond.2.1, hcond.2.2⟩)]
  · rw [if_neg hmem]
    refine ⟨r, hr, ?_⟩
    rw [if_neg (fun hcond => hmem hcond.1)]

theorem fillOneCol_flag (f : Frame) (flags : List Bool) (col : String)
    (i : Nat) (r : Row) (fl : Bool)
    (hr : f.rows[i]? = some r) (hfl : flags[i]? = some fl) :
    ∃ fl' : Bool, (fillOneCol (f, flags) col).2[i]? = some fl'
      ∧ (fl' = true ↔ fl = true ∨ ((col ++ "_hist") ∈ f.cols ∧ r.get col = none
          ∧ r.get (col ++ "_hist") ≠ none)) := by
  unfold fillOneCol
  by_cases hmem : (col ++ "_hist") ∈ f.cols
  · rw [if_pos hmem]
    refine ⟨fl || doFill col (col ++ "_hist") r, ?_, ?_⟩
    · rw [List.getElem?_map,
        show (flags.zip f.rows)[i]? = some (fl, r) from
          List.getElem?_zip_eq_some.mpr ⟨hfl, hr⟩]
      rfl
    · rw [Bool.or_eq_true]
      unfold doFill
      rw [Bool.and_eq_true, Option.isNone_iff_eq_none, Option.isSome_iff_ne_none]
      constructor
      · rintro (h | h)
        · exact Or.inl h
        · exact Or.inr ⟨hmem, h.1, h.2⟩
      · rintro (h | h)
        · exact Or.inl h
        · exact Or.inr ⟨h.2.1, h.2.2⟩
  · rw [if_neg hmem]
    refine ⟨fl, hfl, ?_⟩
    constructor
    · exact Or.inl
    · rintro (h | h)
      · exact h
      · exact absurd h.1 hmem

/-! Fold lemmas for the fill loop. -/

theorem fillCols_get_pres :
    ∀ (cs : List String) (f : Frame) (flags : List Bool) (c : String),
      (∀ y ∈ cs, c ≠ y ∧ c ≠ y ++ "_hist") →
      ∀ (i : Nat) (r : Row), f.rows[i]? = some r →
      ∃ r' : Row, (fillCols cs (f, flags)).1.rows[i]? = some r'
        ∧ r'.get c = r.get c := by
  intro cs
  induction cs with
  | nil =>
    intro f flags c _ i r hr
    exact ⟨r, hr, rfl⟩
  | cons x rest ih =>
    intro f flags c hcond i r hr
    have hx := hcond x (List.mem_cons_self _ _)
    obtain ⟨r1, hr1, he1⟩ := fillOneCol_get_other f flags x c i r hr hx.1 hx.2
    obtain ⟨r2, hr2, he2⟩ := ih (fillOneCol (f, flags) x).1 (fillOneCol (f, flags) x).2 c
      (fun y hy => hcond y (List.mem_cons_of_mem _ hy)) i r1 hr1
    exact ⟨r2, hr2, he2.trans he1⟩

theorem fillCols_get_formula :
    ∀ (cs : List String) (f : Frame) (flags : List Bool) (c : String),
      c ∈ cs → cs.Nodup →
      (∀ x ∈ cs, ∀ y ∈ cs, x ++ "_hist" ≠ y) →
      ∀ (i : Nat) (r : Row), f.rows[i]? = some r →
      ∃ r' : Row, (fillCols cs (f, flags)).1.rows[i]? = some r'
        ∧ r'.get c = (if (c ++ "_hist") ∈ f.cols ∧ r.get c = none
            ∧ r.get (c ++ "_hist") ≠ none
          then r.get (c ++ "_hist") else r.get c) := by
  intro cs
  induction cs with
  | nil =>
    intro f flags c hc
    simp at hc
  | cons x rest ih =>
    intro f flags c hc hnodup hhist i r hr
    rcases List.mem_cons.mp hc with rfl | hcr
    · obtain ⟨r1, hr1, he1⟩ := fillOneCol_get_own f flags c i r hr
      have hrestcond : ∀ y ∈ rest, c ≠ y ∧ c ≠ y ++ "_hist" := by
        intro y hy
        refine ⟨?_, ?_⟩
        · intro hcy
          exact (List.nodup_cons.mp hnodup).1 (hcy ▸ hy)
        · intro hcy
          exact hhist y (List.mem_cons_of_mem _ hy) c (List.mem_cons_self _ _) hcy.symm
      obtain ⟨r2, hr2, he2⟩ := fillCols_get_pres rest
        (fillOneCol (f, flags) c).1 (fillOneCol (f, flags) c).2 c hrestcond i r1 hr1
      exact ⟨r2, hr2, he2.trans he1⟩
    · have hx_ne : c ≠ x := by
        intro h
        exact (List.nodup_cons.mp hnodup).1 (h ▸ hcr)
      have hxh_ne : c ≠ x ++ "_hist" := by
        intro h
        exact hhist x (List.mem_cons_self _ _) c hc h.symm
      have hch1 : c ++ "_hist" ≠ x :=
        hhist c hc x (List.mem_cons_self _ _)
      have hch2 : c ++ "_hist" ≠ x ++ "_hist" := fun h => hx_ne (hist_append_cancel h)
      obtain ⟨r1, hr1, he1⟩ := fillOneCol_get_other f flags x c i r hr hx_ne hxh_ne
      obtain ⟨r1b, hr1b, he1b⟩ := fillOneCol_get_other f flags x (c ++ "_hist") i r hr hch1 hch2
      have hr1eq : r1b = r1 := by
        rw [hr1] at hr1b
        exact (Option.some.inj hr1b).symm
      subst hr1eq
      have hcols := fillOneCol_cols (f, flags) x (c ++ "_hist") hch2
      obtain ⟨r2, hr2, he2⟩ := ih (fillOneCol (f, flags) x).1 (fillOneCol (f, flags) x).2 c hcr
        (List.nodup_cons.mp hnodup).2
        (fun a ha b hb => hhist a (List.mem_cons_of_mem _ ha) b (List.mem_cons_of_mem _ hb))
        i r1b hr1
      refine ⟨r2, hr2, ?_⟩
      rw [he2]
      simp only [he1, he1b, hcols]

theorem fillCols_flag_formula :
    ∀ (cs : List String) (f : Frame) (flags : List Bool),
      cs.Nodup →
      (∀ x ∈ cs, ∀ y ∈ cs, x ++ "_hist" ≠ y) →
      ∀ (i : Nat) (r : Row) (fl : Bool), f.rows[i]? = some r → flags[i]? = some fl →
      ∃ fl' : Bool, (fillCols cs (f, flags)).2[i]? = some fl'
        ∧ (fl' = true ↔ fl = true ∨ ∃ c ∈ cs, (c ++ "_hist") ∈ f.cols
            ∧ r.get c = none ∧ r.get (c ++ "_hist") ≠ none) := by
  intro cs
  induction cs with
  | nil =>
    intro f flags _ _ i r fl hr hfl
    refine ⟨fl, hfl, ?_⟩
    simp
  | cons x rest ih =>
    intro f flags hnodup hhist i r fl hr hfl
    obtain ⟨r1, hr1, he1⟩ := fillOneCol_get_own f flags x i r hr
    obtain ⟨fl1, hfl1, hiff1⟩ := fillOneCol_flag f flags x i r fl hr hfl
    obtain ⟨fl2, hfl2, hiff2⟩ := ih (fillOneCol (f, flags) x).1 (fillOneCol (f, flags) x).2
      (List.nodup_cons.mp hnodup).2
      (fun a ha b hb => hhist a (List.mem_cons_of_mem _ ha) b (List.mem_cons_of_mem _ hb))
      i r1 fl1 hr1 hfl1
    have htrans : ∀ c ∈ rest,
        (((c ++ "_hist") ∈ (fillOneCol (f, flags) x).1.cols ∧ r1.get c = none
          ∧ r1.get (c ++ "_hist") ≠ none)
        ↔ ((c ++ "_hist") ∈ f.cols ∧ r.get c = none ∧ r.get (c ++ "_hist") ≠ none)) := by
      intro c hcr
      have hx_ne : c ≠ x := by
        intro h
        exact (List.nodup_cons.mp hnodup).1 (h ▸ hcr)
      have hxh_ne : c ≠ x ++ "_hist" := by
        intro h
        exact hhist x (List.mem_cons_self _ _) c (List.mem_cons_of_mem _ hcr) h.symm
      have hch1 : c ++ "_hist" ≠ x :=
        hhist c (List.mem_cons_of_mem _ hcr) x (List.mem_cons_self _ _)
      have hch2 : c ++ "_hist" ≠ x ++ "_hist" := fun h => hx_ne (hist_append_cancel h)
      obtain ⟨ra, hra, hea⟩ := fillOneCol_get_other f flags x c i r hr hx_ne hxh_ne
      obtain ⟨rb, hrb, heb⟩ := fillOneCol_get_other f flags x (c ++ "_hist") i r hr hch1 hch2
      have hra1 : ra = r1 := by
        rw [hr1] at hra
        exact (Option.some.inj hra).symm
      have hrb1 : rb = r1 := by
        rw [hr1] at hrb
        exact (Option.some.inj hrb).symm
      subst hra1
      subst hrb1
      rw [hea, heb, fillOneCol_cols (f, flags) x (c ++ "_hist") hch2]
    refine ⟨fl2, hfl2, ?_⟩
    rw [hiff2, hiff1]
    constructor
    · rintro ((h | h) | ⟨c, hcm, h⟩)
      · exact Or.inl h
      · exact Or.inr ⟨x, List.mem_cons_self _ _, h⟩
      · exact Or.inr ⟨c, List.mem_cons_of_mem _ hcm, (htrans c hcm).mp h⟩
    · rintro (h | ⟨c, hcm, h⟩)
      · exact Or.inl (Or.inl h)
      · rcases List.mem_cons.mp hcm with rfl | hcm2
        · exact Or.inl (Or.inr h)
        · exact Or.inr ⟨c, hcm2, (htrans c hcm2).mpr h⟩

set_option maxHeartbeats 1000000 in
/-- No canonical odds value column is the suffixed historical name of
another. -/
theorem odds_hist_ne :
    ∀ x ∈ ODDS_VALUE_COLUMNS, ∀ y ∈ ODDS_VALUE_COLUMNS, x ++ "_hist" ≠ y := by
  decide

/-- The canonical odds value column names are distinct. -/
theorem odds_nodup : ODDS_VALUE_COLUMNS.Nodup := by decide

set_option maxHeartbeats 1000000 in
/-- C8: the backfill step never overwrites live data.  For every row and
every canonical odds value column, the value after the fill loop equals the
suffixed historical value exactly when the post merge value was null and a
non null historical counterpart existed, and is unchanged otherwise; in
particular every non null value is untouched. -/
theorem backfill_no_overwrite (f : Frame) (i : Nat) (r : Row)
    (hr : f.rows[i]? = some r) (c : String) (hc : c ∈ ODDS_VALUE_COLUMNS) :
    ∃ r' : Row, (fillFromHist f).1.rows[i]? = some r'
      ∧ r'.get c = (if (c ++ "_hist") ∈ f.cols ∧ r.get c = none
          ∧ r.get (c ++ "_hist") ≠ none
        then r.get (c ++ "_hist") else r.get c)
      ∧ (r.get c ≠ none → r'.get c = r.get c) := by
  unfold fillFromHist
  obtain ⟨r', hr', he⟩ := fillCols_get_formula ODDS_VALUE_COLUMNS f
    (List.replicate f.rows.length false) c hc odds_nodup odds_hist_ne i r hr
  refine ⟨r', hr', he, ?_⟩
  intro hne
  rw [he, if_neg (fun hcond => hne hcond.2.1)]

/-- A concrete post merge frame used to witness C8: spread_line is null and
has a historical counterpart, home_moneyline is live and must survive. -/
def wMergedFrame : Frame :=
  { cols := ["season", "home_moneyline", "spread_line", "spread_line_hist",
      "home_moneyline_hist"],
    rows := [[
      ("season", some (Value.vInt 2023)),
      ("home_moneyline", some (Value.vInt (-150))),
      ("spread_line", none),
      ("spread_line_hist", some (Value.vInt (-3))),
      ("home_moneyline_hist", some (Value.vInt (-140)))]] }

/-- Witness for C8: on the concrete frame the null spread_line is filled
from its historical counterpart while the live moneyline survives. -/
theorem backfill_no_overwrite_witness :
    (∃ r' : Row, (fillFromHist wMergedFrame).1.rows[0]? = some r'
      ∧ r'.get "spread_line" = (if ("spread_line" ++ "_hist") ∈ wMergedFrame.cols
          ∧ Row.get [("season", some (Value.vInt 2023)),
              ("home_moneyline", some (Value.vInt (-150))),
              ("spread_line", none),
              ("spread_line_hist", some (Value.vInt (-3))),
              ("home_moneyline_hist", some (Value.vInt (-140)))] "spread_line" = none
          ∧ Row.get [("season", some (Value.vInt 2023)),
              ("home_moneyline", some (Value.vInt (-150))),
              ("spread_line", none),
              ("spread_line_hist", some (Value.vInt (-3))),
              ("home_moneyline_hist", some (Value.vInt (-140)))] ("spread_line" ++ "_hist") ≠ none
        then Row.get [("season", some (Value.vInt 2023)),
              ("home_moneyline", some (Value.vInt (-150))),
              ("spread_line", none),
              ("spread_line_hist", some (Value.vInt (-3))),
              ("home_moneyline_hist", some (Value.vInt (-140)))] ("spread_line" ++ "_hist")
        else Row.get [("season", some (Value.vInt 2023)),
              ("home_moneyline", some (Value.vInt (-150))),
              ("spread_line", none),
              ("spread_line_hist", some (Value.vInt (-3))),
              ("home_moneyline_hist", some (Value.vInt (-140)))] "spread_line")
      ∧ (Row.get [("season", some (Value.vInt 2023)),
              ("home_moneyline", some (Value.vInt (-150))),
              ("spread_line", none),
              ("spread_line_hist", some (Value.vInt (-3))),
              ("home_moneyline_hist", some (Value.vInt (-140)))] "spread_line" ≠ none →
          r'.get "spread_line" = Row.get [("season", some (Value.vInt 2023)),
              ("home_moneyline", some (Value.vInt (-150))),
              ("spread_line", none),
              ("spread_line_hist", some (Value.vInt (-3))),
              ("home_moneyline_hist", some (Value.vInt (-140)))] "spread_line")) :=
  backfill_no_overwrite wMergedFrame 0
    [("season", some (Value.vInt 2023)),
     ("home_moneyline", some (Value.vInt (-150))),
     ("spread_line", none),
     ("spread_line_hist", some (Value.vInt (-3))),
     ("home_moneyline_hist", some (Value.vInt (-140)))]
    (by decide) "spread_line" (by decide)

/-! The schedule enrichment orchestrator. -/

/-- The required key columns in the sorted order the validation message
uses: the source takes a set difference and sorts the missing names. -/
def REQUIRED_SORTED : List String := ["away_team", "home_team", "season", "week"]

/-- The errors that can escape fetch_schedule_odds: the schema validation
error naming the missing key columns, and an uncaught read error from the
historical CSV. -/
inductive EnrichError where
  | missingColumns (cols : List String)
  | readFailure
deriving DecidableEq, Repr

/-- Suffix applied by a merge to an overlapping non key column name. -/
def suffixName (overlap : List String) (sfx : String) (c : String) : String :=
  if c ∈ overlap then c ++ sfx else c

/-- Key agreement between a left and a right row; pandas merges match null
keys with null. -/
def matchOn (onCols : List String) (lr rr : Row) : Bool :=
  onCols.all (fun c => decide (lr.get c = rr.get c))

/-- Left merge of two frames on key columns with suffixes for overlapping
non key columns: every left row appears once per right match, in left then
right match order, and with null right cells when nothing matches. -/
def leftMerge (l r : Frame) (onCols : List String) (ls rs : String) : Frame :=
  let overlap := l.cols.filter
    (fun c => decide (c ∈ r.cols) && decide (c ∉ onCols))
  let rightCols := r.cols.filter (fun c => decide (c ∉ onCols))
  let outCols := l.cols.map (suffixName overlap ls)
    ++ rightCols.map (suffixName overlap rs)
  let rows := l.rows.flatMap (fun lr =>
    let lpart := l.cols.map (fun c => (suffixName overlap ls c, lr.get c))
    let ms := r.rows.filter (matchOn onCols lr)
    if ms.isEmpty then
      [lpart ++ rightCols.map (fun c => (suffixName overlap rs c, (none : Option Value)))]
    else ms.map (fun rr => lpart ++ rightCols.map
      (fun c => (suffixName overlap rs c, rr.get c))))
  { cols := outCols, rows := rows }

/-- Append one all null column to a frame. -/
def addCol (f : Frame) (c : String) : Frame :=
  { cols := f.cols ++ [c],
    rows := f.rows.map (fun r => r ++ [(c, (none : Option Value))]) }

/-- Lines 319 to 321: create any absent odds value column as null. -/
def ensureOddsCols (f : Frame) : Frame :=
  ODDS_VALUE_COLUMNS.foldl (fun acc c => if c ∈ acc.cols then acc else addCol acc c) f

/-- Create the odds_source column as all null when absent. -/
def ensureSourceCol (f : Frame) : Frame :=
  if "odds_source" ∈ f.cols then f else addCol f "odds_source"

/-- Line 342: rows filled from the backfill and not already source tagged
become historical. -/
def tagHistorical (f : Frame) (flags : List Bool) : Frame :=
  { f with
    rows := (f.rows.zip flags).map
      (fun p => if p.2 && (p.1.get "odds_source").isNone
        then rowSet p.1 "odds_source" (some (Value.vStr "historical")) else p.1) }

/-- Line 347: fillna of the odds_source column with odds_api. -/
def fillnaSource (f : Frame) : Frame :=
  { f with
    rows := f.rows.map
      (fun r => if (r.get "odds_source").isNone
        then rowSet r "odds_source" (some (Value.vStr "odds_api")) else r) }

/-- Lines 348 to 349: any row whose odds value columns are all null is
overridden to missing. -/
def tagMissing (f : Frame) : Frame :=
  { f with
    rows := f.rows.map
      (fun r => if ODDS_VALUE_COLUMNS.all (fun c => (r.get c).isNone)
        then rowSet r "odds_source" (some (Value.vStr "missing")) else r) }

/-- The latest odds frame entering the merge: the extracted payload when an
api key is present and the fetch succeeded, the key columns schema on a
caught fetch failure, and the two team columns schema for an empty key. -/
def latestFrame (apiKey : String) (fetched : Option (List Event))
    (pref : Option String) : Frame :=
  if apiKey ≠ "" then
    match fetched with
    | some events => oddsJsonToFrame events pref
    | none => { cols := KEY_COLS, rows := [] }
  else { cols := ["home_team", "away_team"], rows := [] }

/-- Lines 283 to 285: normalize the team columns of a copy of the input. -/
def normalizeSched (schedule : Frame) : Frame :=
  mapCol (mapCol schedule "home_team" normalizeVal) "away_team" normalizeVal

/-- Lines 310 to 312: the projection columns taken from the latest frame. -/
def latestColsOf (latest : Frame) : List String :=
  ["home_team", "away_team"] ++
    (ODDS_VALUE_COLUMNS ++ ["odds_source", "commence_time"]).filter
      (fun c => decide (c ∈ latest.cols))

/-- Lines 305 to 321: prepare the live frame, left merge it onto the
normalized schedule by the team pair, and create missing odds columns. -/
def liveMerged (schedule : Frame) (apiKey : String)
    (fetched : Option (List Event)) (pref : Option String) : Frame :=
  let latest := prepLatest (latestFrame apiKey fetched pref)
  ensureOddsCols (leftMerge (normalizeSched schedule)
    (selectCols latest (latestColsOf latest))
    ["home_team", "away_team"] "_x" "_y")

/-- Lines 323 to 349 given the loaded historical table: backfill and tag
provenance, then default the source tag and apply the missing override. -/
def enrichCore (schedule : Frame) (apiKey : String)
    (fetched : Option (List Event)) (pref : Option String)
    (histOpt : Option Frame) : Frame :=
  let merged := liveMerged schedule apiKey fetched pref
  let tagged :=
    match histOpt with
    | some hist =>
      if hist.rows.isEmpty = false then
        let fr := fillFromHist (leftMerge merged hist KEY_COLS "" "_hist")
        tagHistorical (ensureSourceCol fr.1) fr.2
      else ensureSourceCol merged
    | none => ensureSourceCol merged
  tagMissing (fillnaSource tagged)

/-- Line 323: the historical load outcome; a falsy path skips the loader. -/
def histOutcome (historicalCsv : Option String) (histRead : ReadResult) :
    Except Unit (Option Frame) :=
  match historicalCsv with
  | some path =>
    if path ≠ "" then prepareHistoricalLines path histRead KEY_COLS
    else Except.ok none
  | none => Except.ok none

/-- fetch_schedule_odds: validate the schedule schema, then run the pure
enrichment pipeline; an uncaught read error on the historical CSV
propagates.  The network fetch outcome and the historical read are
explicit parameters of the model. -/
def fetchScheduleOdds (schedule : Frame) (apiKey : String)
    (fetched : Option (List Event)) (historicalCsv : Option String)
    (histRead : ReadResult) (bookmakerPref : Option String) :
    Except EnrichError Frame :=
  let missing := REQUIRED_SORTED.filter (fun c => decide (c ∉ schedule.cols))
  if missing.isEmpty = false then Except.error (EnrichError.missingColumns missing)
  else
    match histOutcome historicalCsv histRead with
    | Except.error _ => Except.error EnrichError.readFailure
    | Except.ok histOpt =>
      Except.ok (enrichCore schedule apiKey fetched bookmakerPref histOpt)

/-! Error behaviour of the orchestrator. -/

theorem prepare_error_iff (path : String) (read : ReadResult) (hp : path ≠ "") :
    (prepareHistoricalLines path read KEY_COLS = Except.error ()
      ↔ read = ReadResult.unreadable) := by
  constructor
  · intro h
    cases read with
    | missing => simp [prepareHistoricalLines, hp] at h
    | unreadable => rfl
    | content f =>
      simp only [prepareHistoricalLines, if_neg hp] at h
      by_cases hm : ¬ (KEY_COLS.filter
          (fun c => decide (c ∉ (renameCols f).cols))).isEmpty = true
      · rw [if_pos hm] at h
        cases h
      · rw [if_neg hm] at h
        cases h
  · intro h
    subst h
    simp [prepareHistoricalLines, hp]

theorem histOutcome_error_iff (historicalCsv : Option String) (histRead : ReadResult) :
    (histOutcome historicalCsv histRead = Except.error ()
      ↔ ∃ path, historicalCsv = some path ∧ path ≠ ""
          ∧ histRead = ReadResult.unreadable) := by
  rcases historicalCsv with _ | path
  · simp [histOutcome]
  · by_cases hp : path = ""
    · subst hp
      simp [histOutcome]
    · rw [show histOutcome (some path) histRead
          = prepareHistoricalLines path histRead KEY_COLS from by simp [histOutcome, hp]]
      rw [prepare_error_iff path histRead hp]
      constructor
      · intro h
        exact ⟨path, rfl, hp, h⟩
      · rintro ⟨q, hq, _, hur⟩
        cases hq
        exact hur

theorem histOutcome_cases (historicalCsv : Option String) (histRead : ReadResult) :
    histOutcome historicalCsv histRead = Except.error ()
    ∨ ∃ o, histOutcome historicalCsv histRead = Except.ok o := by
  rcases h : histOutcome historicalCsv histRead with u | o
  · cases u
    exact Or.inl rfl
  · exact Or.inr ⟨o, rfl⟩

/-- A concrete valid schedule of one row used by several witnesses. -/
def cSched : Frame :=
  { cols := ["season", "week", "home_team", "away_team"],
    rows := [[("season", some (Value.vInt 2023)), ("week", some (Value.vInt 1)),
      ("home_team", some (Value.vStr "KC")), ("away_team", some (Value.vStr "DEN"))]] }

/-- C3 counterexample: the schema validation failure is not the only error
that escapes the orchestrator; with a valid schedule and an existing but
unreadable historical file, the uncaught read_csv error escapes as well. -/
theorem enrich_readfailure_escapes :
    fetchScheduleOdds cSched "" none (some "lines.csv") ReadResult.unreadable
      (some "pinnacle") = Except.error EnrichError.readFailure := rfl

/-- C3 amended: the orchestrator raises the schema validation error, whose
message names exactly the missing key columns among season, week,
home_team, away_team in sorted order, exactly when at least one is absent;
the only other error that escapes is the uncaught read failure on an
existing but unreadable historical file; in every remaining case the
enrichment returns a table. -/
theorem schema_validation_amended (schedule : Frame) (apiKey : String)
    (fetched : Option (List Event)) (historicalCsv : Option String)
    (histRead : ReadResult) (pref : Option String) :
    (∀ ms, fetchScheduleOdds schedule apiKey fetched historicalCsv histRead pref
        = Except.error (EnrichError.missingColumns ms)
      ↔ (ms = REQUIRED_SORTED.filter (fun c => decide (c ∉ schedule.cols))
          ∧ REQUIRED_SORTED.filter (fun c => decide (c ∉ schedule.cols)) ≠ []))
    ∧ (∀ c ∈ REQUIRED_SORTED, c ∉ schedule.cols →
        c ∈ REQUIRED_SORTED.filter (fun c => decide (c ∉ schedule.cols)))
    ∧ (fetchScheduleOdds schedule apiKey fetched historicalCsv histRead pref
        = Except.error EnrichError.readFailure
      ↔ (REQUIRED_SORTED.filter (fun c => decide (c ∉ schedule.cols)) = []
          ∧ ∃ path, historicalCsv = some path ∧ path ≠ ""
            ∧ histRead = ReadResult.unreadable))
    ∧ ((REQUIRED_SORTED.filter (fun c => decide (c ∉ schedule.cols)) = []
        ∧ ¬ (∃ path, historicalCsv = some path ∧ path ≠ ""
            ∧ histRead = ReadResult.unreadable)) →
       ∃ out, fetchScheduleOdds schedule apiKey fetched historicalCsv histRead pref
         = Except.ok out) := by
  by_cases hmiss : REQUIRED_SORTED.filter (fun c => decide (c ∉ schedule.cols)) = []
  · have hcond : ¬ ((REQUIRED_SORTED.filter
        (fun c => decide (c ∉ schedule.cols))).isEmpty = false) := by
      rw [hmiss]
      simp
    have hshape : fetchScheduleOdds schedule apiKey fetched historicalCsv histRead pref
        = match histOutcome historicalCsv histRead with
          | Except.error _ => Except.error EnrichError.readFailure
          | Except.ok histOpt =>
            Except.ok (enrichCore schedule apiKey fetched pref histOpt) := by
      unfold fetchScheduleOdds
      rw [if_neg hcond]
    refine ⟨?_, ?_, ?_, ?_⟩
    · intro ms
      rw [hshape]
      constructor
      · intro h
        rcases histOutcome_cases historicalCsv histRead with he | ⟨o, ho⟩
        · rw [he] at h
          cases h
        · rw [ho] at h
          cases h
      · rintro ⟨_, hne⟩
        exact absurd hmiss hne
    · intro c _ hcn
      rw [List.mem_filter]
      refine ⟨by assumption, by simpa using hcn⟩
    · rw [hshape]
      constructor
      · intro h
        refine ⟨hmiss, ?_⟩
        rcases histOutcome_cases historicalCsv histRead with he | ⟨o, ho⟩
        · exact (histOutcome_error_iff historicalCsv histRead).mp he
        · rw [ho] at h
          cases h
      · rintro ⟨_, hex⟩
        rw [(histOutcome_error_iff historicalCsv histRead).mpr hex]
    · rintro ⟨_, hnot⟩
      rw [hshape]
      rcases histOutcome_cases historicalCsv histRead with he | ⟨o, ho⟩
      · exact absurd ((histOutcome_error_iff historicalCsv histRead).mp he) hnot
      · rw [ho]
        exact ⟨_, rfl⟩
  · have hcond : (REQUIRED_SORTED.filter
        (fun c => decide (c ∉ schedule.cols))).isEmpty = false := by
      rw [List.isEmpty_eq_false]
      exact hmiss
    have heq : fetchScheduleOdds schedule apiKey fetched historicalCsv histRead pref
        = Except.error (EnrichError.missingColumns
            (REQUIRED_SORTED.filter (fun c => decide (c ∉ schedule.cols)))) := by
      unfold fetchScheduleOdds
      rw [if_pos hcond]
    refine ⟨?_, ?_, ?_, ?_⟩
    · intro ms
      rw [heq]
      constructor
      · intro h
        cases h
        exact ⟨rfl, hmiss⟩
      · rintro ⟨rfl, _⟩
        rfl
    · intro c _ hcn
      rw [List.mem_filter]
      refine ⟨by assumption, by simpa using hcn⟩
    · rw [heq]
      constructor
      · intro h
        cases h
      · rintro ⟨h, _⟩
        exact absurd h hmiss
    · rintro ⟨h, _⟩
      exact absurd h hmiss

/-- Witness for C3 on a schedule missing the week column: the error names
exactly week, and a complete schedule with no historical path succeeds. -/
theorem schema_validation_amended_witness :
    (fetchScheduleOdds
        { cols := ["season", "home_team", "away_team"], rows := [] }
        "" none none ReadResult.missing (some "pinnacle")
      = Except.error (EnrichError.missingColumns ["week"])
      ↔ (["week"] = REQUIRED_SORTED.filter (fun c => decide
          (c ∉ ({ cols := ["season", "home_team", "away_team"], rows := [] } : Frame).cols))
        ∧ REQUIRED_SORTED.filter (fun c => decide
          (c ∉ ({ cols := ["season", "home_team", "away_team"], rows := [] } : Frame).cols))
          ≠ []))
    ∧ ∃ out, fetchScheduleOdds cSched "" none none ReadResult.missing (some "pinnacle")
        = Except.ok out :=
  ⟨(schema_validation_amended
      { cols := ["season", "home_team", "away_team"], rows := [] }
      "" none none ReadResult.missing (some "pinnacle")).1 ["week"],
   (schema_validation_amended cSched "" none none ReadResult.missing
      (some "pinnacle")).2.2.2 ⟨by decide, by rintro ⟨path, h, _⟩; cases h⟩⟩

/-! Row level description of a left merge with at most one match per key. -/

theorem flatMap_singleton {α β : Type} (l : List α) (f : α → List β) (g : α → β)
    (h : ∀ x ∈ l, f x = [g x]) : l.flatMap f = l.map g := by
  induction l with
  | nil => rfl
  | cons x rest ih =>
    rw [List.flatMap_cons, h x (List.mem_cons_self _ _),
      ih (fun y hy => h y (List.mem_cons_of_mem _ hy))]
    rfl

/-- The single merged row a left row produces in a merge with at most one
right match: the suffixed left cells followed by the suffixed right cells
of the match, or nulls when nothing matches. -/
def mergedRowOf (l r : Frame) (onCols : List String) (ls rs : String) (lr : Row) : Row :=
  let overlap := l.cols.filter
    (fun c => decide (c ∈ r.cols) && decide (c ∉ onCols))
  let rightCols := r.cols.filter (fun c => decide (c ∉ onCols))
  let lpart := l.cols.map (fun c => (suffixName overlap ls c, lr.get c))
  match (r.rows.filter (matchOn onCols lr)).head? with
  | some rr => lpart ++ rightCols.map (fun c => (suffixName overlap rs c, rr.get c))
  | none => lpart ++ rightCols.map (fun c => (suffixName overlap rs c, (none : Option Value)))

theorem leftMerge_rows_of_unique (l r : Frame) (onCols : List String) (ls rs : String)
    (hmatch : ∀ lr ∈ l.rows, (r.rows.filter (matchOn onCols lr)).length ≤ 1) :
    (leftMerge l r onCols ls rs).rows = l.rows.map (mergedRowOf l r onCols ls rs) := by
  unfold leftMerge
  refine flatMap_singleton _ _ _ ?_
  intro lr hlr
  rcases hf : r.rows.filter (matchOn onCols lr) with _ | ⟨rr, rest⟩
  · unfold mergedRowOf
    rw [hf]
    rfl
  · have hrest : rest = [] := by
      have := hmatch lr hlr
      rw [hf] at this
      simp at this
      exact this
    subst hrest
    unfold mergedRowOf
    rw [hf]
    rfl

/-- Reading a cell from a block of suffixed cells followed by a rest: when
the wanted name is its own suffixed form and no other column suffixes to
it, the block answers for member columns and defers otherwise. -/
theorem get_sfx_block (cols : List String) (sfx : String → String)
    (g : String → Option Value) (rest : Row) (c : String)
    (hinj : ∀ cq ∈ cols, sfx cq = c → cq = c) (hself : sfx c = c) :
    Row.get (cols.map (fun cq => (sfx cq, g cq)) ++ rest) c
      = if c ∈ cols then g c else Row.get rest c := by
  induction cols with
  | nil => simp
  | cons d ds ih =>
    by_cases hd : sfx d = c
    · have hdc : d = c := hinj d (List.mem_cons_self _ _) hd
      subst hdc
      simp [Row.get, hd]
    · have hdc : d ≠ c := by
        intro h
        exact hd (h ▸ hself)
      have hmem : (c ∈ d :: ds) ↔ (c ∈ ds) := by
        simp [Ne.symm hdc]
      rw [List.map_cons, List.cons_append,
        show Row.get ((sfx d, g d) :: (ds.map (fun cq => (sfx cq, g cq)) ++ rest)) c
          = Row.get (ds.map (fun cq => (sfx cq, g cq)) ++ rest) c from by
            simp [Row.get, hd],
        ih (fun cq hcq => hinj cq (List.mem_cons_of_mem _ hcq))]
      exact (if_congr hmem rfl rfl).symm

/-- Reading a cell that no name of the block can produce defers entirely
to the rest. -/
theorem get_sfx_block_none (cols : List String) (sfx : String → String)
    (g : String → Option Value) (rest : Row) (c : String)
    (hno : ∀ cq ∈ cols, sfx cq ≠ c) :
    Row.get (cols.map (fun cq => (sfx cq, g cq)) ++ rest) c = Row.get rest c := by
  induction cols with
  | nil => rfl
  | cons d ds ih =>
    rw [List.map_cons, List.cons_append]
    rw [show Row.get ((sfx d, g d) :: (ds.map (fun cq => (sfx cq, g cq)) ++ rest)) c
        = Row.get (ds.map (fun cq => (sfx cq, g cq)) ++ rest) c from by
          simp [Row.get, hno d (List.mem_cons_self _ _)]]
    exact ih (fun cq hcq => hno cq (List.mem_cons_of_mem _ hcq))

/-- Reading from a trailing suffixed block alone. -/
theorem get_sfx_tail (cols : List String) (sfx : String → String)
    (g : String → Option Value) (c : String)
    (hinj : ∀ cq ∈ cols, sfx cq = sfx c → cq = c) :
    Row.get (cols.map (fun cq => (sfx cq, g cq))) (sfx c)
      = if c ∈ cols then g c else none := by
  induction cols with
  | nil => simp [Row.get]
  | cons d ds ih =>
    by_cases hd : sfx d = sfx c
    · have hdc : d = c := hinj d (List.mem_cons_self _ _) hd
      subst hdc
      simp [Row.get, hd]
    · have hdc : d ≠ c := by
        intro h
        exact hd (h ▸ rfl)
      have hmem : (c ∈ d :: ds) ↔ (c ∈ ds) := by
        simp [Ne.symm hdc]
      rw [List.map_cons,
        show Row.get ((sfx d, g d) :: ds.map (fun cq => (sfx cq, g cq))) (sfx c)
          = Row.get (ds.map (fun cq => (sfx cq, g cq))) (sfx c) from by
            simp [Row.get, hd],
        ih (fun cq hcq => hinj cq (List.mem_cons_of_mem _ hcq))]
      exact (if_congr hmem rfl rfl).symm

theorem suffixName_nil (sfx c : String) : suffixName [] sfx c = c := by
  simp [suffixName]

theorem suffixName_mem (overlap : List String) (sfx c : String) (h : c ∈ overlap) :
    suffixName overlap sfx c = c ++ sfx := by
  simp [suffixName, h]

theorem suffixName_not_mem (overlap : List String) (sfx c : String) (h : c ∉ overlap) :
    suffixName overlap sfx c = c := by
  simp [suffixName, h]

theorem hasKey_iff_mem_keys (r : Row) (c : String) :
    r.hasKey c = true ↔ c ∈ r.map Prod.fst := by
  induction r with
  | nil => simp [Row.hasKey]
  | cons p rest ih =>
    rcases p with ⟨k, v⟩
    by_cases hk : k = c
    · simp [Row.hasKey, hk]
    · have hck : ¬ c = k := fun h => hk h.symm
      simp [Row.hasKey, hk, hck, ih]

theorem mem_colsUnion_aux :
    ∀ (rows : List Row) (acc : List String) (c : String),
      (c ∈ acc ∨ ∃ r ∈ rows, r.hasKey c = true) →
      c ∈ rows.foldl
        (fun acc r => acc ++ (r.map Prod.fst).filter (fun x => decide (x ∉ acc))) acc := by
  intro rows
  induction rows with
  | nil =>
    rintro acc c (h | ⟨r, hr, _⟩)
    · exact h
    · simp at hr
  | cons r rest ih =>
    rintro acc c (h | ⟨q, hq, hkey⟩)
    · refine ih _ c (Or.inl ?_)
      exact List.mem_append_left _ h
    · rcases List.mem_cons.mp hq with rfl | hq2
      · refine ih _ c (Or.inl ?_)
        by_cases hacc : c ∈ acc
        · exact List.mem_append_left _ hacc
        · refine List.mem_append_right _ ?_
          rw [List.mem_filter]
          exact ⟨(hasKey_iff_mem_keys q c).mp hkey, by simpa using hacc⟩
      · exact ih _ c (Or.inr ⟨q, hq2, hkey⟩)

theorem mem_colsUnion (rows : List Row) (c : String)
    (h : ∃ r ∈ rows, r.hasKey c = true) : c ∈ colsUnion rows :=
  mem_colsUnion_aux rows [] c (Or.inr h)

/-! Column bookkeeping of the enrichment stages. -/

theorem filter_overlap_nil (cols rcols onCols : List String)
    (h : ∀ c, c ∈ rcols → c ∈ onCols) :
    cols.filter (fun c => decide (c ∈ rcols) && decide (c ∉ onCols)) = [] := by
  rw [List.filter_eq_nil_iff]
  intro c _
  simp only [Bool.and_eq_true, decide_eq_true_eq, not_and]
  intro h1 h2
  exact h2 (h c h1)

theorem ensure_foldl_addCol :
    ∀ (cs : List String) (f : Frame), (∀ c ∈ cs, c ∉ f.cols) → cs.Nodup →
      cs.foldl (fun acc c => if c ∈ acc.cols then acc else addCol acc c) f
        = { cols := f.cols ++ cs,
            rows := f.rows.map
              (fun r => r ++ cs.map (fun c => (c, (none : Option Value)))) } := by
  intro cs
  induction cs with
  | nil =>
    intro f _ _
    rcases f with ⟨cols, rows⟩
    simp
  | cons c cs ih =>
    intro f hnot hnd
    rw [List.foldl_cons, if_neg (hnot c (List.mem_cons_self _ _))]
    rw [ih (addCol f c) ?_ (List.nodup_cons.mp hnd).2]
    · rcases f with ⟨cols, rows⟩
      simp only [addCol, List.map_map, Frame.mk.injEq]
      constructor
      · simp
      · refine List.map_congr_left ?_
        intro r _
        simp [Function.comp]
    · intro d hd
      simp only [addCol, List.mem_append, List.mem_singleton]
      rintro (hdf | rfl)
      · exact hnot d (List.mem_cons_of_mem _ hd) hdf
      · exact (List.nodup_cons.mp hnd).1 hd

theorem ensureOddsCols_shape (f : Frame) (hnot : ∀ c ∈ ODDS_VALUE_COLUMNS, c ∉ f.cols) :
    ensureOddsCols f
      = { cols := f.cols ++ ODDS_VALUE_COLUMNS,
          rows := f.rows.map (fun r => r ++ ODDS_VALUE_COLUMNS.map
            (fun c => (c, (none : Option Value)))) } :=
  ensure_foldl_addCol ODDS_VALUE_COLUMNS f hnot odds_nodup

theorem tagMissing_cols (f : Frame) : (tagMissing f).cols = f.cols := rfl

theorem fillnaSource_cols (f : Frame) : (fillnaSource f).cols = f.cols := rfl

theorem tagHistorical_cols (f : Frame) (flags : List Bool) :
    (tagHistorical f flags).cols = f.cols := rfl

theorem ensureSourceCol_shape (f : Frame) (h : "odds_source" ∉ f.cols) :
    ensureSourceCol f = addCol f "odds_source" := by
  unfold ensureSourceCol
  rw [if_neg h]

theorem leftMerge_cols (l r : Frame) (onCols : List String) (ls rs : String) :
    (leftMerge l r onCols ls rs).cols
      = l.cols.map (suffixName (l.cols.filter
          (fun c => decide (c ∈ r.cols) && decide (c ∉ onCols))) ls)
        ++ (r.cols.filter (fun c => decide (c ∉ onCols))).map
            (suffixName (l.cols.filter
              (fun c => decide (c ∈ r.cols) && decide (c ∉ onCols))) rs) := rfl

theorem mergedRowOf_no_match (l r : Frame) (onCols : List String) (ls rs : String)
    (lr : Row) (h : r.rows.filter (matchOn onCols lr) = []) :
    mergedRowOf l r onCols ls rs lr
      = l.cols.map (fun c => (suffixName (l.cols.filter
            (fun c => decide (c ∈ r.cols) && decide (c ∉ onCols))) ls c, lr.get c))
        ++ (r.cols.filter (fun c => decide (c ∉ onCols))).map
            (fun c => (suffixName (l.cols.filter
              (fun c => decide (c ∈ r.cols) && decide (c ∉ onCols))) rs c,
              (none : Option Value))) := by
  unfold mergedRowOf
  rw [h]
  rfl

theorem mergedRowOf_match (l r : Frame) (onCols : List String) (ls rs : String)
    (lr rr : Row) (h : r.rows.filter (matchOn onCols lr) = [rr]) :
    mergedRowOf l r onCols ls rs lr
      = l.cols.map (fun c => (suffixName (l.cols.filter
            (fun c => decide (c ∈ r.cols) && decide (c ∉ onCols))) ls c, lr.get c))
        ++ (r.cols.filter (fun c => decide (c ∉ onCols))).map
            (fun c => (suffixName (l.cols.filter
              (fun c => decide (c ∈ r.cols) && decide (c ∉ onCols))) rs c, rr.get c)) := by
  unfold mergedRowOf
  rw [h]
  rfl

/-- The empty key live frame is the two column empty frame. -/
theorem latest_empty_key (fetched : Option (List Event)) (pref : Option String) :
    prepLatest (latestFrame "" fetched pref)
      = { cols := ["home_team", "away_team"], rows := [] } := rfl

/-- The caught fetch failure live frame also prepares to an empty frame. -/
theorem latest_fetch_failure (apiKey : String) (h : apiKey ≠ "") (pref : Option String) :
    prepLatest (latestFrame apiKey none pref) = { cols := KEY_COLS, rows := [] } := by
  unfold latestFrame
  rw [if_pos h]
  rfl

/-! The enrichment with an empty provider key and no historical path. -/

/-- Schema side conditions on the caller schedule: the four key columns are
present, and no schedule column collides with a generated odds, provenance,
timestamp or suffixed backfill name. -/
def SchedOK (s : Frame) : Prop :=
  "season" ∈ s.cols ∧ "week" ∈ s.cols ∧ "home_team" ∈ s.cols ∧ "away_team" ∈ s.cols
  ∧ (∀ c ∈ s.cols, c ∉ ODDS_VALUE_COLUMNS ∧ c ≠ "odds_source" ∧ c ≠ "commence_time"
      ∧ ∀ o ∈ ODDS_VALUE_COLUMNS, c ≠ o ++ "_hist")

theorem sched_missing_nil (s : Frame) (h : SchedOK s) :
    REQUIRED_SORTED.filter (fun c => decide (c ∉ s.cols)) = [] := by
  obtain ⟨h1, h2, h3, h4, _⟩ := h
  rw [List.filter_eq_nil_iff]
  intro c hc
  simp only [REQUIRED_SORTED, List.mem_cons, List.not_mem_nil, or_false] at hc
  rcases hc with rfl | rfl | rfl | rfl <;> simp [h1, h2, h3, h4]

/-- The team normalization applied to one schedule row. -/
def normRowTeams (lr : Row) : Row :=
  rowSet (rowSet lr "home_team" (normalizeVal (lr.get "home_team"))) "away_team"
    (normalizeVal ((rowSet lr "home_team"
      (normalizeVal (lr.get "home_team"))).get "away_team"))

theorem normalizeSched_row (s : Frame) (i : Nat) :
    (normalizeSched s).rows[i]? = (s.rows[i]?).map normRowTeams := by
  simp only [normalizeSched, mapCol, List.getElem?_map, Option.map_map]
  rfl

theorem normalizeSched_cols (s : Frame) : (normalizeSched s).cols = s.cols := rfl

theorem normRowTeams_get_home (lr : Row) :
    (normRowTeams lr).get "home_team" = normalizeVal (lr.get "home_team") := by
  unfold normRowTeams
  rw [rowSet_get_ne _ _ (by decide), rowSet_get_self]

theorem normRowTeams_get_away (lr : Row) :
    (normRowTeams lr).get "away_team" = normalizeVal (lr.get "away_team") := by
  unfold normRowTeams
  rw [rowSet_get_self, rowSet_get_ne _ _ (by decide)]

theorem normRowTeams_get_other (lr : Row) (c : String)
    (h1 : c ≠ "home_team") (h2 : c ≠ "away_team") :
    (normRowTeams lr).get c = lr.get c := by
  unfold normRowTeams
  rw [rowSet_get_ne _ _ h2, rowSet_get_ne _ _ h1]

/-- No odds value column is named odds_source or commence_time. -/
theorem odds_ne_source : ∀ c ∈ ODDS_VALUE_COLUMNS, c ≠ "odds_source" := by decide

theorem odds_ne_commence : ∀ c ∈ ODDS_VALUE_COLUMNS, c ≠ "commence_time" := by decide

theorem addCol_row (f : Frame) (c : String) (i : Nat) :
    (addCol f c).rows[i]? = (f.rows[i]?).map
      (fun r => r ++ [(c, (none : Option Value))]) := by
  simp [addCol, List.getElem?_map]

theorem fillnaSource_row (f : Frame) (i : Nat) :
    (fillnaSource f).rows[i]? = (f.rows[i]?).map (fun r =>
      if (r.get "odds_source").isNone
      then rowSet r "odds_source" (some (Value.vStr "odds_api")) else r) := by
  simp [fillnaSource, List.getElem?_map]

theorem tagMissing_row (f : Frame) (i : Nat) :
    (tagMissing f).rows[i]? = (f.rows[i]?).map (fun r =>
      if ODDS_VALUE_COLUMNS.all (fun c => (r.get c).isNone)
      then rowSet r "odds_source" (some (Value.vStr "missing")) else r) := by
  simp [tagMissing, List.getElem?_map]

theorem tagMissing_len (f : Frame) : (tagMissing f).rows.length = f.rows.length := by
  simp [tagMissing]

theorem fillnaSource_len (f : Frame) : (fillnaSource f).rows.length = f.rows.length := by
  simp [fillnaSource]

theorem addCol_len (f : Frame) (c : String) :
    (addCol f c).rows.length = f.rows.length := by
  simp [addCol]

theorem tagHistorical_len (f : Frame) (flags : List Bool) :
    (tagHistorical f flags).rows.length = min f.rows.length flags.length := by
  simp [tagHistorical]

/-- C2 counterexample: with an empty provider key and no historical path
the enriched column set does not contain commence_time, contradicting the
claimed column set equation. -/
theorem enrich_empty_key_no_commence_col :
    (fetchScheduleOdds cSched "" none none ReadResult.missing
        (some "pinnacle")).map Frame.cols
      = Except.ok (cSched.cols ++ ODDS_VALUE_COLUMNS ++ ["odds_source"])
    ∧ "commence_time" ∉ cSched.cols ++ ODDS_VALUE_COLUMNS ++ ["odds_source"] :=
  ⟨rfl, by decide⟩

/-- C2 amended: with an empty provider key and no historical path the
enrichment never raises; the output has exactly the input columns followed
by the odds value columns and odds_source (commence_time is not added,
since the empty live frame does not carry it), one output row per input
row in order, with every odds value column null, odds_source missing, the
key fields preserved, the team fields normalized, and every other input
cell unchanged. -/
theorem enrich_empty_key_amended (s : Frame) (hOK : SchedOK s)
    (fetched : Option (List Event)) (read : ReadResult) (pref : Option String) :
    ∃ out, fetchScheduleOdds s "" fetched none read pref = Except.ok out
      ∧ out.cols = s.cols ++ ODDS_VALUE_COLUMNS ++ ["odds_source"]
      ∧ out.rows.length = s.rows.length
      ∧ ∀ (i : Nat) (lr : Row), s.rows[i]? = some lr →
          ∃ r : Row, out.rows[i]? = some r
            ∧ (∀ c ∈ ODDS_VALUE_COLUMNS, r.get c = none)
            ∧ r.get "odds_source" = some (Value.vStr "missing")
            ∧ r.get "season" = lr.get "season"
            ∧ r.get "week" = lr.get "week"
            ∧ r.get "home_team" = normalizeVal (lr.get "home_team")
            ∧ r.get "away_team" = normalizeVal (lr.get "away_team")
            ∧ (∀ c ∈ s.cols, c ≠ "home_team" → c ≠ "away_team" →
                r.get c = lr.get c) := by
  obtain ⟨hs1, hs2, hs3, hs4, hdis⟩ := hOK
  have hfetch : fetchScheduleOdds s "" fetched none read pref
      = Except.ok (enrichCore s "" fetched pref none) := by
    unfold fetchScheduleOdds
    rw [if_neg (by rw [sched_missing_nil s ⟨hs1, hs2, hs3, hs4, hdis⟩]; simp)]
    rfl
  have hcore : enrichCore s "" fetched pref none
      = tagMissing (fillnaSource (ensureSourceCol (liveMerged s "" fetched pref))) := rfl
  have hlm : liveMerged s "" fetched pref
      = ensureOddsCols (leftMerge (normalizeSched s)
          { cols := ["home_team", "away_team"], rows := [] }
          ["home_team", "away_team"] "_x" "_y") := by
    unfold liveMerged
    rw [latest_empty_key]
    rfl
  set m0 := leftMerge (normalizeSched s)
    { cols := ["home_team", "away_team"], rows := [] }
    ["home_team", "away_team"] "_x" "_y" with hm0def
  have hov : (normalizeSched s).cols.filter
      (fun c => decide (c ∈ (({ cols := ["home_team", "away_team"], rows := [] } : Frame)).cols)
        && decide (c ∉ ["home_team", "away_team"])) = [] :=
    filter_overlap_nil s.cols _ _ (fun c hc => hc)
  have hm0cols : m0.cols = s.cols := by
    rw [hm0def, leftMerge_cols]
    rw [hov]
    rw [List.map_congr_left (fun c _ => suffixName_nil "_x" c)]
    simp
    rfl
  have hm0notodds : ∀ c ∈ ODDS_VALUE_COLUMNS, c ∉ m0.cols := by
    intro c hc
    rw [hm0cols]
    intro hmem
    exact (hdis c hmem).1 hc
  have hshape := ensureOddsCols_shape m0 hm0notodds
  have hsrcnot : "odds_source" ∉ (ensureOddsCols m0).cols := by
    rw [hshape]
    intro hmem
    rcases List.mem_append.mp hmem with hmem | hmem
    · rw [hm0cols] at hmem
      exact (hdis _ hmem).2.1 rfl
    · revert hmem
      decide
  have hsrc := ensureSourceCol_shape (ensureOddsCols m0) hsrcnot
  refine ⟨_, hfetch, ?_, ?_, ?_⟩
  · rw [hcore, hlm, tagMissing_cols, fillnaSource_cols, hsrc]
    show ((ensureOddsCols m0).cols ++ ["odds_source"]) = _
    rw [hshape]
    show m0.cols ++ ODDS_VALUE_COLUMNS ++ ["odds_source"] = _
    rw [hm0cols]
  · rw [hcore, hlm]
    rw [tagMissing_len, fillnaSource_len, hsrc, addCol_len]
    rw [hshape]
    simp only [List.length_map]
    rw [hm0def, leftMerge_rows_of_unique _ _ _ _ _ (fun lr _ => by simp)]
    simp only [List.length_map]
    simp [normalizeSched, mapCol]
  · intro i lr hlr
    have hnorm : (normalizeSched s).rows[i]? = some (normRowTeams lr) := by
      rw [normalizeSched_row, hlr]
      rfl
    have h0 : m0.rows[i]? = some (mergedRowOf (normalizeSched s)
        { cols := ["home_team", "away_team"], rows := [] }
        ["home_team", "away_team"] "_x" "_y" (normRowTeams lr)) := by
      rw [hm0def, leftMerge_rows_of_unique _ _ _ _ _ (by intro x _; simp)]
      rw [List.getElem?_map, hnorm]
      rfl
    have hmrow : mergedRowOf (normalizeSched s)
        { cols := ["home_team", "away_team"], rows := [] }
        ["home_team", "away_team"] "_x" "_y" (normRowTeams lr)
        = s.cols.map (fun c => (c, (normRowTeams lr).get c)) ++ [] := by
      rw [mergedRowOf_no_match (normalizeSched s)
        { cols := ["home_team", "away_team"], rows := [] }
        ["home_team", "away_team"] "_x" "_y" (normRowTeams lr) rfl]
      rw [hov]
      rw [List.map_congr_left (fun c _ =>
        show (suffixName [] "_x" c, (normRowTeams lr).get c) = (c, (normRowTeams lr).get c)
          from by rw [suffixName_nil])]
      rfl
    rw [hmrow] at h0
    have h1 : (ensureOddsCols m0).rows[i]? = some
        ((s.cols.map (fun c => (c, (normRowTeams lr).get c)) ++ []) ++
          ODDS_VALUE_COLUMNS.map (fun c => (c, (none : Option Value)))) := by
      rw [hshape]
      show (m0.rows.map _)[i]? = _
      rw [List.getElem?_map, h0]
      rfl
    have h2 : (ensureSourceCol (ensureOddsCols m0)).rows[i]? = some
        (((s.cols.map (fun c => (c, (normRowTeams lr).get c)) ++ []) ++
          ODDS_VALUE_COLUMNS.map (fun c => (c, (none : Option Value)))) ++
          [("odds_source", (none : Option Value))]) := by
      rw [hsrc, addCol_row, h1]
      rfl
    set big : Row := ((s.cols.map (fun c => (c, (normRowTeams lr).get c)) ++ []) ++
        ODDS_VALUE_COLUMNS.map (fun c => (c, (none : Option Value)))) ++
        [("odds_source", (none : Option Value))] with hbigdef
    have hbig_get : ∀ c, big.get c
        = (if c ∈ s.cols then (normRowTeams lr).get c
           else if c ∈ ODDS_VALUE_COLUMNS then none
           else if c = "odds_source" then none else none) := by
      intro c
      rw [hbigdef, List.append_assoc, List.append_assoc, List.nil_append]
      rw [get_sfx_block s.cols (fun x => x) _ _ c (fun _ _ h => h) rfl]
      by_cases hcs : c ∈ s.cols
      · rw [if_pos hcs, if_pos hcs]
      · rw [if_neg hcs, if_neg hcs]
        rw [get_sfx_block ODDS_VALUE_COLUMNS (fun x => x) _ _ c (fun _ _ h => h) rfl]
        by_cases hco : c ∈ ODDS_VALUE_COLUMNS
        · rw [if_pos hco, if_pos hco]
        · rw [if_neg hco, if_neg hco]
          by_cases hos : c = "odds_source"
          · subst hos
            simp [Row.get]
          · have : ¬ ("odds_source" = c) := fun h => hos h.symm
            simp [Row.get, this, hos]
    have hbig_os : big.get "odds_source" = none := by
      rw [hbig_get "odds_source"]
      rw [if_neg (fun h => (hdis _ h).2.1 rfl), if_neg (by decide)]
      rw [if_pos rfl]
    have h3 : (fillnaSource (ensureSourceCol (ensureOddsCols m0))).rows[i]?
        = some (rowSet big "odds_source" (some (Value.vStr "odds_api"))) := by
      rw [fillnaSource_row, h2, Option.map_some']
      rw [if_pos (show (big.get "odds_source").isNone = true from by rw [hbig_os]; rfl)]
    have hallnull : ∀ c ∈ ODDS_VALUE_COLUMNS,
        (rowSet big "odds_source" (some (Value.vStr "odds_api"))).get c = none := by
      intro c hc
      have hcos : c ≠ "odds_source" := odds_ne_source c hc
      rw [rowSet_get_ne _ _ hcos, hbig_get c]
      rw [if_neg (fun h => (hdis c h).1 hc), if_pos hc]
    have h4 : (tagMissing (fillnaSource (ensureSourceCol (ensureOddsCols m0)))).rows[i]?
        = some (rowSet (rowSet big "odds_source" (some (Value.vStr "odds_api")))
            "odds_source" (some (Value.vStr "missing"))) := by
      rw [tagMissing_row, h3, Option.map_some']
      rw [if_pos (show ODDS_VALUE_COLUMNS.all (fun c => ((rowSet big "odds_source"
          (some (Value.vStr "odds_api"))).get c).isNone) = true from by
        rw [List.all_eq_true]
        intro c hc
        rw [hallnull c hc]
        rfl)]
    refine ⟨_, by rw [hcore, hlm]; exact h4, ?_, ?_, ?_, ?_, ?_, ?_, ?_⟩
    · intro c hc
      have hcos : c ≠ "odds_source" := odds_ne_source c hc
      rw [rowSet_get_ne _ _ hcos]
      exact hallnull c hc
    · rw [rowSet_get_self]
    · rw [rowSet_get_ne _ _ (by decide), rowSet_get_ne _ _ (by decide), hbig_get]
      rw [if_pos hs1]
      exact normRowTeams_get_other lr _ (by decide) (by decide)
    · rw [rowSet_get_ne _ _ (by decide), rowSet_get_ne _ _ (by decide), hbig_get]
      rw [if_pos hs2]
      exact normRowTeams_get_other lr _ (by decide) (by decide)
    · rw [rowSet_get_ne _ _ (by decide), rowSet_get_ne _ _ (by decide), hbig_get]
      rw [if_pos hs3]
      exact normRowTeams_get_home lr
    · rw [rowSet_get_ne _ _ (by decide), rowSet_get_ne _ _ (by decide), hbig_get]
      rw [if_pos hs4]
      exact normRowTeams_get_away lr
    · intro c hcs hch hca
      have hcos : c ≠ "odds_source" := (hdis c hcs).2.1
      rw [rowSet_get_ne _ _ hcos, rowSet_get_ne _ _ hcos, hbig_get]
      rw [if_pos hcs]
      exact normRowTeams_get_other lr c hch hca

/-- Witness for C2 on the concrete one row schedule. -/
theorem enrich_empty_key_amended_witness :
    ∃ out, fetchScheduleOdds cSched "" none none ReadResult.missing
        (some "pinnacle") = Except.ok out
      ∧ out.cols = cSched.cols ++ ODDS_VALUE_COLUMNS ++ ["odds_source"]
      ∧ out.rows.length = cSched.rows.length
      ∧ ∀ (i : Nat) (lr : Row), cSched.rows[i]? = some lr →
          ∃ r : Row, out.rows[i]? = some r
            ∧ (∀ c ∈ ODDS_VALUE_COLUMNS, r.get c = none)
            ∧ r.get "odds_source" = some (Value.vStr "missing")
            ∧ r.get "season" = lr.get "season"
            ∧ r.get "week" = lr.get "week"
            ∧ r.get "home_team" = normalizeVal (lr.get "home_team")
            ∧ r.get "away_team" = normalizeVal (lr.get "away_team")
            ∧ (∀ c ∈ cSched.cols, c ≠ "home_team" → c ≠ "away_team" →
                r.get c = lr.get c) :=
  enrich_empty_key_amended cSched (by unfold SchedOK; decide) none ReadResult.missing
    (some "pinnacle")

/-! Machinery for the general enrichment run: shape of the column creation
fold, key matching, uniqueness of the prepared live frame, and the per row
live and historical lookups the merges perform. -/

theorem suffixName_empty (overlap : List String) (c : String) :
    suffixName overlap "" c = c := by
  unfold suffixName
  split
  · exact String.append_empty c
  · rfl

theorem filter_overlap_nil2 (cols rcols onCols : List String)
    (h : ∀ c ∈ cols, c ∈ rcols → c ∈ onCols) :
    cols.filter (fun c => decide (c ∈ rcols) && decide (c ∉ onCols)) = [] := by
  rw [List.filter_eq_nil_iff]
  intro c hc
  simp only [Bool.and_eq_true, decide_eq_true_eq, not_and]
  intro h1 h2
  exact h2 (h c hc h1)

theorem ensure_foldl_general :
    ∀ (cs : List String) (f : Frame), cs.Nodup →
      cs.foldl (fun acc c => if c ∈ acc.cols then acc else addCol acc c) f
        = { cols := f.cols ++ cs.filter (fun c => decide (c ∉ f.cols)),
            rows := f.rows.map (fun r =>
              r ++ (cs.filter (fun c => decide (c ∉ f.cols))).map
                (fun c => (c, (none : Option Value)))) } := by
  intro cs
  induction cs with
  | nil =>
    intro f _
    rcases f with ⟨cols, rows⟩
    simp
  | cons c cs ih =>
    intro f hnd
    rw [List.foldl_cons]
    by_cases hc : c ∈ f.cols
    · rw [if_pos hc, ih f (List.nodup_cons.mp hnd).2,
        List.filter_cons_of_neg (by simp [hc])]
    · have hfilter : cs.filter (fun x => decide (x ∉ (addCol f c).cols))
          = cs.filter (fun x => decide (x ∉ f.cols)) := by
        refine List.filter_congr ?_
        intro x hx
        have hxc : x ≠ c := fun h => (List.nodup_cons.mp hnd).1 (h ▸ hx)
        simp [addCol, hxc]
      rw [if_neg hc, ih (addCol f c) (List.nodup_cons.mp hnd).2, hfilter,
        List.filter_cons_of_pos (by simp [hc])]
      refine congrArg₂ Frame.mk ?_ ?_
      · simp [addCol]
      · simp only [addCol, List.map_map]
        refine List.map_congr_left ?_
        intro r _
        simp [Function.comp]

theorem ensureOddsCols_general (f : Frame) :
    ensureOddsCols f
      = { cols := f.cols ++ ODDS_VALUE_COLUMNS.filter (fun c => decide (c ∉ f.cols)),
          rows := f.rows.map (fun r =>
            r ++ (ODDS_VALUE_COLUMNS.filter (fun c => decide (c ∉ f.cols))).map
              (fun c => (c, (none : Option Value)))) } :=
  ensure_foldl_general ODDS_VALUE_COLUMNS f odds_nodup

theorem matchOn_congr :
    ∀ (cs : List String) (r1 r2 : Row),
      (∀ c ∈ cs, r1.get c = r2.get c) →
      ∀ rr : Row, matchOn cs r1 rr = matchOn cs r2 rr := by
  intro cs
  induction cs with
  | nil =>
    intro r1 r2 _ rr
    rfl
  | cons c cs ih =>
    intro r1 r2 h rr
    unfold matchOn
    rw [List.all_cons, List.all_cons, h c (List.mem_cons_self _ _)]
    have hrest := ih r1 r2 (fun d hd => h d (List.mem_cons_of_mem _ hd)) rr
    unfold matchOn at hrest
    rw [hrest]

theorem matchOn_pair_iff (nlr rr : Row) :
    (matchOn ["home_team", "away_team"] nlr rr = true) ↔ rowKey rr = rowKey nlr := by
  unfold matchOn rowKey
  simp only [List.all_cons, List.all_nil, Bool.and_true, Bool.and_eq_true,
    decide_eq_true_eq, Prod.mk.injEq]
  constructor
  · rintro ⟨h1, h2⟩
    exact ⟨h1.symm, h2.symm⟩
  · rintro ⟨h1, h2⟩
    exact ⟨h1.symm, h2.symm⟩

theorem matchOn_pair_eq (nlr rr : Row) :
    matchOn ["home_team", "away_team"] nlr rr = decide (rowKey rr = rowKey nlr) := by
  by_cases h : rowKey rr = rowKey nlr
  · rw [(matchOn_pair_iff nlr rr).mpr h, decide_eq_true h]
  · rw [decide_eq_false h]
    exact Bool.eq_false_iff.mpr (fun hm => h ((matchOn_pair_iff nlr rr).mp hm))

theorem dedup_unique :
    ∀ (l : List Row) (k : Option Value × Option Value),
      ((dedupKeepLast l).filter (fun x => decide (rowKey x = k))).length ≤ 1 := by
  intro l
  induction l with
  | nil =>
    intro k
    simp [dedupKeepLast]
  | cons y rest ih =>
    intro k
    unfold dedupKeepLast
    by_cases hc : rest.any (fun x => decide (rowKey x = rowKey y)) = true
    · rw [if_pos hc]
      exact ih k
    · rw [if_neg hc]
      by_cases hyk : rowKey y = k
      · rw [List.filter_cons_of_pos (by simp [hyk])]
        have hnil : (dedupKeepLast rest).filter (fun x => decide (rowKey x = k)) = [] := by
          rw [List.filter_eq_nil_iff]
          intro r hr hdec
          exact hc (List.any_eq_true.mpr ⟨r, dedup_subset rest r hr,
            by simp [of_decide_eq_true hdec, hyk]⟩)
        rw [hnil]
        simp
      · rw [List.filter_cons_of_neg (by simp [hyk])]
        exact ih k

theorem prepLatest_cols (f : Frame) : (prepLatest f).cols = f.cols := by
  unfold prepLatest
  by_cases hc : (dropnaTeams f).rows.isEmpty = true ∨ "commence_time" ∉ (dropnaTeams f).cols
  · rw [if_pos hc]
    rfl
  · rw [if_neg hc]
    rfl

theorem prepLatest_mem (f : Frame) (r : Row) (h : r ∈ (prepLatest f).rows) :
    r ∈ f.rows :=
  (mem_dropnaTeams.mp (prepLatest_rows_subset f r h)).1

theorem prepLatest_key_unique (f : Frame)
    (hcase : f.rows = [] ∨ "commence_time" ∈ f.cols)
    (k : Option Value × Option Value) :
    ((prepLatest f).rows.filter (fun x => decide (rowKey x = k))).length ≤ 1 := by
  unfold prepLatest
  by_cases hc : (dropnaTeams f).rows.isEmpty = true ∨ "commence_time" ∉ (dropnaTeams f).cols
  · rw [if_pos hc]
    have hnil : (dropnaTeams f).rows = [] := by
      rcases hcase with hr | hcol
      · unfold dropnaTeams
        rw [hr]
        rfl
      · rcases hc with he | hnc
        · exact List.isEmpty_iff.mp he
        · exact absurd hcol hnc
    rw [hnil]
    simp
  · rw [if_neg hc]
    exact dedup_unique _ k

theorem head?_mem {α : Type} {l : List α} {x : α} (h : l.head? = some x) : x ∈ l := by
  cases l with
  | nil => cases h
  | cons y rest =>
    rw [List.head?_cons] at h
    rw [← Option.some.inj h]
    exact List.mem_cons_self _ _

theorem proj_filter_len (latest : Frame) (cs : List String)
    (h1 : "home_team" ∈ cs) (h2 : "away_team" ∈ cs) (kr : Row) :
    ((selectCols latest cs).rows.filter (matchOn ["home_team", "away_team"] kr)).length
      = (latest.rows.filter
          (fun r => decide (rowKey r = (kr.get "home_team", kr.get "away_team")))).length := by
  show ((latest.rows.map (fun r => cs.map (fun c => (c, r.get c)))).filter
      (matchOn ["home_team", "away_team"] kr)).length = _
  rw [show (latest.rows.map (fun r => cs.map (fun c => (c, r.get c)))).filter
        (matchOn ["home_team", "away_team"] kr)
      = (latest.rows.filter ((matchOn ["home_team", "away_team"] kr) ∘
          (fun r => cs.map (fun c => (c, r.get c))))).map
          (fun r => cs.map (fun c => (c, r.get c))) from List.filter_map _ _]
  rw [List.length_map]
  refine congrArg List.length (List.filter_congr ?_)
  intro r _
  show matchOn ["home_team", "away_team"] kr (cs.map (fun c => (c, r.get c)))
    = decide (rowKey r = (kr.get "home_team", kr.get "away_team"))
  have hkey : rowKey (cs.map (fun c => (c, r.get c))) = rowKey r := by
    unfold rowKey
    rw [get_projRow cs r.get "home_team", get_projRow cs r.get "away_team",
      if_pos h1, if_pos h2]
  rw [matchOn_pair_eq]
  exact decide_eq_decide.mpr (by rw [hkey]; exact Iff.rfl)

theorem totalsSection_hasKey_ne (bk : Bookmaker) (row : Row) {c : String}
    (h1 : c ≠ "total_line") (h2 : c ≠ "over_odds") (h3 : c ≠ "under_odds") :
    (totalsSection bk row).hasKey c = row.hasKey c := by
  cases hm : findMarket bk "totals" with
  | none => simp only [totalsSection, hm]
  | some m =>
    simp only [totalsSection, hm]
    cases hov : findOutcome m "Over" with
    | some ov =>
      cases hun : findOutcome m "Under" with
      | some un =>
        rw [rowSet_hasKey_ne _ _ h3, rowSetdefault_hasKey_ne _ _ h1,
          rowSet_hasKey_ne _ _ h2, rowSet_hasKey_ne _ _ h1]
      | none => rw [rowSet_hasKey_ne _ _ h2, rowSet_hasKey_ne _ _ h1]
    | none =>
      cases hun : findOutcome m "Under" with
      | some un => rw [rowSet_hasKey_ne _ _ h3, rowSetdefault_hasKey_ne _ _ h1]
      | none => rfl

theorem buildRow_hasKey_commence (hf af : String) (e : Event) (bk : Bookmaker) :
    (buildRow hf af e bk).hasKey "commence_time" = true := by
  unfold buildRow
  rw [totalsSection_hasKey_ne bk _ (by decide) (by decide) (by decide),
    spreadsSection_hasKey_ne bk hf af _ (by decide) (by decide) (by decide),
    h2hSection_hasKey_ne bk hf af _ (by decide) (by decide)]
  simp [Row.hasKey]

theorem buildRow_hasKey_source (hf af : String) (e : Event) (bk : Bookmaker) :
    (buildRow hf af e bk).hasKey "odds_source" = true := by
  unfold buildRow
  rw [totalsSection_hasKey_ne bk _ (by decide) (by decide) (by decide),
    spreadsSection_hasKey_ne bk hf af _ (by decide) (by decide) (by decide),
    h2hSection_hasKey_ne bk hf af _ (by decide) (by decide)]
  simp [Row.hasKey]

theorem buildRow_get_source (hf af : String) (e : Event) (bk : Bookmaker) :
    (buildRow hf af e bk).get "odds_source" = some (Value.vStr "odds_api") := by
  unfold buildRow
  rw [totalsSection_get_ne bk _ (by decide) (by decide) (by decide),
    spreadsSection_get_ne bk hf af _ (by decide) (by decide) (by decide),
    h2hSection_get_ne bk hf af _ (by decide) (by decide)]
  simp [Row.get]

theorem eventToRow_shape (pref : Option String) (e : Event) :
    eventToRow pref e = none
    ∨ ∃ hf af bk, eventToRow pref e = some (buildRow hf af e bk) := by
  unfold eventToRow
  cases hht : e.home_team with
  | none => exact Or.inl rfl
  | some hf =>
    cases hfind : e.teams.find? (fun t => decide (some t ≠ some hf)) with
    | none => exact Or.inl rfl
    | some af =>
      show ((if hf = "" ∨ af = "" then none else
          match selectBookmaker e.bookmakers pref with
          | none => none
          | some bk => some (buildRow hf af e bk)) = none)
        ∨ ∃ hf2 af2 bk2, (if hf = "" ∨ af = "" then none else
          match selectBookmaker e.bookmakers pref with
          | none => none
          | some bk => some (buildRow hf af e bk)) = some (buildRow hf2 af2 e bk2)
      by_cases hempty : hf = "" ∨ af = ""
      · refine Or.inl ?_
        rw [if_pos hempty]
      · rw [if_neg hempty]
        cases hbk : selectBookmaker e.bookmakers pref with
        | none => exact Or.inl rfl
        | some bk => exact Or.inr ⟨hf, af, bk, rfl⟩

theorem oddsJson_mem (events : List Event) (pref : Option String) (r : Row)
    (h : r ∈ (oddsJsonToFrame events pref).rows) :
    ∃ e ∈ events, eventToRow pref e = some r := by
  unfold oddsJsonToFrame at h
  by_cases hemp : (events.filterMap (eventToRow pref)).isEmpty = true
  · rw [if_pos hemp] at h
    simp at h
  · rw [if_neg hemp] at h
    exact List.mem_filterMap.mp h

theorem oddsJson_cols (events : List Event) (pref : Option String) (r : Row) (c : String)
    (hr : r ∈ (oddsJsonToFrame events pref).rows) (hk : r.hasKey c = true) :
    c ∈ (oddsJsonToFrame events pref).cols := by
  unfold oddsJsonToFrame at hr ⊢
  by_cases hemp : (events.filterMap (eventToRow pref)).isEmpty = true
  · rw [if_pos hemp] at hr
    simp at hr
  · rw [if_neg hemp] at hr ⊢
    exact mem_colsUnion _ c ⟨r, hr, hk⟩

theorem latest_rows_facts (apiKey : String) (fetched : Option (List Event))
    (pref : Option String) (r : Row)
    (hr : r ∈ (latestFrame apiKey fetched pref).rows) :
    r.get "odds_source" = some (Value.vStr "odds_api")
    ∧ "odds_source" ∈ (latestFrame apiKey fetched pref).cols
    ∧ r.hasKey "commence_time" = true := by
  unfold latestFrame at hr ⊢
  by_cases hkey : apiKey ≠ ""
  · rw [if_pos hkey] at hr ⊢
    cases fetched with
    | none => simp at hr
    | some events =>
      obtain ⟨e, _, he⟩ := oddsJson_mem events pref r hr
      rcases eventToRow_shape pref e with hnone | ⟨hf, af, bk, hsome⟩
      · rw [he] at hnone
        cases hnone
      · rw [he] at hsome
        obtain rfl := Option.some.inj hsome
        exact ⟨buildRow_get_source hf af e bk,
          oddsJson_cols events pref _ "odds_source" hr (buildRow_hasKey_source hf af e bk),
          buildRow_hasKey_commence hf af e bk⟩
  · rw [if_neg hkey] at hr
    simp at hr

theorem latestFrame_case (apiKey : String) (fetched : Option (List Event))
    (pref : Option String) :
    (latestFrame apiKey fetched pref).rows = []
    ∨ "commence_time" ∈ (latestFrame apiKey fetched pref).cols := by
  unfold latestFrame
  by_cases hkey : apiKey ≠ ""
  · rw [if_pos hkey]
    cases fetched with
    | none => exact Or.inl rfl
    | some events =>
      show (oddsJsonToFrame events pref).rows = []
        ∨ "commence_time" ∈ (oddsJsonToFrame events pref).cols
      unfold oddsJsonToFrame
      by_cases hemp : (events.filterMap (eventToRow pref)).isEmpty = true
      · rw [if_pos hemp]
        exact Or.inl rfl
      · rw [if_neg hemp]
        refine Or.inr ?_
        obtain ⟨r, hr⟩ : ∃ r, r ∈ events.filterMap (eventToRow pref) := by
          rcases hl : events.filterMap (eventToRow pref) with _ | ⟨r, rest⟩
          · rw [hl] at hemp
            exact absurd rfl hemp
          · exact ⟨r, List.mem_cons_self _ _⟩
        obtain ⟨e, _, he⟩ := List.mem_filterMap.mp hr
        rcases eventToRow_shape pref e with hnone | ⟨hf, af, bk, hsome⟩
        · rw [he] at hnone
          cases hnone
        · rw [he] at hsome
          obtain rfl := Option.some.inj hsome
          exact mem_colsUnion _ _ ⟨_, hr, buildRow_hasKey_commence hf af e bk⟩
  · rw [if_neg hkey]
    exact Or.inl rfl

/-- The prepared and projected live frame the merge joins onto the
normalized schedule. -/
def liveProj (apiKey : String) (fetched : Option (List Event))
    (pref : Option String) : Frame :=
  let latest := prepLatest (latestFrame apiKey fetched pref)
  selectCols latest (latestColsOf latest)

/-- The four key cells of a schedule row as the merges see them: season and
week unchanged, the two team cells normalized. -/
def keyRowOf (lr : Row) : Row :=
  [("season", lr.get "season"), ("week", lr.get "week"),
   ("home_team", normalizeVal (lr.get "home_team")),
   ("away_team", normalizeVal (lr.get "away_team"))]

/-- The at most one live row the merge joins onto a schedule row. -/
def liveRowFor (apiKey : String) (fetched : Option (List Event))
    (pref : Option String) (lr : Row) : Option Row :=
  ((liveProj apiKey fetched pref).rows.filter
    (matchOn ["home_team", "away_team"] (keyRowOf lr))).head?

/-- The at most one historical row the backfill merge joins onto a row. -/
def histRowFor (histOpt : Option Frame) (lr : Row) : Option Row :=
  match histOpt with
  | some hist =>
    if hist.rows.isEmpty = false
    then (hist.rows.filter (matchOn KEY_COLS (keyRowOf lr))).head?
    else none
  | none => none

/-- Reading a cell of an optional row. -/
def optGet (ro : Option Row) (c : String) : Option Value :=
  match ro with
  | some r => r.get c
  | none => none

/-- The final value of an odds value column of an enriched row: the live
value when the live merge supplied a non null one, else the historical
value. -/
def finalOdds (apiKey : String) (fetched : Option (List Event))
    (pref : Option String) (histOpt : Option Frame) (lr : Row) (c : String) :
    Option Value :=
  if optGet (liveRowFor apiKey fetched pref lr) c = none
  then optGet (histRowFor histOpt lr) c
  else optGet (liveRowFor apiKey fetched pref lr) c

theorem keyRowOf_get_season (lr : Row) :
    (keyRowOf lr).get "season" = lr.get "season" := by
  simp [keyRowOf, Row.get]

theorem keyRowOf_get_week (lr : Row) :
    (keyRowOf lr).get "week" = lr.get "week" := by
  simp [keyRowOf, Row.get]

theorem keyRowOf_get_home (lr : Row) :
    (keyRowOf lr).get "home_team" = normalizeVal (lr.get "home_team") := by
  simp [keyRowOf, Row.get]

theorem keyRowOf_get_away (lr : Row) :
    (keyRowOf lr).get "away_team" = normalizeVal (lr.get "away_team") := by
  simp [keyRowOf, Row.get]

theorem mem_latestColsOf_home (latest : Frame) :
    "home_team" ∈ latestColsOf latest := by
  unfold latestColsOf
  exact List.mem_append_left _ (by decide)

theorem mem_latestColsOf_away (latest : Frame) :
    "away_team" ∈ latestColsOf latest := by
  unfold latestColsOf
  exact List.mem_append_left _ (by decide)

theorem liveProj_unique (apiKey : String) (fetched : Option (List Event))
    (pref : Option String) (kr : Row) :
    ((liveProj apiKey fetched pref).rows.filter
      (matchOn ["home_team", "away_team"] kr)).length ≤ 1 := by
  show ((selectCols (prepLatest (latestFrame apiKey fetched pref))
      (latestColsOf (prepLatest (latestFrame apiKey fetched pref)))).rows.filter
      (matchOn ["home_team", "away_team"] kr)).length ≤ 1
  rw [proj_filter_len _ _ (mem_latestColsOf_home _) (mem_latestColsOf_away _) kr]
  exact prepLatest_key_unique _ (latestFrame_case apiKey fetched pref) _

theorem liveProj_rows_form (apiKey : String) (fetched : Option (List Event))
    (pref : Option String) (pr : Row)
    (hpr : pr ∈ (liveProj apiKey fetched pref).rows) :
    ∃ rr, rr ∈ (latestFrame apiKey fetched pref).rows
      ∧ pr = (latestColsOf (prepLatest (latestFrame apiKey fetched pref))).map
          (fun c => (c, rr.get c)) := by
  unfold liveProj at hpr
  obtain ⟨rr, hrr, heq⟩ := List.mem_map.mp hpr
  exact ⟨rr, prepLatest_mem _ _ hrr, heq.symm⟩

theorem liveProj_rows_source (apiKey : String) (fetched : Option (List Event))
    (pref : Option String) (pr : Row)
    (hpr : pr ∈ (liveProj apiKey fetched pref).rows) :
    pr.get "odds_source" = some (Value.vStr "odds_api")
    ∧ "odds_source" ∈ latestColsOf (prepLatest (latestFrame apiKey fetched pref)) := by
  obtain ⟨rr, hrr, rfl⟩ := liveProj_rows_form apiKey fetched pref pr hpr
  obtain ⟨hsrc, hcol, _⟩ := latest_rows_facts apiKey fetched pref rr hrr
  have hmem : "odds_source" ∈ latestColsOf (prepLatest (latestFrame apiKey fetched pref)) := by
    refine List.mem_append_right _ ?_
    refine List.mem_filter.mpr ⟨by decide, ?_⟩
    rw [prepLatest_cols]
    exact decide_eq_true hcol
  refine ⟨?_, hmem⟩
  rw [get_projRow, if_pos hmem, hsrc]

theorem specials_ne_teamkeys :
    ∀ c ∈ ODDS_VALUE_COLUMNS ++ ["odds_source", "commence_time"],
      ¬ c ∈ (["home_team", "away_team"] : List String) := by decide

set_option maxHeartbeats 1000000 in
theorem specials_hist_ne :
    ∀ c ∈ ODDS_VALUE_COLUMNS ++ ["odds_source", "commence_time"],
      ∀ o ∈ ODDS_VALUE_COLUMNS, c ≠ o ++ "_hist" := by decide

set_option maxHeartbeats 1000000 in
theorem key_hist_ne :
    ∀ k ∈ KEY_COLS, ∀ o ∈ ODDS_VALUE_COLUMNS, k ≠ o ++ "_hist" := by decide

theorem source_not_odds : ¬ "odds_source" ∈ ODDS_VALUE_COLUMNS := by decide

theorem odds_not_keys : ∀ o ∈ ODDS_VALUE_COLUMNS, ¬ o ∈ KEY_COLS := by decide

theorem get_append_single_ne (r : Row) (c : String) (v : Option Value) (cq : String)
    (h : cq ≠ c) : (r ++ [(c, v)]).get cq = r.get cq := by
  induction r with
  | nil => simp [Row.get, Ne.symm h]
  | cons p rest ih =>
    rcases p with ⟨k, w⟩
    by_cases hk : k = cq
    · simp [Row.get, hk]
    · simp [Row.get, hk, ih]

theorem hasKey_append_single_ne (r : Row) (c : String) (v : Option Value) (cq : String)
    (h : cq ≠ c) : (r ++ [(c, v)]).hasKey cq = r.hasKey cq := by
  rw [Row.hasKey_append]
  simp [Row.hasKey, Ne.symm h]

theorem row_get_none_of_keys_sub (r : Row) (cols : List String) (c : String)
    (halign : ∀ p ∈ r, p.1 ∈ cols) (hc : ¬ c ∈ cols) : r.get c = none := by
  induction r with
  | nil => rfl
  | cons p rest ih =>
    rcases p with ⟨k, v⟩
    by_cases hk : k = c
    · exact absurd (hk ▸ halign (k, v) (List.mem_cons_self _ _)) hc
    · rw [show Row.get ((k, v) :: rest) c = Row.get rest c from by simp [Row.get, hk]]
      exact ih (fun p hp => halign p (List.mem_cons_of_mem _ hp))

theorem dropColRow_hasKey (r : Row) (cd c : String) (h : c ≠ cd) :
    (dropColRow r cd).hasKey c = r.hasKey c := by
  induction r with
  | nil => rfl
  | cons p rest ih =>
    rcases p with ⟨k, v⟩
    by_cases hk : k = cd
    · subst hk
      rw [show dropColRow ((k, v) :: rest) k = dropColRow rest k from by
        simp [dropColRow]]
      rw [ih]
      simp [Row.hasKey, Ne.symm h]
    · rw [show dropColRow ((k, v) :: rest) cd = (k, v) :: dropColRow rest cd from by
        simp [dropColRow, hk]]
      simp [Row.hasKey, ih]

theorem fillOneCol_hasKey_other (f : Frame) (flags : List Bool) (col c : String)
    (i : Nat) (r : Row) (hr : f.rows[i]? = some r)
    (h1 : c ≠ col) (h2 : c ≠ col ++ "_hist") :
    ∃ r' : Row, (fillOneCol (f, flags) col).1.rows[i]? = some r'
      ∧ r'.hasKey c = r.hasKey c := by
  unfold fillOneCol
  by_cases hmem : (col ++ "_hist") ∈ f.cols
  · rw [if_pos hmem]
    refine ⟨dropColRow (if doFill col (col ++ "_hist") r = true
        then rowSet r col (r.get (col ++ "_hist")) else r) (col ++ "_hist"), ?_, ?_⟩
    · simp [dropCol, List.getElem?_map, hr]
    · rw [dropColRow_hasKey _ _ _ h2]
      by_cases hdo : doFill col (col ++ "_hist") r = true
      · rw [if_pos hdo, rowSet_hasKey_ne _ _ h1]
      · rw [if_neg hdo]
  · rw [if_neg hmem]
    exact ⟨r, hr, rfl⟩

theorem fillCols_hasKey_pres :
    ∀ (cs : List String) (f : Frame) (flags : List Bool) (c : String),
      (∀ y ∈ cs, c ≠ y ∧ c ≠ y ++ "_hist") →
      ∀ (i : Nat) (r : Row), f.rows[i]? = some r →
      ∃ r' : Row, (fillCols cs (f, flags)).1.rows[i]? = some r'
        ∧ r'.hasKey c = r.hasKey c := by
  intro cs
  induction cs with
  | nil =>
    intro f flags c _ i r hr
    exact ⟨r, hr, rfl⟩
  | cons x rest ih =>
    intro f flags c hcond i r hr
    have hx := hcond x (List.mem_cons_self _ _)
    obtain ⟨r1, hr1, he1⟩ := fillOneCol_hasKey_other f flags x c i r hr hx.1 hx.2
    obtain ⟨r2, hr2, he2⟩ := ih (fillOneCol (f, flags) x).1 (fillOneCol (f, flags) x).2 c
      (fun y hy => hcond y (List.mem_cons_of_mem _ hy)) i r1 hr1
    exact ⟨r2, hr2, he2.trans he1⟩

theorem fillCols_rows_length :
    ∀ (cs : List String) (st : Frame × List Bool),
      (fillCols cs st).1.rows.length = st.1.rows.length := by
  intro cs
  induction cs with
  | nil =>
    intro st
    rfl
  | cons c cs ih =>
    intro st
    rw [show fillCols (c :: cs) st = fillCols cs (fillOneCol st c) from rfl, ih,
      fillOneCol_rows_length]

theorem fillCols_flags_length :
    ∀ (cs : List String) (st : Frame × List Bool), st.2.length = st.1.rows.length →
      (fillCols cs st).2.length = (fillCols cs st).1.rows.length := by
  intro cs
  induction cs with
  | nil =>
    intro st h
    exact h
  | cons c cs ih =>
    intro st h
    rw [show fillCols (c :: cs) st = fillCols cs (fillOneCol st c) from rfl]
    exact ih _ (fillOneCol_flags_length st c h)

theorem fillCols_cols_mem :
    ∀ (cs : List String) (st : Frame × List Bool) (x : String),
      (∀ y ∈ cs, x ≠ y ++ "_hist") →
      (x ∈ (fillCols cs st).1.cols ↔ x ∈ st.1.cols) := by
  intro cs
  induction cs with
  | nil =>
    intro st x _
    exact Iff.rfl
  | cons c cs ih =>
    intro st x h
    rw [show fillCols (c :: cs) st = fillCols cs (fillOneCol st c) from rfl]
    rw [ih _ x (fun y hy => h y (List.mem_cons_of_mem _ hy))]
    exact fillOneCol_cols st c x (h c (List.mem_cons_self _ _))

theorem loader_wf (path : String) (read : ReadResult) (hist : Frame)
    (h : prepareHistoricalLines path read KEY_COLS = Except.ok (some hist)) :
    (∀ c ∈ hist.cols, c ∈ KEY_COLS ∨ c ∈ ODDS_VALUE_COLUMNS)
    ∧ (∀ r ∈ hist.rows, ∀ p ∈ r, p.1 ∈ hist.cols) := by
  unfold prepareHistoricalLines at h
  by_cases hp : path = ""
  · rw [if_pos hp] at h
    exact absurd (Except.ok.inj h) (by simp)
  · rw [if_neg hp] at h
    cases read with
    | missing => exact absurd (Except.ok.inj h) (by simp)
    | unreadable => cases h
    | content hist0 =>
      replace h : (if ¬ (KEY_COLS.filter
            (fun c => decide (c ∉ (renameCols hist0).cols))).isEmpty = true
          then Except.ok none
          else Except.ok (some (selectCols
            (mapCol (mapCol (renameCols hist0) "home_team" normalizeVal)
              "away_team" normalizeVal)
            (dedupKeepFirst (KEY_COLS ++ ODDS_VALUE_COLUMNS.filter
              (fun c => decide (c ∈ (mapCol (mapCol (renameCols hist0) "home_team"
                normalizeVal) "away_team" normalizeVal).cols))))))) = Except.ok (some hist) := h
      by_cases hm : ¬ (KEY_COLS.filter
          (fun c => decide (c ∉ (renameCols hist0).cols))).isEmpty = true
      · rw [if_pos hm] at h
        exact absurd (Except.ok.inj h) (by simp)
      · rw [if_neg hm] at h
        have hh := Option.some.inj (Except.ok.inj h)
        constructor
        · intro c hc
          rw [← hh] at hc
          have hc2 : c ∈ dedupKeepFirst (KEY_COLS ++ ODDS_VALUE_COLUMNS.filter
              (fun c => decide (c ∈ (mapCol (mapCol (renameCols hist0) "home_team"
                normalizeVal) "away_team" normalizeVal).cols))) := hc
          rw [mem_dedupKeepFirst] at hc2
          rcases List.mem_append.mp hc2 with h1 | h2
          · exact Or.inl h1
          · exact Or.inr (List.mem_filter.mp h2).1
        · intro r hr p hp2
          rw [← hh] at hr ⊢
          have halign := selectCols_aligned _ _ r hr
          show p.1 ∈ dedupKeepFirst _
          rw [← halign]
          exact List.mem_map.mpr ⟨p, hp2, rfl⟩

theorem histOutcome_wf (historicalCsv : Option String) (histRead : ReadResult)
    (hist : Frame) (h : histOutcome historicalCsv histRead = Except.ok (some hist)) :
    (∀ c ∈ hist.cols, c ∈ KEY_COLS ∨ c ∈ ODDS_VALUE_COLUMNS)
    ∧ (∀ r ∈ hist.rows, ∀ p ∈ r, p.1 ∈ hist.cols) := by
  unfold histOutcome at h
  cases historicalCsv with
  | none => exact absurd (Except.ok.inj h) (by simp)
  | some path =>
    replace h : (if path ≠ "" then prepareHistoricalLines path histRead KEY_COLS
        else Except.ok none) = Except.ok (some hist) := h
    by_cases hp : path ≠ ""
    · rw [if_pos hp] at h
      exact loader_wf path histRead hist h
    · rw [if_neg hp] at h
      exact absurd (Except.ok.inj h) (by simp)

set_option maxHeartbeats 1000000 in
/-- The complete per row description of the live merge stage: one output
row per schedule row carrying the schedule cells (teams normalized), the
cells of the at most one matching live row for the odds value columns, and
the live provenance tag exactly when a live row matched. -/
theorem liveMerged_spec (s : Frame) (hOK : SchedOK s) (apiKey : String)
    (fetched : Option (List Event)) (pref : Option String) :
    (liveMerged s apiKey fetched pref).rows.length = s.rows.length
    ∧ (∀ c ∈ ODDS_VALUE_COLUMNS, c ∈ (liveMerged s apiKey fetched pref).cols)
    ∧ (∀ c ∈ (liveMerged s apiKey fetched pref).cols,
        c ∈ s.cols ∨ c ∈ ODDS_VALUE_COLUMNS ∨ c = "odds_source" ∨ c = "commence_time")
    ∧ (∀ c ∈ s.cols, c ∈ (liveMerged s apiKey fetched pref).cols)
    ∧ ∀ (i : Nat) (lr : Row), s.rows[i]? = some lr →
      ∃ r : Row, (liveMerged s apiKey fetched pref).rows[i]? = some r
        ∧ r.map Prod.fst = (liveMerged s apiKey fetched pref).cols
        ∧ (∀ c ∈ s.cols, r.get c = (normRowTeams lr).get c)
        ∧ (∀ c ∈ KEY_COLS, r.get c = (keyRowOf lr).get c)
        ∧ (∀ c ∈ ODDS_VALUE_COLUMNS,
            r.get c = optGet (liveRowFor apiKey fetched pref lr) c)
        ∧ r.get "odds_source" = (if (liveRowFor apiKey fetched pref lr).isSome
            then some (Value.vStr "odds_api") else none) := by
  obtain ⟨hs1, hs2, hs3, hs4, hdis⟩ := hOK
  set latest := prepLatest (latestFrame apiKey fetched pref) with hlatdef
  set proj := selectCols latest (latestColsOf latest) with hprojdef
  set m1 := leftMerge (normalizeSched s) proj ["home_team", "away_team"] "_x" "_y"
    with hm1def
  set X := (ODDS_VALUE_COLUMNS ++ ["odds_source", "commence_time"]).filter
    (fun c => decide (c ∈ latest.cols)) with hXdef
  set Y := ODDS_VALUE_COLUMNS.filter (fun c => decide (c ∉ m1.cols)) with hYdef
  have hlm : liveMerged s apiKey fetched pref = ensureOddsCols m1 := rfl
  rw [hlm]
  have hov : (normalizeSched s).cols.filter
      (fun c => decide (c ∈ proj.cols) && decide (c ∉ ["home_team", "away_team"])) = [] := by
    refine filter_overlap_nil2 _ _ _ ?_
    intro c hc hcr
    rcases List.mem_append.mp hcr with hk | hsp
    · exact hk
    · exfalso
      have hc2 : c ∈ s.cols := hc
      have hdc := hdis c hc2
      have hcsp := List.mem_filter.mp hsp
      rcases List.mem_append.mp hcsp.1 with ho | hoc
      · exact hdc.1 ho
      · simp only [List.mem_cons, List.not_mem_nil, or_false] at hoc
        rcases hoc with rfl | rfl
        · exact hdc.2.1 rfl
        · exact hdc.2.2.1 rfl
  have hright : proj.cols.filter (fun c => decide (c ∉ ["home_team", "away_team"])) = X := by
    rw [hXdef]
    show (latestColsOf latest).filter _ = _
    unfold latestColsOf
    rw [List.filter_append]
    rw [show (["home_team", "away_team"] : List String).filter
        (fun c => decide (c ∉ ["home_team", "away_team"])) = [] from by decide]
    rw [List.nil_append]
    refine List.filter_eq_self.mpr ?_
    intro c hc
    exact decide_eq_true (specials_ne_teamkeys c (List.mem_filter.mp hc).1)
  have hXmem : ∀ c, c ∈ X ↔ (c ∈ ODDS_VALUE_COLUMNS ++ ["odds_source", "commence_time"]
      ∧ c ∈ latest.cols) := by
    intro c
    rw [hXdef]
    constructor
    · intro h
      have hm := List.mem_filter.mp h
      exact ⟨hm.1, of_decide_eq_true hm.2⟩
    · intro h
      exact List.mem_filter.mpr ⟨h.1, decide_eq_true h.2⟩
  have hm1cols : m1.cols = s.cols ++ X := by
    rw [hm1def, leftMerge_cols, hov, hright]
    rw [List.map_congr_left (fun c _ => suffixName_nil "_x" c),
      List.map_congr_left (fun c _ => suffixName_nil "_y" c)]
    simp
    rfl
  have hMshape := ensureOddsCols_general m1
  have hMcols : (ensureOddsCols m1).cols = s.cols ++ X ++ Y := by
    rw [hMshape]
    show m1.cols ++ _ = _
    rw [hYdef, hm1cols]
  have hModds : ∀ c ∈ ODDS_VALUE_COLUMNS, c ∈ (ensureOddsCols m1).cols := by
    intro c hc
    rw [hMcols]
    by_cases hx : c ∈ m1.cols
    · exact List.mem_append_left _ (hm1cols ▸ hx)
    · refine List.mem_append_right _ ?_
      rw [hYdef]
      exact List.mem_filter.mpr ⟨hc, decide_eq_true hx⟩
  have hMclass : ∀ c ∈ (ensureOddsCols m1).cols,
      c ∈ s.cols ∨ c ∈ ODDS_VALUE_COLUMNS ∨ c = "odds_source" ∨ c = "commence_time" := by
    intro c hc
    rw [hMcols] at hc
    rcases List.mem_append.mp hc with hc1 | hcy
    · rcases List.mem_append.mp hc1 with hcs | hcx
      · exact Or.inl hcs
      · have hx := (hXmem c).mp hcx
        rcases List.mem_append.mp hx.1 with ho | hsp
        · exact Or.inr (Or.inl ho)
        · simp only [List.mem_cons, List.not_mem_nil, or_false] at hsp
          rcases hsp with rfl | rfl
          · exact Or.inr (Or.inr (Or.inl rfl))
          · exact Or.inr (Or.inr (Or.inr rfl))
    · rw [hYdef] at hcy
      exact Or.inr (Or.inl (List.mem_filter.mp hcy).1)
  have hsub : ∀ c ∈ s.cols, c ∈ (ensureOddsCols m1).cols := by
    intro c hc
    rw [hMcols]
    exact List.mem_append_left _ (List.mem_append_left _ hc)
  have huniq1 : ∀ xr ∈ (normalizeSched s).rows,
      (proj.rows.filter (matchOn ["home_team", "away_team"] xr)).length ≤ 1 :=
    fun xr _ => liveProj_unique apiKey fetched pref xr
  refine ⟨?_, hModds, hMclass, hsub, ?_⟩
  · rw [hMshape]
    show (m1.rows.map _).length = s.rows.length
    rw [List.length_map, hm1def,
      leftMerge_rows_of_unique _ _ _ _ _ huniq1,
      List.length_map]
    simp [normalizeSched, mapCol]
  intro i lr hlr
  set pm := liveRowFor apiKey fetched pref lr with hpmdef
  have hnorm : (normalizeSched s).rows[i]? = some (normRowTeams lr) := by
    rw [normalizeSched_row, hlr]
    rfl
  have hm1rows := leftMerge_rows_of_unique (normalizeSched s) proj
    ["home_team", "away_team"] "_x" "_y" huniq1
  have h0 : m1.rows[i]? = some (mergedRowOf (normalizeSched s) proj
      ["home_team", "away_team"] "_x" "_y" (normRowTeams lr)) := by
    rw [hm1def, hm1rows, List.getElem?_map, hnorm]
    rfl
  have hfiltereq : proj.rows.filter (matchOn ["home_team", "away_team"] (normRowTeams lr))
      = proj.rows.filter (matchOn ["home_team", "away_team"] (keyRowOf lr)) := by
    refine List.filter_congr ?_
    intro rr _
    refine matchOn_congr ["home_team", "away_team"] (normRowTeams lr) (keyRowOf lr) ?_ rr
    intro c hc
    simp only [List.mem_cons, List.not_mem_nil, or_false] at hc
    rcases hc with rfl | rfl
    · rw [normRowTeams_get_home, keyRowOf_get_home]
    · rw [normRowTeams_get_away, keyRowOf_get_away]
  have hmrow : mergedRowOf (normalizeSched s) proj ["home_team", "away_team"] "_x" "_y"
      (normRowTeams lr)
      = s.cols.map (fun c => (c, (normRowTeams lr).get c))
        ++ X.map (fun c => (c, optGet pm c)) := by
    rcases hfl : proj.rows.filter (matchOn ["home_team", "away_team"] (normRowTeams lr))
      with _ | ⟨prr, rest⟩
    · have hpm0 : pm = none := by
        rw [hpmdef]
        show (proj.rows.filter (matchOn ["home_team", "away_team"] (keyRowOf lr))).head?
          = none
        rw [← hfiltereq, hfl]
        rfl
      rw [mergedRowOf_no_match _ _ _ _ _ _ hfl, hov, hright]
      rw [List.map_congr_left (fun c _ =>
        show ((suffixName [] "_x" c : String), (normRowTeams lr).get c)
          = (c, (normRowTeams lr).get c) from by rw [suffixName_nil])]
      rw [List.map_congr_left (fun c _ =>
        show ((suffixName [] "_y" c : String), (none : Option Value))
          = (c, optGet pm c) from by rw [suffixName_nil, hpm0]; rfl)]
      rfl
    · have hrest : rest = [] := by
        have hle : (proj.rows.filter
            (matchOn ["home_team", "away_team"] (normRowTeams lr))).length ≤ 1 :=
          liveProj_unique apiKey fetched pref (normRowTeams lr)
        rw [hfl] at hle
        simp at hle
        exact hle
      subst hrest
      have hpm1 : pm = some prr := by
        rw [hpmdef]
        show (proj.rows.filter (matchOn ["home_team", "away_team"] (keyRowOf lr))).head?
          = some prr
        rw [← hfiltereq, hfl]
        rfl
      rw [mergedRowOf_match _ _ _ _ _ _ prr hfl, hov, hright]
      rw [List.map_congr_left (fun c _ =>
        show ((suffixName [] "_x" c : String), (normRowTeams lr).get c)
          = (c, (normRowTeams lr).get c) from by rw [suffixName_nil])]
      rw [List.map_congr_left (fun c _ =>
        show ((suffixName [] "_y" c : String), prr.get c)
          = (c, optGet pm c) from by rw [suffixName_nil, hpm1]; rfl)]
      rfl
  rw [hmrow] at h0
  set big : Row := (s.cols.map (fun c => (c, (normRowTeams lr).get c))
      ++ X.map (fun c => (c, optGet pm c)))
      ++ Y.map (fun c => (c, (none : Option Value))) with hbigdef
  have h1 : (ensureOddsCols m1).rows[i]? = some big := by
    rw [hMshape]
    show (m1.rows.map _)[i]? = some big
    rw [List.getElem?_map, h0]
    rfl
  have hbig_get : ∀ c, Row.get big c
      = (if c ∈ s.cols then (normRowTeams lr).get c
         else if c ∈ X then optGet pm c
         else if c ∈ Y then (none : Option Value) else none) := by
    intro c
    rw [hbigdef, List.append_assoc]
    rw [get_sfx_block s.cols (fun x => x) _ _ c (fun _ _ h => h) rfl]
    by_cases hcs : c ∈ s.cols
    · rw [if_pos hcs, if_pos hcs]
    · rw [if_neg hcs, if_neg hcs]
      rw [get_sfx_block X (fun x => x) _ _ c (fun _ _ h => h) rfl]
      by_cases hcx : c ∈ X
      · rw [if_pos hcx, if_pos hcx]
      · rw [if_neg hcx, if_neg hcx]
        rw [get_sfx_tail Y (fun x => x) _ c (fun _ _ h => h)]
  have hbig_keys : big.map Prod.fst = (ensureOddsCols m1).cols := by
    rw [hbigdef, hMcols]
    simp only [List.map_append, List.map_map]
    rw [show (Prod.fst ∘ fun c : String => (c, (normRowTeams lr).get c))
        = fun (c : String) => c from rfl,
      show (Prod.fst ∘ fun c : String => (c, optGet pm c))
        = fun (c : String) => c from rfl,
      show (Prod.fst ∘ fun c : String => (c, (none : Option Value)))
        = fun (c : String) => c from rfl]
    simp
  have hpm_get_none : ∀ c, c ∈ ODDS_VALUE_COLUMNS ++ ["odds_source", "commence_time"] →
      ¬ c ∈ X → optGet pm c = none := by
    intro c hcsp hcx
    rw [hpmdef]
    show optGet ((liveProj apiKey fetched pref).rows.filter
        (matchOn ["home_team", "away_team"] (keyRowOf lr))).head? c = none
    cases hh : ((liveProj apiKey fetched pref).rows.filter
        (matchOn ["home_team", "away_team"] (keyRowOf lr))).head? with
    | none => rfl
    | some prr =>
      show prr.get c = none
      have hprr : prr ∈ (liveProj apiKey fetched pref).rows :=
        (List.mem_filter.mp (head?_mem hh)).1
      obtain ⟨rr, hrr, rfl⟩ := liveProj_rows_form apiKey fetched pref prr hprr
      rw [get_projRow]
      refine if_neg ?_
      intro hmem
      rcases List.mem_append.mp hmem with hk | hsp
      · exact specials_ne_teamkeys c hcsp hk
      · exact hcx ((hXmem c).mpr
          ⟨hcsp, of_decide_eq_true (List.mem_filter.mp hsp).2⟩)
  have hsrc_mem : ∀ prr, pm = some prr → "odds_source" ∈ X := by
    intro prr hq
    have hq2 : ((liveProj apiKey fetched pref).rows.filter
        (matchOn ["home_team", "away_team"] (keyRowOf lr))).head? = some prr := by
      rw [← hq, hpmdef]
      rfl
    have hprr : prr ∈ (liveProj apiKey fetched pref).rows :=
      (List.mem_filter.mp (head?_mem hq2)).1
    have hsc := (liveProj_rows_source apiKey fetched pref prr hprr).2
    rcases List.mem_append.mp hsc with hk | hsp
    · exact absurd hk (by decide)
    · exact (hXmem _).mpr ⟨(List.mem_filter.mp hsp).1,
        of_decide_eq_true (List.mem_filter.mp hsp).2⟩
  have hpm_source : optGet pm "odds_source"
      = (if pm.isSome then some (Value.vStr "odds_api") else none) := by
    cases hq : pm with
    | none => rfl
    | some prr =>
      show prr.get "odds_source" = some (Value.vStr "odds_api")
      have hq2 : ((liveProj apiKey fetched pref).rows.filter
          (matchOn ["home_team", "away_team"] (keyRowOf lr))).head? = some prr := by
        rw [← hq, hpmdef]
        rfl
      have hprr : prr ∈ (liveProj apiKey fetched pref).rows :=
        (List.mem_filter.mp (head?_mem hq2)).1
      exact (liveProj_rows_source apiKey fetched pref prr hprr).1
  have hscols : ∀ c ∈ s.cols, Row.get big c = (normRowTeams lr).get c := by
    intro c hc
    rw [hbig_get c, if_pos hc]
  have hkeyrow : ∀ c ∈ KEY_COLS, Row.get big c = (keyRowOf lr).get c := by
    intro c hc
    have hmemS : c ∈ s.cols := by
      simp only [KEY_COLS, List.mem_cons, List.not_mem_nil, or_false] at hc
      rcases hc with rfl | rfl | rfl | rfl
      exacts [hs1, hs2, hs3, hs4]
    rw [hbig_get c, if_pos hmemS]
    simp only [KEY_COLS, List.mem_cons, List.not_mem_nil, or_false] at hc
    rcases hc with rfl | rfl | rfl | rfl
    · rw [normRowTeams_get_other lr _ (by decide) (by decide), keyRowOf_get_season]
    · rw [normRowTeams_get_other lr _ (by decide) (by decide), keyRowOf_get_week]
    · rw [normRowTeams_get_home, keyRowOf_get_home]
    · rw [normRowTeams_get_away, keyRowOf_get_away]
  have hodds_get : ∀ c ∈ ODDS_VALUE_COLUMNS, Row.get big c = optGet pm c := by
    intro c hc
    rw [hbig_get c, if_neg (fun hcs => (hdis c hcs).1 hc)]
    by_cases hcx : c ∈ X
    · rw [if_pos hcx]
    · rw [if_neg hcx, ite_self]
      exact (hpm_get_none c (List.mem_append_left _ hc) hcx).symm
  have hsource_get : Row.get big "odds_source"
      = (if pm.isSome then some (Value.vStr "odds_api") else none) := by
    rw [hbig_get _, if_neg (fun hcs => (hdis _ hcs).2.1 rfl)]
    by_cases hcx : "odds_source" ∈ X
    · rw [if_pos hcx]
      exact hpm_source
    · rw [if_neg hcx, ite_self]
      cases hq : pm with
      | none => rfl
      | some prr => exact absurd (hsrc_mem prr hq) hcx
  exact ⟨big, h1, hbig_keys, hscols, hkeyrow, hodds_get, hsource_get⟩

theorem hasKey_of_get_ne_none (r : Row) (c : String) (h : r.get c ≠ none) :
    r.hasKey c = true := by
  by_cases hk : r.hasKey c = true
  · exact hk
  · exact absurd (Row.get_of_not_hasKey (Bool.eq_false_iff.mpr hk)) h

theorem keys_ne_source : ∀ c ∈ KEY_COLS, c ≠ "odds_source" := by decide

set_option maxHeartbeats 1000000 in
/-- The per row description of the enrichment tail when no historical
table takes part: provenance defaults, then the all null override. -/
theorem enrichNoHist_spec (s : Frame) (hOK : SchedOK s) (apiKey : String)
    (fetched : Option (List Event)) (pref : Option String) :
    (tagMissing (fillnaSource (ensureSourceCol
        (liveMerged s apiKey fetched pref)))).rows.length = s.rows.length
    ∧ ∀ (i : Nat) (lr : Row), s.rows[i]? = some lr →
      ∃ r : Row, (tagMissing (fillnaSource (ensureSourceCol
          (liveMerged s apiKey fetched pref)))).rows[i]? = some r
        ∧ (∀ c ∈ KEY_COLS, r.get c = (keyRowOf lr).get c)
        ∧ (∀ c ∈ ODDS_VALUE_COLUMNS,
            r.get c = optGet (liveRowFor apiKey fetched pref lr) c)
        ∧ r.get "odds_source" =
            (if ∀ c ∈ ODDS_VALUE_COLUMNS,
                optGet (liveRowFor apiKey fetched pref lr) c = none
             then some (Value.vStr "missing")
             else if (liveRowFor apiKey fetched pref lr).isSome = true
             then some (Value.vStr "odds_api")
             else some (Value.vStr "historical")) := by
  obtain ⟨hlen, hoddsmem, hclass, hsub, hrows⟩ := liveMerged_spec s hOK apiKey fetched pref
  set M := liveMerged s apiKey fetched pref with hMdef
  have hlenES : (ensureSourceCol M).rows.length = M.rows.length := by
    unfold ensureSourceCol
    by_cases hsm : "odds_source" ∈ M.cols
    · rw [if_pos hsm]
    · rw [if_neg hsm, addCol_len]
  refine ⟨?_, ?_⟩
  · rw [tagMissing_len, fillnaSource_len, hlenES, hlen]
  intro i lr hlr
  obtain ⟨r0, hr0, halign, hscols, hkeys, hodds, hsrc⟩ := hrows i lr hlr
  set pm := liveRowFor apiKey fetched pref lr with hpmdef
  obtain ⟨r1, hr1, hr1src, hr1other⟩ :
      ∃ r1, (ensureSourceCol M).rows[i]? = some r1
        ∧ r1.get "odds_source" = r0.get "odds_source"
        ∧ (∀ c, c ≠ "odds_source" → r1.get c = r0.get c) := by
    by_cases hsm : "odds_source" ∈ M.cols
    · refine ⟨r0, ?_, rfl, fun _ _ => rfl⟩
      unfold ensureSourceCol
      rw [if_pos hsm]
      exact hr0
    · refine ⟨r0 ++ [("odds_source", none)], ?_, ?_, ?_⟩
      · rw [ensureSourceCol_shape M hsm, addCol_row, hr0]
        rfl
      · have hk : r0.hasKey "odds_source" = false := by
          by_cases hkk : r0.hasKey "odds_source" = true
          · exfalso
            apply hsm
            rw [← halign]
            exact (hasKey_iff_mem_keys r0 _).mp hkk
          · exact Bool.eq_false_iff.mpr hkk
        rw [Row.get_append_right hk, Row.get_of_not_hasKey hk]
        simp [Row.get]
      · intro c hc
        exact get_append_single_ne r0 _ _ c hc
  by_cases hpmS : pm.isSome = true
  · have hr1s : r1.get "odds_source" = some (Value.vStr "odds_api") := by
      rw [hr1src, hsrc, if_pos hpmS]
    have h2 : (fillnaSource (ensureSourceCol M)).rows[i]? = some r1 := by
      rw [fillnaSource_row, hr1, Option.map_some']
      rw [if_neg (show ¬ (r1.get "odds_source").isNone = true by
        rw [hr1s]
        exact Bool.false_ne_true)]
    by_cases hall : ODDS_VALUE_COLUMNS.all (fun c => (r1.get c).isNone) = true
    · have hallP : ∀ c ∈ ODDS_VALUE_COLUMNS, optGet pm c = none := by
        intro c hc
        have := List.all_eq_true.mp hall c hc
        rw [Option.isNone_iff_eq_none] at this
        rw [← hodds c hc, ← hr1other c (odds_ne_source c hc)]
        exact this
      refine ⟨rowSet r1 "odds_source" (some (Value.vStr "missing")), ?_, ?_, ?_, ?_⟩
      · rw [tagMissing_row, h2, Option.map_some', if_pos hall]
      · intro c hc
        rw [rowSet_get_ne _ _ (keys_ne_source c hc),
          hr1other c (keys_ne_source c hc)]
        exact hkeys c hc
      · intro c hc
        rw [rowSet_get_ne _ _ (odds_ne_source c hc),
          hr1other c (odds_ne_source c hc)]
        exact hodds c hc
      · rw [rowSet_get_self, if_pos hallP]
    · have hallN : ¬ ∀ c ∈ ODDS_VALUE_COLUMNS, optGet pm c = none := by
        intro hP
        apply hall
        rw [List.all_eq_true]
        intro c hc
        rw [Option.isNone_iff_eq_none, hr1other c (odds_ne_source c hc), hodds c hc]
        exact hP c hc
      refine ⟨r1, ?_, ?_, ?_, ?_⟩
      · rw [tagMissing_row, h2, Option.map_some', if_neg hall]
      · intro c hc
        rw [hr1other c (keys_ne_source c hc)]
        exact hkeys c hc
      · intro c hc
        rw [hr1other c (odds_ne_source c hc)]
        exact hodds c hc
      · rw [if_neg hallN, if_pos hpmS]
        exact hr1s
  · have hpmN : pm = none := by
      cases hq : pm with
      | none => rfl
      | some prr =>
        rw [hq] at hpmS
        exact absurd rfl hpmS
    have hallP : ∀ c ∈ ODDS_VALUE_COLUMNS, optGet pm c = none := by
      intro c _
      rw [hpmN]
      rfl
    have hr1s : r1.get "odds_source" = none := by
      rw [hr1src, hsrc, hpmN]
      rfl
    have h2 : (fillnaSource (ensureSourceCol M)).rows[i]?
        = some (rowSet r1 "odds_source" (some (Value.vStr "odds_api"))) := by
      rw [fillnaSource_row, hr1, Option.map_some']
      rw [if_pos (show (r1.get "odds_source").isNone = true by rw [hr1s]; rfl)]
    have hall : ODDS_VALUE_COLUMNS.all (fun c =>
        ((rowSet r1 "odds_source" (some (Value.vStr "odds_api"))).get c).isNone) = true := by
      rw [List.all_eq_true]
      intro c hc
      rw [Option.isNone_iff_eq_none, rowSet_get_ne _ _ (odds_ne_source c hc),
        hr1other c (odds_ne_source c hc), hodds c hc]
      exact hallP c hc
    refine ⟨rowSet (rowSet r1 "odds_source" (some (Value.vStr "odds_api")))
        "odds_source" (some (Value.vStr "missing")), ?_, ?_, ?_, ?_⟩
    · rw [tagMissing_row, h2, Option.map_some', if_pos hall]
    · intro c hc
      rw [rowSet_get_ne _ _ (keys_ne_source c hc),
        rowSet_get_ne _ _ (keys_ne_source c hc),
        hr1other c (keys_ne_source c hc)]
      exact hkeys c hc
    · intro c hc
      rw [rowSet_get_ne _ _ (odds_ne_source c hc),
        rowSet_get_ne _ _ (odds_ne_source c hc),
        hr1other c (odds_ne_source c hc)]
      exact hodds c hc
    · rw [rowSet_get_self, if_pos hallP]

theorem tagHistorical_row (f : Frame) (fls : List Bool) (i : Nat) (r : Row) (b : Bool)
    (hr : f.rows[i]? = some r) (hb : fls[i]? = some b) :
    (tagHistorical f fls).rows[i]?
      = some (if b && (r.get "odds_source").isNone
          then rowSet r "odds_source" (some (Value.vStr "historical")) else r) := by
  show ((f.rows.zip fls).map _)[i]? = _
  rw [List.getElem?_map,
    show (f.rows.zip fls)[i]? = some (r, b) from List.getElem?_zip_eq_some.mpr ⟨hr, hb⟩]
  rfl

theorem fillCols_flags_length2 (cs : List String) (f : Frame) (fls : List Bool)
    (h : fls.length = f.rows.length) :
    (fillCols cs (f, fls)).2.length = (fillCols cs (f, fls)).1.rows.length :=
  fillCols_flags_length cs (f, fls) h

set_option maxHeartbeats 1600000 in
/-- The per row description of the enrichment tail when a loaded historical
table takes part: the backfill merge joins at most one historical row per
key, the loop fills only null live cells, and the provenance tag follows
the fill flags, the live tag and the all null override. -/
theorem enrichHist_spec (s : Frame) (hOK : SchedOK s) (apiKey : String)
    (fetched : Option (List Event)) (pref : Option String) (hist : Frame)
    (hhcols : ∀ c ∈ hist.cols, c ∈ KEY_COLS ∨ c ∈ ODDS_VALUE_COLUMNS)
    (hhalign : ∀ r ∈ hist.rows, ∀ p ∈ r, p.1 ∈ hist.cols)
    (hhuniq : ∀ kr : Row, (hist.rows.filter (matchOn KEY_COLS kr)).length ≤ 1) :
    (tagMissing (fillnaSource (tagHistorical
        (ensureSourceCol (fillFromHist (leftMerge (liveMerged s apiKey fetched pref)
          hist KEY_COLS "" "_hist")).1)
        (fillFromHist (leftMerge (liveMerged s apiKey fetched pref)
          hist KEY_COLS "" "_hist")).2))).rows.length = s.rows.length
    ∧ ∀ (i : Nat) (lr : Row), s.rows[i]? = some lr →
      ∃ r : Row, (tagMissing (fillnaSource (tagHistorical
          (ensureSourceCol (fillFromHist (leftMerge (liveMerged s apiKey fetched pref)
            hist KEY_COLS "" "_hist")).1)
          (fillFromHist (leftMerge (liveMerged s apiKey fetched pref)
            hist KEY_COLS "" "_hist")).2))).rows[i]? = some r
        ∧ (∀ c ∈ KEY_COLS, r.get c = (keyRowOf lr).get c)
        ∧ (∀ c ∈ ODDS_VALUE_COLUMNS, r.get c
            = (if optGet (liveRowFor apiKey fetched pref lr) c = none
               then optGet ((hist.rows.filter (matchOn KEY_COLS (keyRowOf lr))).head?) c
               else optGet (liveRowFor apiKey fetched pref lr) c))
        ∧ r.get "odds_source"
            = (if ∀ c ∈ ODDS_VALUE_COLUMNS,
                  (if optGet (liveRowFor apiKey fetched pref lr) c = none
                   then optGet ((hist.rows.filter (matchOn KEY_COLS (keyRowOf lr))).head?) c
                   else optGet (liveRowFor apiKey fetched pref lr) c) = none
               then some (Value.vStr "missing")
               else if (liveRowFor apiKey fetched pref lr).isSome = true
               then some (Value.vStr "odds_api")
               else some (Value.vStr "historical")) := by
  obtain ⟨hlen, hoddsmem, hclass, hsub, hrows⟩ := liveMerged_spec s hOK apiKey fetched pref
  obtain ⟨hs1, hs2, hs3, hs4, hdis⟩ := hOK
  set M := liveMerged s apiKey fetched pref with hMdef
  set m2 := leftMerge M hist KEY_COLS "" "_hist" with hm2def
  set flags := List.replicate m2.rows.length false with hflagsdef
  have hff : fillFromHist m2 = fillCols ODDS_VALUE_COLUMNS (m2, flags) := rfl
  rw [hff]
  set RH := hist.cols.filter (fun c => decide (c ∉ KEY_COLS)) with hRHdef
  have hRH : ∀ c ∈ RH, c ∈ ODDS_VALUE_COLUMNS := by
    intro c hc
    have hm := List.mem_filter.mp hc
    rcases hhcols c hm.1 with hk | ho
    · exact absurd hk (of_decide_eq_true hm.2)
    · exact ho
  have hovmem : ∀ c ∈ RH, c ∈ M.cols.filter
      (fun c => decide (c ∈ hist.cols) && decide (c ∉ KEY_COLS)) := by
    intro c hc
    have hm := List.mem_filter.mp hc
    refine List.mem_filter.mpr ⟨hoddsmem c (hRH c hc), ?_⟩
    rw [Bool.and_eq_true]
    exact ⟨decide_eq_true hm.1, hm.2⟩
  have hchist_not : ∀ c ∈ ODDS_VALUE_COLUMNS, ¬ (c ++ "_hist") ∈ M.cols := by
    intro c hc hmem
    rcases hclass _ hmem with hs | ho | hsrcc | hct
    · exact (hdis _ hs).2.2.2 c hc rfl
    · exact odds_hist_ne c hc _ ho rfl
    · exact specials_hist_ne "odds_source" (by decide) c hc hsrcc.symm
    · exact specials_hist_ne "commence_time" (by decide) c hc hct.symm
  have hm2rows := leftMerge_rows_of_unique M hist KEY_COLS "" "_hist"
    (fun mlr _ => hhuniq mlr)
  have hm2cols : m2.cols = M.cols ++ RH.map (fun c => c ++ "_hist") := by
    rw [hm2def, leftMerge_cols]
    rw [List.map_congr_left (fun c _ => suffixName_empty _ c)]
    rw [List.map_congr_left (fun c hc =>
      suffixName_mem _ "_hist" c (hovmem c hc))]
    simp
  have hRHmem : ∀ c ∈ ODDS_VALUE_COLUMNS, (c ∈ RH ↔ c ∈ hist.cols) := by
    intro c hc
    constructor
    · intro h
      exact (List.mem_filter.mp h).1
    · intro h
      exact List.mem_filter.mpr ⟨h, decide_eq_true (odds_not_keys c hc)⟩
  have hm2hist_mem : ∀ c ∈ ODDS_VALUE_COLUMNS, ((c ++ "_hist") ∈ m2.cols ↔ c ∈ hist.cols) := by
    intro c hc
    rw [hm2cols]
    constructor
    · intro h
      rcases List.mem_append.mp h with h1 | h2
      · exact absurd h1 (hchist_not c hc)
      · obtain ⟨x, hx, he⟩ := List.mem_map.mp h2
        exact (hRHmem c hc).mp (hist_append_cancel he ▸ hx)
    · intro h
      exact List.mem_append_right _ (List.mem_map.mpr ⟨c, (hRHmem c hc).mpr h, rfl⟩)
  have hsrc_m2 : ("odds_source" ∈ m2.cols) ↔ ("odds_source" ∈ M.cols) := by
    rw [hm2cols]
    constructor
    · intro h
      rcases List.mem_append.mp h with h1 | h2
      · exact h1
      · obtain ⟨x, hx, he⟩ := List.mem_map.mp h2
        exact absurd he.symm (specials_hist_ne "odds_source" (by decide) x (hRH x hx))
    · exact fun h => List.mem_append_left _ h
  have hlenES : ∀ f : Frame, (ensureSourceCol f).rows.length = f.rows.length := by
    intro f
    unfold ensureSourceCol
    by_cases hsm : "odds_source" ∈ f.cols
    · rw [if_pos hsm]
    · rw [if_neg hsm, addCol_len]
  have hm2len : m2.rows.length = s.rows.length := by
    rw [hm2def, hm2rows, List.length_map, hlen]
  have hflagslen0 : flags.length = m2.rows.length := by
    rw [hflagsdef]
    simp
  have hflagslen := fillCols_flags_length2 ODDS_VALUE_COLUMNS m2 flags hflagslen0
  refine ⟨?_, ?_⟩
  · rw [tagMissing_len, fillnaSource_len, tagHistorical_len, hlenES,
      hflagslen, Nat.min_self, fillCols_rows_length, hm2len]
  intro i lr hlr
  obtain ⟨r0, hr0, halign, hscols, hkeys, hodds, hsrc⟩ := hrows i lr hlr
  set pm := liveRowFor apiKey fetched pref lr with hpmdef
  set hm := (hist.rows.filter (matchOn KEY_COLS (keyRowOf lr))).head? with hhmdef
  have hfiltH : hist.rows.filter (matchOn KEY_COLS r0)
      = hist.rows.filter (matchOn KEY_COLS (keyRowOf lr)) := by
    refine List.filter_congr ?_
    intro rr _
    exact matchOn_congr KEY_COLS r0 (keyRowOf lr) hkeys rr
  have h2 : m2.rows[i]? = some (mergedRowOf M hist KEY_COLS "" "_hist" r0) := by
    rw [hm2def, hm2rows, List.getElem?_map, hr0]
    rfl
  have hm2row : mergedRowOf M hist KEY_COLS "" "_hist" r0
      = M.cols.map (fun c => (c, r0.get c))
        ++ RH.map (fun c => ((c ++ "_hist" : String), optGet hm c)) := by
    rcases hfl2 : hist.rows.filter (matchOn KEY_COLS r0) with _ | ⟨hrr, rest⟩
    · have hhm0 : hm = none := by
        rw [hhmdef, ← hfiltH, hfl2]
        rfl
      rw [mergedRowOf_no_match _ _ _ _ _ _ hfl2]
      rw [List.map_congr_left (fun c _ =>
        show ((suffixName (M.cols.filter (fun c => decide (c ∈ hist.cols)
            && decide (c ∉ KEY_COLS))) "" c : String), r0.get c)
          = (c, r0.get c) from by rw [suffixName_empty])]
      rw [List.map_congr_left (fun c hc =>
        show ((suffixName (M.cols.filter (fun c => decide (c ∈ hist.cols)
            && decide (c ∉ KEY_COLS))) "_hist" c : String), (none : Option Value))
          = ((c ++ "_hist" : String), optGet hm c) from by
            rw [suffixName_mem _ "_hist" c (hovmem c hc), hhm0]; rfl)]
    · have hrest : rest = [] := by
        have hle := hhuniq r0
        rw [hfl2] at hle
        simp at hle
        exact hle
      subst hrest
      have hhm1 : hm = some hrr := by
        rw [hhmdef, ← hfiltH, hfl2]
        rfl
      rw [mergedRowOf_match _ _ _ _ _ _ hrr hfl2]
      rw [List.map_congr_left (fun c _ =>
        show ((suffixName (M.cols.filter (fun c => decide (c ∈ hist.cols)
            && decide (c ∉ KEY_COLS))) "" c : String), r0.get c)
          = (c, r0.get c) from by rw [suffixName_empty])]
      rw [List.map_congr_left (fun c hc =>
        show ((suffixName (M.cols.filter (fun c => decide (c ∈ hist.cols)
            && decide (c ∉ KEY_COLS))) "_hist" c : String), hrr.get c)
          = ((c ++ "_hist" : String), optGet hm c) from by
            rw [suffixName_mem _ "_hist" c (hovmem c hc), hhm1]; rfl)]
  rw [hm2row] at h2
  set bigrow : Row := M.cols.map (fun c => (c, r0.get c))
    ++ RH.map (fun c => ((c ++ "_hist" : String), optGet hm c)) with hbigdef
  have hbr : m2.rows[i]? = some bigrow := h2
  have hb2get_plain : ∀ c, (∀ x ∈ RH, x ++ "_hist" ≠ c) →
      Row.get bigrow c = (if c ∈ M.cols then r0.get c else none) := by
    intro c hno
    rw [hbigdef]
    rw [get_sfx_block M.cols (fun x => x) _ _ c (fun _ _ h => h) rfl]
    by_cases hcm : c ∈ M.cols
    · rw [if_pos hcm, if_pos hcm]
    · rw [if_neg hcm, if_neg hcm]
      rw [← List.append_nil (RH.map (fun x => ((x ++ "_hist" : String), optGet hm x)))]
      rw [get_sfx_block_none RH (fun x => x ++ "_hist") _ _ c hno]
      rfl
  have hb2get_hist : ∀ c ∈ ODDS_VALUE_COLUMNS,
      Row.get bigrow (c ++ "_hist") = (if c ∈ RH then optGet hm c else none) := by
    intro c hc
    rw [hbigdef]
    rw [get_sfx_block_none M.cols (fun x => x) _ _ (c ++ "_hist")
      (fun cq hcq he => hchist_not c hc (he ▸ hcq))]
    rw [get_sfx_tail RH (fun x => x ++ "_hist") _ c (fun cq _ h => hist_append_cancel h)]
  have hb2keys : bigrow.map Prod.fst = M.cols ++ RH.map (fun c => c ++ "_hist") := by
    rw [hbigdef]
    simp only [List.map_append, List.map_map]
    rw [show (Prod.fst ∘ fun c : String => (c, r0.get c)) = fun (c : String) => c from rfl,
      show (Prod.fst ∘ fun c : String => ((c ++ "_hist" : String), optGet hm c))
        = fun (c : String) => c ++ "_hist" from rfl]
    simp
  have hhm_none : ∀ c, ¬ c ∈ hist.cols → optGet hm c = none := by
    intro c hc
    cases hq : hm with
    | none => rfl
    | some hrr =>
      show hrr.get c = none
      rw [hhmdef] at hq
      have hhr : hrr ∈ hist.rows := (List.mem_filter.mp (head?_mem hq)).1
      exact row_get_none_of_keys_sub hrr hist.cols c (hhalign hrr hhr) hc
  have hb2hist_val : ∀ c ∈ ODDS_VALUE_COLUMNS,
      Row.get bigrow (c ++ "_hist") = optGet hm c := by
    intro c hc
    rw [hb2get_hist c hc]
    by_cases hr : c ∈ RH
    · rw [if_pos hr]
    · rw [if_neg hr]
      exact (hhm_none c (fun hcc => hr ((hRHmem c hc).mpr hcc))).symm
  have hb2odds : ∀ c ∈ ODDS_VALUE_COLUMNS, Row.get bigrow c = optGet pm c := by
    intro c hc
    rw [hb2get_plain c (fun x hx he => odds_hist_ne x (hRH x hx) c hc he),
      if_pos (hoddsmem c hc)]
    exact hodds c hc
  have hb2keysget : ∀ c ∈ KEY_COLS, Row.get bigrow c = (keyRowOf lr).get c := by
    intro c hc
    have hcs : c ∈ s.cols := by
      have hc2 := hc
      simp only [KEY_COLS, List.mem_cons, List.not_mem_nil, or_false] at hc2
      rcases hc2 with rfl | rfl | rfl | rfl
      exacts [hs1, hs2, hs3, hs4]
    rw [hb2get_plain c (fun x hx he => key_hist_ne c hc x (hRH x hx) he.symm),
      if_pos (hsub c hcs)]
    exact hkeys c hc
  have hb2src : Row.get bigrow "odds_source"
      = (if pm.isSome then some (Value.vStr "odds_api") else none) := by
    rw [hb2get_plain _ (fun x hx he =>
      specials_hist_ne "odds_source" (by decide) x (hRH x hx) he.symm)]
    by_cases hsm : "odds_source" ∈ M.cols
    · rw [if_pos hsm]
      exact hsrc
    · rw [if_neg hsm]
      cases hq : pm with
      | none => rfl
      | some prr =>
        exfalso
        rw [hq] at hsrc
        have hk : r0.hasKey "odds_source" = true :=
          hasKey_of_get_ne_none _ _ (by rw [hsrc]; simp)
        apply hsm
        rw [← halign]
        exact (hasKey_iff_mem_keys _ _).mp hk
  have hb2hk_src : bigrow.hasKey "odds_source" = true ↔ "odds_source" ∈ M.cols := by
    rw [hasKey_iff_mem_keys, hb2keys]
    constructor
    · intro h
      rcases List.mem_append.mp h with h1 | h2
      · exact h1
      · obtain ⟨x, hx, he⟩ := List.mem_map.mp h2
        exact absurd he.symm (specials_hist_ne "odds_source" (by decide) x (hRH x hx))
    · exact fun h => List.mem_append_left _ h
  have hlt : i < m2.rows.length := by
    by_contra hge
    rw [List.getElem?_eq_none (Nat.le_of_not_lt hge)] at hbr
    cases hbr
  have hflag0 : flags[i]? = some false := by
    rw [hflagsdef, List.getElem?_replicate]
    rw [if_pos hlt]
  have hsrccond : ∀ y ∈ ODDS_VALUE_COLUMNS,
      ("odds_source" : String) ≠ y ∧ ("odds_source" : String) ≠ y ++ "_hist" :=
    fun y hy => ⟨Ne.symm (odds_ne_source y hy),
      specials_hist_ne "odds_source" (by decide) y hy⟩
  obtain ⟨r3, hr3, hr3src⟩ := fillCols_get_pres ODDS_VALUE_COLUMNS m2 flags
    "odds_source" hsrccond i bigrow hbr
  have hr3hk : r3.hasKey "odds_source" = bigrow.hasKey "odds_source" := by
    obtain ⟨r3k, hr3k, hr3khk⟩ := fillCols_hasKey_pres ODDS_VALUE_COLUMNS m2 flags
      "odds_source" hsrccond i bigrow hbr
    have hre : r3k = r3 := Option.some.inj (hr3k.symm.trans hr3)
    rw [← hre]
    exact hr3khk
  obtain ⟨fl, hfl, hfliff⟩ := fillCols_flag_formula ODDS_VALUE_COLUMNS m2 flags
    odds_nodup odds_hist_ne i bigrow false hbr hflag0
  have hr3keys : ∀ c ∈ KEY_COLS, r3.get c = (keyRowOf lr).get c := by
    intro c hc
    obtain ⟨r', hr', he⟩ := fillCols_get_pres ODDS_VALUE_COLUMNS m2 flags c
      (fun y hy => ⟨fun h => odds_not_keys y hy (h ▸ hc), key_hist_ne c hc y hy⟩)
      i bigrow hbr
    have hre : r' = r3 := Option.some.inj (hr'.symm.trans hr3)
    subst hre
    rw [he]
    exact hb2keysget c hc
  have hr3odds : ∀ c ∈ ODDS_VALUE_COLUMNS, r3.get c
      = (if optGet pm c = none then optGet hm c else optGet pm c) := by
    intro c hc
    obtain ⟨r', hr', he⟩ := fillCols_get_formula ODDS_VALUE_COLUMNS m2 flags c hc
      odds_nodup odds_hist_ne i bigrow hbr
    have hre : r' = r3 := Option.some.inj (hr'.symm.trans hr3)
    subst hre
    rw [he]
    by_cases hL : optGet pm c = none
    · by_cases hH : optGet hm c = none
      · rw [if_neg (show ¬ ((c ++ "_hist") ∈ m2.cols ∧ bigrow.get c = none
            ∧ bigrow.get (c ++ "_hist") ≠ none) from
            fun hcond => hcond.2.2 (by rw [hb2hist_val c hc]; exact hH)),
          if_pos hL, hb2odds c hc, hL, hH]
      · have hcolsmem : c ∈ hist.cols := by
          by_contra hcc
          exact hH (hhm_none c hcc)
        rw [if_pos ⟨(hm2hist_mem c hc).mpr hcolsmem,
            by rw [hb2odds c hc]; exact hL,
            by rw [hb2hist_val c hc]; exact hH⟩,
          if_pos hL, hb2hist_val c hc]
    · rw [if_neg (show ¬ ((c ++ "_hist") ∈ m2.cols ∧ bigrow.get c = none
          ∧ bigrow.get (c ++ "_hist") ≠ none) from
          fun hcond => hL (by rw [← hb2odds c hc]; exact hcond.2.1)),
        if_neg hL, hb2odds c hc]
  have hfliff2 : fl = true ↔ ∃ c ∈ ODDS_VALUE_COLUMNS,
      optGet pm c = none ∧ optGet hm c ≠ none := by
    rw [hfliff]
    constructor
    · rintro (h | ⟨c, hc, hmem, hL, hH⟩)
      · cases h
      · refine ⟨c, hc, ?_, ?_⟩
        · rw [← hb2odds c hc]
          exact hL
        · rw [← hb2hist_val c hc]
          exact hH
    · rintro ⟨c, hc, hL, hH⟩
      refine Or.inr ⟨c, hc, ?_, ?_, ?_⟩
      · refine (hm2hist_mem c hc).mpr ?_
        by_contra hcc
        exact hH (hhm_none c hcc)
      · rw [hb2odds c hc]
        exact hL
      · rw [hb2hist_val c hc]
        exact hH
  obtain ⟨r4, hr4, hr4src, hr4other⟩ :
      ∃ r4, (ensureSourceCol (fillCols ODDS_VALUE_COLUMNS (m2, flags)).1).rows[i]? = some r4
        ∧ r4.get "odds_source" = r3.get "odds_source"
        ∧ (∀ c, c ≠ "odds_source" → r4.get c = r3.get c) := by
    by_cases hsm : "odds_source" ∈ (fillCols ODDS_VALUE_COLUMNS (m2, flags)).1.cols
    · refine ⟨r3, ?_, rfl, fun _ _ => rfl⟩
      unfold ensureSourceCol
      rw [if_pos hsm]
      exact hr3
    · refine ⟨r3 ++ [("odds_source", none)], ?_, ?_, ?_⟩
      · rw [ensureSourceCol_shape _ hsm, addCol_row, hr3]
        rfl
      · have hnm2 : ¬ "odds_source" ∈ m2.cols := by
          intro hmm
          exact hsm ((fillCols_cols_mem ODDS_VALUE_COLUMNS (m2, flags) "odds_source"
            (fun y hy => specials_hist_ne "odds_source" (by decide) y hy)).mpr hmm)
        have hknot : bigrow.hasKey "odds_source" = false := by
          by_cases hkk : bigrow.hasKey "odds_source" = true
          · exact absurd (hsrc_m2.mpr (hb2hk_src.mp hkk)) hnm2
          · exact Bool.eq_false_iff.mpr hkk
        have hk3 : r3.hasKey "odds_source" = false := by
          rw [hr3hk]
          exact hknot
        rw [Row.get_append_right hk3, Row.get_of_not_hasKey hk3]
        simp [Row.get]
      · intro c hc
        exact get_append_single_ne r3 _ _ c hc
  have h5 : ∀ b : Bool, fl = b →
      (tagHistorical (ensureSourceCol (fillCols ODDS_VALUE_COLUMNS (m2, flags)).1)
        (fillCols ODDS_VALUE_COLUMNS (m2, flags)).2).rows[i]?
      = some (if b && (r4.get "odds_source").isNone
          then rowSet r4 "odds_source" (some (Value.vStr "historical")) else r4) := by
    intro b hb
    rw [tagHistorical_row _ _ i r4 b hr4 (hb ▸ hfl)]
  by_cases hpmS : pm.isSome = true
  · have hr4s : r4.get "odds_source" = some (Value.vStr "odds_api") := by
      rw [hr4src, hr3src, hb2src, if_pos hpmS]
    have h5b : (tagHistorical (ensureSourceCol (fillCols ODDS_VALUE_COLUMNS (m2, flags)).1)
        (fillCols ODDS_VALUE_COLUMNS (m2, flags)).2).rows[i]? = some r4 := by
      rw [h5 fl rfl]
      rw [show (fl && (r4.get "odds_source").isNone) = false from by
        rw [hr4s]
        exact Bool.and_false fl]
      rfl
    have h6 : (fillnaSource (tagHistorical
        (ensureSourceCol (fillCols ODDS_VALUE_COLUMNS (m2, flags)).1)
        (fillCols ODDS_VALUE_COLUMNS (m2, flags)).2)).rows[i]? = some r4 := by
      rw [fillnaSource_row, h5b, Option.map_some']
      rw [if_neg (show ¬ (r4.get "odds_source").isNone = true by
        rw [hr4s]
        exact Bool.false_ne_true)]
    by_cases hall : ODDS_VALUE_COLUMNS.all (fun c => (r4.get c).isNone) = true
    · have hallP : ∀ c ∈ ODDS_VALUE_COLUMNS,
          (if optGet pm c = none then optGet hm c else optGet pm c) = none := by
        intro c hc
        have hx := List.all_eq_true.mp hall c hc
        rw [Option.isNone_iff_eq_none] at hx
        rw [← hr3odds c hc, ← hr4other c (odds_ne_source c hc)]
        exact hx
      refine ⟨rowSet r4 "odds_source" (some (Value.vStr "missing")), ?_, ?_, ?_, ?_⟩
      · rw [tagMissing_row, h6, Option.map_some', if_pos hall]
      · intro c hc
        rw [rowSet_get_ne _ _ (keys_ne_source c hc),
          hr4other c (keys_ne_source c hc)]
        exact hr3keys c hc
      · intro c hc
        rw [rowSet_get_ne _ _ (odds_ne_source c hc),
          hr4other c (odds_ne_source c hc)]
        exact hr3odds c hc
      · rw [rowSet_get_self, if_pos hallP]
    · have hallN : ¬ ∀ c ∈ ODDS_VALUE_COLUMNS,
          (if optGet pm c = none then optGet hm c else optGet pm c) = none := by
        intro hP
        apply hall
        rw [List.all_eq_true]
        intro c hc
        rw [Option.isNone_iff_eq_none, hr4other c (odds_ne_source c hc), hr3odds c hc]
        exact hP c hc
      refine ⟨r4, ?_, ?_, ?_, ?_⟩
      · rw [tagMissing_row, h6, Option.map_some', if_neg hall]
      · intro c hc
        rw [hr4other c (keys_ne_source c hc)]
        exact hr3keys c hc
      · intro c hc
        rw [hr4other c (odds_ne_source c hc)]
        exact hr3odds c hc
      · rw [if_neg hallN, if_pos hpmS]
        exact hr4s
  · have hpmN : pm = none := by
      cases hq : pm with
      | none => rfl
      | some prr =>
        rw [hq] at hpmS
        exact absurd rfl hpmS
    have hLnone : ∀ c, optGet pm c = none := by
      intro c
      rw [hpmN]
      rfl
    have hr4s : r4.get "odds_source" = none := by
      rw [hr4src, hr3src, hb2src, hpmN]
      rfl
    by_cases hflb : fl = true
    · have h5b : (tagHistorical (ensureSourceCol (fillCols ODDS_VALUE_COLUMNS (m2, flags)).1)
          (fillCols ODDS_VALUE_COLUMNS (m2, flags)).2).rows[i]?
          = some (rowSet r4 "odds_source" (some (Value.vStr "historical"))) := by
        rw [h5 true hflb]
        rw [show (true && (r4.get "odds_source").isNone) = true from by
          rw [hr4s]
          rfl]
        rw [if_pos rfl]
      have h6 : (fillnaSource (tagHistorical
          (ensureSourceCol (fillCols ODDS_VALUE_COLUMNS (m2, flags)).1)
          (fillCols ODDS_VALUE_COLUMNS (m2, flags)).2)).rows[i]?
          = some (rowSet r4 "odds_source" (some (Value.vStr "historical"))) := by
        rw [fillnaSource_row, h5b, Option.map_some']
        rw [if_neg (show ¬ ((rowSet r4 "odds_source"
            (some (Value.vStr "historical"))).get "odds_source").isNone = true by
          rw [rowSet_get_self]
          exact Bool.false_ne_true)]
      obtain ⟨c0, hc0, hL0, hH0⟩ := hfliff2.mp hflb
      have hallN : ¬ ∀ c ∈ ODDS_VALUE_COLUMNS,
          (if optGet pm c = none then optGet hm c else optGet pm c) = none := by
        intro hP
        have := hP c0 hc0
        rw [if_pos hL0] at this
        exact hH0 this
      have hallB : ODDS_VALUE_COLUMNS.all (fun c =>
          ((rowSet r4 "odds_source" (some (Value.vStr "historical"))).get c).isNone)
          = false := by
        rw [Bool.eq_false_iff]
        intro hx
        apply hallN
        intro c hc
        have hy := List.all_eq_true.mp hx c hc
        rw [Option.isNone_iff_eq_none, rowSet_get_ne _ _ (odds_ne_source c hc),
          hr4other c (odds_ne_source c hc), hr3odds c hc] at hy
        exact hy
      refine ⟨rowSet r4 "odds_source" (some (Value.vStr "historical")), ?_, ?_, ?_, ?_⟩
      · rw [tagMissing_row, h6, Option.map_some', if_neg (by rw [hallB]; exact Bool.false_ne_true)]
      · intro c hc
        rw [rowSet_get_ne _ _ (keys_ne_source c hc),
          hr4other c (keys_ne_source c hc)]
        exact hr3keys c hc
      · intro c hc
        rw [rowSet_get_ne _ _ (odds_ne_source c hc),
          hr4other c (odds_ne_source c hc)]
        exact hr3odds c hc
      · rw [rowSet_get_self, if_neg hallN,
          if_neg (show ¬ pm.isSome = true from hpmS)]
    · have hflf : fl = false := Bool.eq_false_iff.mpr hflb
      have h5b : (tagHistorical (ensureSourceCol (fillCols ODDS_VALUE_COLUMNS (m2, flags)).1)
          (fillCols ODDS_VALUE_COLUMNS (m2, flags)).2).rows[i]? = some r4 := by
        rw [h5 false hflf]
        rw [show (false && (r4.get "odds_source").isNone) = false from rfl]
        rfl
      have h6 : (fillnaSource (tagHistorical
          (ensureSourceCol (fillCols ODDS_VALUE_COLUMNS (m2, flags)).1)
          (fillCols ODDS_VALUE_COLUMNS (m2, flags)).2)).rows[i]?
          = some (rowSet r4 "odds_source" (some (Value.vStr "odds_api"))) := by
        rw [fillnaSource_row, h5b, Option.map_some']
        rw [if_pos (show (r4.get "odds_source").isNone = true by rw [hr4s]; rfl)]
      have hallP : ∀ c ∈ ODDS_VALUE_COLUMNS,
          (if optGet pm c = none then optGet hm c else optGet pm c) = none := by
        intro c hc
        rw [if_pos (hLnone c)]
        by_contra hH
        exact hflb (hfliff2.mpr ⟨c, hc, hLnone c, hH⟩)
      have hall : ODDS_VALUE_COLUMNS.all (fun c =>
          ((rowSet r4 "odds_source" (some (Value.vStr "odds_api"))).get c).isNone)
          = true := by
        rw [List.all_eq_true]
        intro c hc
        rw [Option.isNone_iff_eq_none, rowSet_get_ne _ _ (odds_ne_source c hc),
          hr4other c (odds_ne_source c hc), hr3odds c hc]
        exact hallP c hc
      refine ⟨rowSet (rowSet r4 "odds_source" (some (Value.vStr "odds_api")))
          "odds_source" (some (Value.vStr "missing")), ?_, ?_, ?_, ?_⟩
      · rw [tagMissing_row, h6, Option.map_some', if_pos hall]
      · intro c hc
        rw [rowSet_get_ne _ _ (keys_ne_source c hc),
          rowSet_get_ne _ _ (keys_ne_source c hc),
          hr4other c (keys_ne_source c hc)]
        exact hr3keys c hc
      · intro c hc
        rw [rowSet_get_ne _ _ (odds_ne_source c hc),
          rowSet_get_ne _ _ (odds_ne_source c hc),
          hr4other c (odds_ne_source c hc)]
        exact hr3odds c hc
      · rw [rowSet_get_self, if_pos hallP]

set_option maxHeartbeats 1000000 in
/-- The per row description of the whole pure enrichment: for every
schedule row one output row whose key cells agree with the input (teams
normalized), whose odds value cells follow the live then historical
precedence, and whose provenance tag is missing for an all null row, the
live tag when a live row matched, and historical otherwise. -/
theorem enrichCore_spec (s : Frame) (hOK : SchedOK s) (apiKey : String)
    (fetched : Option (List Event)) (pref : Option String) (histOpt : Option Frame)
    (hwf : ∀ hist, histOpt = some hist →
      (∀ c ∈ hist.cols, c ∈ KEY_COLS ∨ c ∈ ODDS_VALUE_COLUMNS)
      ∧ (∀ r ∈ hist.rows, ∀ p ∈ r, p.1 ∈ hist.cols)
      ∧ (∀ kr : Row, (hist.rows.filter (matchOn KEY_COLS kr)).length ≤ 1)) :
    (enrichCore s apiKey fetched pref histOpt).rows.length = s.rows.length
    ∧ ∀ (i : Nat) (lr : Row), s.rows[i]? = some lr →
      ∃ r : Row, (enrichCore s apiKey fetched pref histOpt).rows[i]? = some r
        ∧ (∀ c ∈ KEY_COLS, r.get c = (keyRowOf lr).get c)
        ∧ (∀ c ∈ ODDS_VALUE_COLUMNS,
            r.get c = finalOdds apiKey fetched pref histOpt lr c)
        ∧ r.get "odds_source" =
            (if ∀ c ∈ ODDS_VALUE_COLUMNS,
                finalOdds apiKey fetched pref histOpt lr c = none
             then some (Value.vStr "missing")
             else if (liveRowFor apiKey fetched pref lr).isSome = true
             then some (Value.vStr "odds_api")
             else some (Value.vStr "historical")) := by
  cases histOpt with
  | none =>
    have hcore : enrichCore s apiKey fetched pref none
        = tagMissing (fillnaSource (ensureSourceCol
            (liveMerged s apiKey fetched pref))) := rfl
    have hfo : ∀ (lr : Row) (c : String), finalOdds apiKey fetched pref none lr c
        = optGet (liveRowFor apiKey fetched pref lr) c := by
      intro lr c
      unfold finalOdds
      by_cases hL : optGet (liveRowFor apiKey fetched pref lr) c = none
      · rw [if_pos hL, hL]
        rfl
      · rw [if_neg hL]
    obtain ⟨h1, h2⟩ := enrichNoHist_spec s hOK apiKey fetched pref
    rw [hcore]
    refine ⟨h1, ?_⟩
    intro i lr hlr
    obtain ⟨r, hr, hkeys, hodds, hsrc⟩ := h2 i lr hlr
    refine ⟨r, hr, hkeys, ?_, ?_⟩
    · intro c hc
      rw [hfo lr c]
      exact hodds c hc
    · rw [hsrc]
      refine if_congr ?_ rfl rfl
      constructor
      · intro h c hc
        rw [hfo lr c]
        exact h c hc
      · intro h c hc
        rw [← hfo lr c]
        exact h c hc
  | some hist =>
    obtain ⟨hhcols, hhalign, hhuniq⟩ := hwf hist rfl
    by_cases hne : hist.rows.isEmpty = false
    · have hcore : enrichCore s apiKey fetched pref (some hist)
          = tagMissing (fillnaSource (tagHistorical
              (ensureSourceCol (fillFromHist (leftMerge (liveMerged s apiKey fetched pref)
                hist KEY_COLS "" "_hist")).1)
              (fillFromHist (leftMerge (liveMerged s apiKey fetched pref)
                hist KEY_COLS "" "_hist")).2)) := by
        show tagMissing (fillnaSource (if hist.rows.isEmpty = false
            then tagHistorical
              (ensureSourceCol (fillFromHist (leftMerge (liveMerged s apiKey fetched pref)
                hist KEY_COLS "" "_hist")).1)
              (fillFromHist (leftMerge (liveMerged s apiKey fetched pref)
                hist KEY_COLS "" "_hist")).2
            else ensureSourceCol (liveMerged s apiKey fetched pref))) = _
        rw [if_pos hne]
      have hhr : ∀ lr : Row, histRowFor (some hist) lr
          = (hist.rows.filter (matchOn KEY_COLS (keyRowOf lr))).head? := by
        intro lr
        show (if hist.rows.isEmpty = false
            then (hist.rows.filter (matchOn KEY_COLS (keyRowOf lr))).head?
            else none) = _
        rw [if_pos hne]
      have hfo : ∀ (lr : Row) (c : String), finalOdds apiKey fetched pref (some hist) lr c
          = (if optGet (liveRowFor apiKey fetched pref lr) c = none
             then optGet ((hist.rows.filter (matchOn KEY_COLS (keyRowOf lr))).head?) c
             else optGet (liveRowFor apiKey fetched pref lr) c) := by
        intro lr c
        unfold finalOdds
        rw [hhr lr]
      obtain ⟨h1, h2⟩ := enrichHist_spec s hOK apiKey fetched pref hist
        hhcols hhalign hhuniq
      rw [hcore]
      refine ⟨h1, ?_⟩
      intro i lr hlr
      obtain ⟨r, hr, hkeys, hodds, hsrc⟩ := h2 i lr hlr
      refine ⟨r, hr, hkeys, ?_, ?_⟩
      · intro c hc
        rw [hfo lr c]
        exact hodds c hc
      · rw [hsrc]
        refine if_congr ?_ rfl rfl
        constructor
        · intro h c hc
          rw [hfo lr c]
          exact h c hc
        · intro h c hc
          rw [← hfo lr c]
          exact h c hc
    · have hcore : enrichCore s apiKey fetched pref (some hist)
          = tagMissing (fillnaSource (ensureSourceCol
              (liveMerged s apiKey fetched pref))) := by
        show tagMissing (fillnaSource (if hist.rows.isEmpty = false
            then tagHistorical
              (ensureSourceCol (fillFromHist (leftMerge (liveMerged s apiKey fetched pref)
                hist KEY_COLS "" "_hist")).1)
              (fillFromHist (leftMerge (liveMerged s apiKey fetched pref)
                hist KEY_COLS "" "_hist")).2
            else ensureSourceCol (liveMerged s apiKey fetched pref))) = _
        rw [if_neg hne]
      have hhr : ∀ lr : Row, histRowFor (some hist) lr = none := by
        intro lr
        show (if hist.rows.isEmpty = false
            then (hist.rows.filter (matchOn KEY_COLS (keyRowOf lr))).head?
            else none) = none
        rw [if_neg hne]
      have hfo : ∀ (lr : Row) (c : String), finalOdds apiKey fetched pref (some hist) lr c
          = optGet (liveRowFor apiKey fetched pref lr) c := by
        intro lr c
        unfold finalOdds
        rw [hhr lr]
        by_cases hL : optGet (liveRowFor apiKey fetched pref lr) c = none
        · rw [if_pos hL, hL]
          rfl
        · rw [if_neg hL]
      obtain ⟨h1, h2⟩ := enrichNoHist_spec s hOK apiKey fetched pref
      rw [hcore]
      refine ⟨h1, ?_⟩
      intro i lr hlr
      obtain ⟨r, hr, hkeys, hodds, hsrc⟩ := h2 i lr hlr
      refine ⟨r, hr, hkeys, ?_, ?_⟩
      · intro c hc
        rw [hfo lr c]
        exact hodds c hc
      · rw [hsrc]
        refine if_congr ?_ rfl rfl
        constructor
        · intro h c hc
          rw [hfo lr c]
          exact h c hc
        · intro h c hc
          rw [← hfo lr c]
          exact h c hc

/-- A historical table with two rows carrying the same key, used to show
that the backfill merge can duplicate schedule rows. -/
def cHistDup : Frame :=
  { cols := ["season", "week", "home_team", "away_team", "spread_line"],
    rows := [
      [("season", some (Value.vInt 2023)), ("week", some (Value.vInt 1)),
       ("home_team", some (Value.vStr "KC")), ("away_team", some (Value.vStr "DEN")),
       ("spread_line", some (Value.vInt (-3)))],
      [("season", some (Value.vInt 2023)), ("week", some (Value.vInt 1)),
       ("home_team", some (Value.vStr "KC")), ("away_team", some (Value.vStr "DEN")),
       ("spread_line", some (Value.vInt (-7)))]] }

set_option maxHeartbeats 2000000 in
/-- C10: for every valid schedule, whenever the loaded historical table has
at most one row per key, enrich returns exactly one output row per input
row, in order, with season and week unchanged and the two team cells
normalized; and a historical table with a duplicated key can duplicate a
schedule row, as a one row schedule producing two output rows shows. -/
theorem enrich_row_preservation (s : Frame) (hOK : SchedOK s) (apiKey : String)
    (fetched : Option (List Event)) (historicalCsv : Option String)
    (histRead : ReadResult) (pref : Option String) (histO : Option Frame)
    (hho : histOutcome historicalCsv histRead = Except.ok histO)
    (huniq : ∀ hist, histO = some hist →
      ∀ kr : Row, (hist.rows.filter (matchOn KEY_COLS kr)).length ≤ 1) :
    (∃ out, fetchScheduleOdds s apiKey fetched historicalCsv histRead pref
        = Except.ok out
      ∧ out.rows.length = s.rows.length
      ∧ ∀ (i : Nat) (lr : Row), s.rows[i]? = some lr →
          ∃ r : Row, out.rows[i]? = some r
            ∧ r.get "season" = lr.get "season"
            ∧ r.get "week" = lr.get "week"
            ∧ r.get "home_team" = normalizeVal (lr.get "home_team")
            ∧ r.get "away_team" = normalizeVal (lr.get "away_team"))
    ∧ ((fetchScheduleOdds cSched "" none (some "hist.csv")
          (ReadResult.content cHistDup) none).toOption.map (fun f => f.rows.length)
        = some 2
      ∧ cSched.rows.length = 1) := by
  constructor
  · have hfetch : fetchScheduleOdds s apiKey fetched historicalCsv histRead pref
        = Except.ok (enrichCore s apiKey fetched pref histO) := by
      unfold fetchScheduleOdds
      rw [if_neg (by rw [sched_missing_nil s hOK]; simp), hho]
    obtain ⟨hlen, hrows⟩ := enrichCore_spec s hOK apiKey fetched pref histO
      (fun hist hh => ⟨(histOutcome_wf historicalCsv histRead hist (hh ▸ hho)).1,
        (histOutcome_wf historicalCsv histRead hist (hh ▸ hho)).2, huniq hist hh⟩)
    refine ⟨_, hfetch, hlen, ?_⟩
    intro i lr hlr
    obtain ⟨r, hr, hkeys, _, _⟩ := hrows i lr hlr
    refine ⟨r, hr, ?_, ?_, ?_, ?_⟩
    · rw [hkeys "season" (by decide), keyRowOf_get_season]
    · rw [hkeys "week" (by decide), keyRowOf_get_week]
    · rw [hkeys "home_team" (by decide), keyRowOf_get_home]
    · rw [hkeys "away_team" (by decide), keyRowOf_get_away]
  · exact ⟨by decide, rfl⟩

/-- Witness for C10 on the concrete one row schedule with no feed and no
historical path. -/
theorem enrich_row_preservation_witness :
    (∃ out, fetchScheduleOdds cSched "" none none ReadResult.missing none
        = Except.ok out
      ∧ out.rows.length = cSched.rows.length
      ∧ ∀ (i : Nat) (lr : Row), cSched.rows[i]? = some lr →
          ∃ r : Row, out.rows[i]? = some r
            ∧ r.get "season" = lr.get "season"
            ∧ r.get "week" = lr.get "week"
            ∧ r.get "home_team" = normalizeVal (lr.get "home_team")
            ∧ r.get "away_team" = normalizeVal (lr.get "away_team"))
    ∧ ((fetchScheduleOdds cSched "" none (some "hist.csv")
          (ReadResult.content cHistDup) none).toOption.map (fun f => f.rows.length)
        = some 2
      ∧ cSched.rows.length = 1) :=
  enrich_row_preservation cSched (by unfold SchedOK; decide) "" none none
    ReadResult.missing none none rfl (fun hist hh => Option.noConfusion hh)

/-- An event whose selected bookmaker carries no market at all: the
extracted live row has the team, timestamp and provenance cells but not a
single odds value cell. -/
def cEventNoOdds : Event :=
  { home_team := some "KC",
    teams := ["KC", "DEN"],
    commence_time := some (Value.vInt 100),
    bookmakers := [{ key := some "pinnacle", markets := [] }] }

/-- A one row historical table for the same game carrying a spread. -/
def cHistC1 : Frame :=
  { cols := ["season", "week", "home_team", "away_team", "spread_line"],
    rows := [
      [("season", some (Value.vInt 2023)), ("week", some (Value.vInt 1)),
       ("home_team", some (Value.vStr "KC")), ("away_team", some (Value.vStr "DEN")),
       ("spread_line", some (Value.vInt (-3)))]] }

set_option maxHeartbeats 2000000 in
/-- C1 counterexample: a schedule row matched by a live event that supplies
no market field at all is still tagged odds_api, even though its only
populated odds value cell was filled from the historical table; the tag
records that a live row matched, not that the live feed supplied a field. -/
theorem odds_source_counterexample :
    (fetchScheduleOdds cSched "key" (some [cEventNoOdds]) (some "hist.csv")
        (ReadResult.content cHistC1) none).toOption.map
      (fun f => f.rows.map (fun r => (r.get "odds_source", r.get "spread_line")))
      = some [(some (Value.vStr "odds_api"), some (Value.vInt (-3)))]
    ∧ ∀ lrow ∈ (liveProj "key" (some [cEventNoOdds]) none).rows,
        ∀ c ∈ ODDS_VALUE_COLUMNS, lrow.get c = none := by
  exact ⟨by decide, by decide⟩

/-- C1 amended: the provenance tag of every enriched row is missing
exactly when all eight odds value cells of the row are null, odds_api
exactly when the row is not all null and a live row matched its team pair,
and historical exactly when the row is not all null and no live row
matched; whether the matching live row itself supplied any field plays no
part. -/
theorem odds_source_amended (s : Frame) (hOK : SchedOK s) (apiKey : String)
    (fetched : Option (List Event)) (historicalCsv : Option String)
    (histRead : ReadResult) (pref : Option String) (histO : Option Frame)
    (hho : histOutcome historicalCsv histRead = Except.ok histO)
    (huniq : ∀ hist, histO = some hist →
      ∀ kr : Row, (hist.rows.filter (matchOn KEY_COLS kr)).length ≤ 1) :
    ∃ out, fetchScheduleOdds s apiKey fetched historicalCsv histRead pref
        = Except.ok out
      ∧ out.rows.length = s.rows.length
      ∧ ∀ (i : Nat) (lr : Row), s.rows[i]? = some lr →
          ∃ r : Row, out.rows[i]? = some r
            ∧ (∀ c ∈ ODDS_VALUE_COLUMNS,
                r.get c = finalOdds apiKey fetched pref histO lr c)
            ∧ (r.get "odds_source" = some (Value.vStr "missing")
                ↔ ∀ c ∈ ODDS_VALUE_COLUMNS, r.get c = none)
            ∧ (r.get "odds_source" = some (Value.vStr "odds_api")
                ↔ ((¬ ∀ c ∈ ODDS_VALUE_COLUMNS, r.get c = none)
                  ∧ (liveRowFor apiKey fetched pref lr).isSome = true))
            ∧ (r.get "odds_source" = some (Value.vStr "historical")
                ↔ ((¬ ∀ c ∈ ODDS_VALUE_COLUMNS, r.get c = none)
                  ∧ (liveRowFor apiKey fetched pref lr).isSome = false)) := by
  have hfetch : fetchScheduleOdds s apiKey fetched historicalCsv histRead pref
      = Except.ok (enrichCore s apiKey fetched pref histO) := by
    unfold fetchScheduleOdds
    rw [if_neg (by rw [sched_missing_nil s hOK]; simp), hho]
  obtain ⟨hlen, hrows⟩ := enrichCore_spec s hOK apiKey fetched pref histO
    (fun hist hh => ⟨(histOutcome_wf historicalCsv histRead hist (hh ▸ hho)).1,
      (histOutcome_wf historicalCsv histRead hist (hh ▸ hho)).2, huniq hist hh⟩)
  refine ⟨_, hfetch, hlen, ?_⟩
  intro i lr hlr
  obtain ⟨r, hr, _, hodds, hsrc⟩ := hrows i lr hlr
  have hPiff : (∀ c ∈ ODDS_VALUE_COLUMNS, r.get c = none)
      ↔ (∀ c ∈ ODDS_VALUE_COLUMNS, finalOdds apiKey fetched pref histO lr c = none) := by
    constructor
    · intro h c hc
      rw [← hodds c hc]
      exact h c hc
    · intro h c hc
      rw [hodds c hc]
      exact h c hc
  refine ⟨r, hr, hodds, ?_, ?_, ?_⟩
  · rw [hsrc]
    by_cases hP : ∀ c ∈ ODDS_VALUE_COLUMNS,
        finalOdds apiKey fetched pref histO lr c = none
    · rw [if_pos hP]
      exact ⟨fun _ => hPiff.mpr hP, fun _ => rfl⟩
    · rw [if_neg hP]
      constructor
      · intro h
        by_cases hpm : (liveRowFor apiKey fetched pref lr).isSome = true
        · rw [if_pos hpm] at h
          exact absurd h (by decide)
        · rw [if_neg hpm] at h
          exact absurd h (by decide)
      · intro h
        exact absurd (hPiff.mp h) hP
  · rw [hsrc]
    by_cases hP : ∀ c ∈ ODDS_VALUE_COLUMNS,
        finalOdds apiKey fetched pref histO lr c = none
    · rw [if_pos hP]
      constructor
      · intro h
        exact absurd h (by decide)
      · rintro ⟨hn, _⟩
        exact absurd (hPiff.mpr hP) hn
    · rw [if_neg hP]
      by_cases hpm : (liveRowFor apiKey fetched pref lr).isSome = true
      · rw [if_pos hpm]
        exact ⟨fun _ => ⟨fun hx => hP (hPiff.mp hx), hpm⟩, fun _ => rfl⟩
      · rw [if_neg hpm]
        constructor
        · intro h
          exact absurd h (by decide)
        · rintro ⟨_, hpm2⟩
          exact absurd hpm2 hpm
  · rw [hsrc]
    by_cases hP : ∀ c ∈ ODDS_VALUE_COLUMNS,
        finalOdds apiKey fetched pref histO lr c = none
    · rw [if_pos hP]
      constructor
      · intro h
        exact absurd h (by decide)
      · rintro ⟨hn, _⟩
        exact absurd (hPiff.mpr hP) hn
    · rw [if_neg hP]
      by_cases hpm : (liveRowFor apiKey fetched pref lr).isSome = true
      · rw [if_pos hpm]
        constructor
        · intro h
          exact absurd h (by decide)
        · rintro ⟨_, hpmf⟩
          exact (Bool.false_ne_true (hpmf ▸ hpm)).elim
      · rw [if_neg hpm]
        have hpmf : (liveRowFor apiKey fetched pref lr).isSome = false :=
          Bool.eq_false_iff.mpr hpm
        exact ⟨fun _ => ⟨fun hx => hP (hPiff.mp hx), hpmf⟩, fun _ => rfl⟩

/-- Witness for the amended C1 characterization on the concrete one row
schedule with no feed and no historical path. -/
theorem odds_source_amended_witness :
    ∃ out, fetchScheduleOdds cSched "" none none ReadResult.missing none
        = Except.ok out
      ∧ out.rows.length = cSched.rows.length
      ∧ ∀ (i : Nat) (lr : Row), cSched.rows[i]? = some lr →
          ∃ r : Row, out.rows[i]? = some r
            ∧ (∀ c ∈ ODDS_VALUE_COLUMNS,
                r.get c = finalOdds "" none none none lr c)
            ∧ (r.get "odds_source" = some (Value.vStr "missing")
                ↔ ∀ c ∈ ODDS_VALUE_COLUMNS, r.get c = none)
            ∧ (r.get "odds_source" = some (Value.vStr "odds_api")
                ↔ ((¬ ∀ c ∈ ODDS_VALUE_COLUMNS, r.get c = none)
                  ∧ (liveRowFor "" none none lr).isSome = true))
            ∧ (r.get "odds_source" = some (Value.vStr "historical")
                ↔ ((¬ ∀ c ∈ ODDS_VALUE_COLUMNS, r.get c = none)
                  ∧ (liveRowFor "" none none lr).isSome = false)) :=
  odds_source_amended cSched (by unfold SchedOK; decide) "" none none
    ReadResult.missing none none rfl (fun hist hh => Option.noConfusion hh)

end OddsSched
